import Mathlib

/-!
Verification of the Kconfiglib specification against the source of
`kconfiglib.py` (a library for reading, evaluating and writing Linux-kernel
style Kconfig configurations).

The development is a shallow embedding of the post-parse data model and of the
operational core of the library:

* tristate values and the tristate algebra (`eval_expr`, kconfiglib.py
  lines 2820-2901),
* the symbol/choice value engine (`Symbol.value`, `Symbol.type`,
  `_get_visibility`, `Choice.value`, `Choice.selection`, `Symbol._get_assignable`),
* the mutating operations (`Symbol.set_value`, `Config.load_config`,
  `Config.unset_values`, `Choice.set_value`),
* the `.config` writer (`Symbol.config_string`, `Config._get_config_strings`,
  `Config.write_config`),
* `$`-reference expansion (`Config._expand_sym_refs`),
* the expression tokenizer/parser in `eval_string` mode (`Config._tokenize`,
  `Config._parse_expr`, `Config._lookup_sym`).

Machine-level caveats of the embedding, documented once here:

* The source caches computed values (`_cached_val`, `_cached_vis`,
  `_cached_assignable`, `_cached_selection`) and invalidates the caches on
  every mutation (`_invalidate`, `_rec_invalidate`, `_invalidate_all`).  The
  embedding models the cache-free denotation: every value is recomputed from
  the configuration structure and the current user assignments.
* The recursion of the value engine (symbol values depend on expressions that
  mention other symbols) is not structurally terminating: on cyclic
  configurations the Python code recurses forever.  The embedding therefore
  threads a fuel parameter; each crossing of a `Symbol.value` boundary
  consumes one unit of fuel, and running out of fuel yields `none` (as does
  any configuration state on which the Python code would raise).
* Python strings are modelled as `List Char` (ASCII character classes are
  used for the `\w`-style classes of the regular expressions involved).
-/

set_option linter.unusedVariables false

namespace KC

/-- Str is the model of a Python string: a list of characters. -/
abbrev Str := List Char

/-- Helper turning a Lean string literal into the `Str` model. -/
def str (s : String) : Str := s.data

/-- Tristate values, ordered n < m < y.  The source represents them as the
strings "n", "m", "y"; see `_TRI_TO_INT` (kconfiglib.py line 3708). -/
inductive Tri
  | n
  | m
  | y
deriving DecidableEq, Repr

/-- Mapping of tristate values to integers, from `_TRI_TO_INT`
(kconfiglib.py lines 3708-3712). -/
def TRI_TO_INT : Tri → Nat
  | .n => 0
  | .m => 1
  | .y => 2

/-- Model of `tri_less` (kconfiglib.py line 2790). -/
def tri_less (v1 v2 : Tri) : Bool := TRI_TO_INT v1 < TRI_TO_INT v2

/-- Model of `tri_less_eq` (kconfiglib.py line 2797). -/
def tri_less_eq (v1 v2 : Tri) : Bool := TRI_TO_INT v1 ≤ TRI_TO_INT v2

/-- Model of `tri_greater` (kconfiglib.py line 2804). -/
def tri_greater (v1 v2 : Tri) : Bool := TRI_TO_INT v1 > TRI_TO_INT v2

/-- Model of `tri_greater_eq` (kconfiglib.py line 2811). -/
def tri_greater_eq (v1 v2 : Tri) : Bool := TRI_TO_INT v1 ≥ TRI_TO_INT v2

/-- Minimum of two tristates, as computed by `_eval_min` (kconfiglib.py
line 3054) once both operands have been evaluated. -/
def triMin (a b : Tri) : Tri := if tri_less a b then a else b

/-- Maximum of two tristates, as computed by `_eval_max` (kconfiglib.py
line 3062) once both operands have been evaluated. -/
def triMax (a b : Tri) : Tri := if tri_greater a b then a else b

/-- Conversion of a tristate to its string representation. -/
def Tri.toStr : Tri → Str
  | .n => str "n"
  | .m => str "m"
  | .y => str "y"

/-- Evaluation of a plain string in a tristate position: `_eval_expr_rec`
returns the string itself when it is "m" or "y" and "n" otherwise
(kconfiglib.py lines 2833-2834).  The same conversion applies wherever a
stored string (for instance a `user_value`) is fed to `_eval_min`/`_eval_max`
as an expression. -/
def triOfStr (s : Str) : Tri :=
  if s = str "m" then .m else if s = str "y" then .y else .n

/-- Symbol types, from the public constants `BOOL, HEX, INT, STRING, TRISTATE,
UNKNOWN` (kconfiglib.py lines 3504-3511). -/
inductive SymType
  | BOOL
  | HEX
  | INT
  | STRING
  | TRISTATE
  | UNKNOWN
deriving DecidableEq, Repr

/-- Default value for each symbol type, from `_DEFAULT_VALUE`
(kconfiglib.py lines 3669-3675). -/
def DEFAULT_VALUE : SymType → Str
  | .BOOL => str "n"
  | .TRISTATE => str "n"
  | .HEX => []
  | .INT => []
  | .STRING => []
  | .UNKNOWN => []

/-- Base used for numeric comparison per operand type, from `_TYPE_TO_BASE`
(kconfiglib.py lines 3698-3705).  0 means the base is inferred from the
format of the string. -/
def TYPE_TO_BASE : SymType → Nat
  | .BOOL => 0
  | .HEX => 16
  | .INT => 10
  | .STRING => 0
  | .TRISTATE => 0
  | .UNKNOWN => 0

/-! Character classes and elementary string routines. -/

/-- ASCII model of the regular-expression class `\w`. -/
def wordChar (c : Char) : Bool := c.isAlphanum || c = '_'

/-- Characters treated as whitespace by Python's `str.strip`/`str.rstrip`
and by the `\s` class (ASCII part). -/
def isPySpace (c : Char) : Bool :=
  c = ' ' || c = '\t' || c = '\n' || c = '\r' || c = '\x0b' || c = '\x0c'

/-- Model of Python `str.rstrip()` with no argument: remove trailing
whitespace (used on each line by `load_config`, kconfiglib.py line 337). -/
def rstrip (s : Str) : Str := (s.reverse.dropWhile isPySpace).reverse

/-- Model of Python `str.strip()` (used by `int()` on its argument). -/
def stripWs (s : Str) : Str := ((s.dropWhile isPySpace).reverse.dropWhile isPySpace).reverse

/-! Model of Python's `int(s, base)` for the bases used by the source
(0, 10 and 16).  `int()` accepts surrounding whitespace, an optional sign,
an optional base prefix ("0x"/"0X" for 16; "0b", "0o", "0x" for base 0) and
single underscores between digits (and directly after a base prefix). -/

/-- Numeric value of a digit character (0-9, a-f, A-F). -/
def digitVal (c : Char) : Nat :=
  if c.isDigit then c.toNat - 48
  else if 'a' ≤ c && c ≤ 'f' then c.toNat - 87
  else if 'A' ≤ c && c ≤ 'F' then c.toNat - 55
  else 99

/-- Whether `c` is a valid digit in base `base` (base at most 16). -/
def isDigitB (base : Nat) (c : Char) : Bool := digitVal c < base

/-- Digit-sequence parser: after a first digit has been consumed, consume the
remaining digits, allowing single underscores between digits. -/
def parseDigitsAux (base : Nat) : Nat → Str → Option Nat
  | acc, [] => some acc
  | acc, '_' :: c :: rest =>
      if isDigitB base c then parseDigitsAux base (acc * base + digitVal c) rest else none
  | _, ['_'] => none
  | acc, c :: rest =>
      if isDigitB base c then parseDigitsAux base (acc * base + digitVal c) rest else none

/-- Nonempty digit sequence in the given base, with single underscores
allowed between digits. -/
def parseDigits (base : Nat) : Str → Option Nat
  | [] => none
  | c :: rest => if isDigitB base c then parseDigitsAux base (digitVal c) rest else none

/-- Digit sequence that may additionally start with one underscore (the form
allowed directly after a base prefix, as in Python's `int("0x_1a", 16)`). -/
def parseDigitsAfterPfx (base : Nat) : Str → Option Nat
  | '_' :: rest => parseDigits base rest
  | s => parseDigits base s

/-- Unsigned part of `int(s, base)`: base prefix handling plus digits. -/
def pyIntUnsigned (base : Nat) (s : Str) : Option Nat :=
  match base, s with
  | 16, '0' :: c :: rest =>
      if c = 'x' || c = 'X' then parseDigitsAfterPfx 16 rest
      else parseDigits 16 ('0' :: c :: rest)
  | 0, '0' :: c :: rest =>
      if c = 'x' || c = 'X' then parseDigitsAfterPfx 16 rest
      else if c = 'o' || c = 'O' then parseDigitsAfterPfx 8 rest
      else if c = 'b' || c = 'B' then parseDigitsAfterPfx 2 rest
      else parseDigits 1 ('0' :: c :: rest)
  | 0, ['0'] => some 0
  | 0, s => parseDigits 10 s
  | base, s => parseDigits base s

/-- Model of Python's `int(s, base)` (raising `ValueError` is modelled by
`none`).  Only the bases that occur in the source are supported: 10 (INT),
16 (HEX) and 0 (infer from prefix, used by relational comparisons). -/
def pyInt (s : Str) (base : Nat) : Option Int :=
  match stripWs s with
  | '-' :: rest => (pyIntUnsigned base rest).map (fun n => -(n : Int))
  | '+' :: rest => (pyIntUnsigned base rest).map (fun n => (n : Int))
  | rest => (pyIntUnsigned base rest).map (fun n => (n : Int))

/-- Model of `_is_base_n` (kconfiglib.py lines 3170-3175). -/
def is_base_n (s : Str) (base : Nat) : Bool := (pyInt s base).isSome

/-- Decimal representation of a natural number (digit characters). -/
def natDigits (n : Nat) : Str := (Nat.toDigits 10 n)

/-- Model of Python's `str()` applied to an int (used when an INT default is
clamped, kconfiglib.py line 1931). -/
def pyIntStr (i : Int) : Str :=
  if i < 0 then '-' :: natDigits i.natAbs else natDigits i.natAbs

/-- Model of Python's `hex()` applied to an int (used when a HEX default is
clamped, kconfiglib.py line 1929): a "0x" prefix and lowercase digits, with
the sign in front for negatives. -/
def pyHexStr (i : Int) : Str :=
  if i < 0 then '-' :: '0' :: 'x' :: Nat.toDigits 16 i.natAbs
  else '0' :: 'x' :: Nat.toDigits 16 i.natAbs

/-- Lexicographic comparison of strings by code point (Python `<`). -/
def strLt : Str → Str → Bool
  | [], [] => false
  | [], _ :: _ => true
  | _ :: _, [] => false
  | a :: as, b :: bs => if a < b then true else if b < a then false else strLt as bs

/-- Model of `_strcmp` (kconfiglib.py lines 3177-3181): Python compares
strings lexicographically by code point. -/
def strcmp (s1 s2 : Str) : Int :=
  if s1 = s2 then 0
  else if strLt s1 s2 then -1
  else 1

/-! Expressions.  The source represents an expression as a Symbol object, a
plain string, or a tuple whose head is one of the `_AND, _OR, _NOT` and
relation constants (kconfiglib.py lines 3683-3693).  Symbols are referenced
here by their index in `Config.syms`.  Relation operands are always atoms
(a Symbol or a string) in every expression the parser builds. -/

/-- Leaf of an expression: a Symbol reference (by symbol-table index) or a
constant string. -/
inductive Atom
  | sym (i : Nat)
  | const (s : Str)
deriving DecidableEq, Repr

/-- Relation operators, from the `_EQUAL, _UNEQUAL, _LESS, _LESS_EQUAL,
_GREATER, _GREATER_EQUAL` constants. -/
inductive RelOp
  | EQUAL
  | UNEQUAL
  | LESS
  | LESS_EQUAL
  | GREATER
  | GREATER_EQUAL
deriving DecidableEq, Repr

/-- Expression trees. -/
inductive Expr
  | atom (a : Atom)
  | AND (a b : Expr)
  | OR (a b : Expr)
  | NOT (a : Expr)
  | REL (op : RelOp) (a b : Atom)
deriving DecidableEq, Repr

/-! The post-parse data model.  Structural fields are immutable after
`_finalize_tree`; only user values (held separately in `State`) mutate. -/

/-- Configuration symbol (class `Symbol`, kconfiglib.py line 1587).  The
fields are the structural attributes set by the parser and finalizer:

* `stype` is `Symbol._type` (the raw declared type, before the modules-aware
  promotion performed by the `Symbol.type` property);
* `defaults`, `ranges`, `rev_dep`, `weak_rev_dep`, `direct_deps` as in the
  source (`rev_dep`/`weak_rev_dep`/`direct_deps` start as the constant "n"
  and are never `None`, hence plain `Expr`);
* `promptConds` holds `node.prompt[1]` for each menu node of the symbol that
  carries a prompt (`_get_visibility` folds over exactly these);
* `nnodes` is the number of defining menu nodes (`Symbol.nodes`); a symbol
  is defined iff `nnodes ≠ 0`;
* `choice` is the index of the owning choice, if any;
* `env_var` is `Symbol.env_var` (set for `option env` symbols, which are
  never written out). -/
structure Symbol where
  name : Str
  stype : SymType
  defaults : List (Expr × Option Expr)
  ranges : List (Atom × Atom × Option Expr)
  rev_dep : Expr
  weak_rev_dep : Expr
  direct_deps : Expr
  promptConds : List (Option Expr)
  nnodes : Nat
  choice : Option Nat
  env_var : Option Str
deriving DecidableEq, Repr

/-- Choice group (class `Choice`, kconfiglib.py line 2307).  `ctype` is the
raw `Choice._type`; `syms` are the member symbol indices (bound by
`_finalize_choice`); `defaults` holds `(symbol, cond)` pairs. -/
structure Choice where
  name : Option Str
  ctype : SymType
  syms : List Nat
  defaults : List (Nat × Option Expr)
  is_optional : Bool
  promptConds : List (Option Expr)
deriving DecidableEq, Repr

/-- Item of a menu node in the finalized tree (`MenuNode.item`): a Symbol, a
Choice, or one of the `MENU`/`COMMENT` markers. -/
inductive MItem
  | sym (i : Nat)
  | choice (ci : Nat)
  | MENU
  | COMMENT
deriving DecidableEq, Repr

/-- Menu node data needed by the `.config` writer walk: the item, the prompt
text, the node dependency and (for menus) the `visible if` condition. -/
structure MNode where
  item : MItem
  promptText : Str
  dep : Option Expr
  visibility : Option Expr
deriving DecidableEq, Repr

/-- The post-parse configuration (class `Config`).  `configPfx` is
`Config.config_prefix`, captured from the environment at construction
(kconfiglib.py lines 240-242).  `modulesIdx` is the index of the symbol
named MODULES, registered unconditionally by the constructor (line 268).
`menuWalk` is the preorder sequence of the finalized menu-node tree; the
iterative parent-pointer walk of `_get_config_strings` (lines 1449-1462)
visits the nodes exactly in this order.  `defconfigList` is the index of the
`option defconfig_list` symbol, if any. -/
structure Config where
  syms : List Symbol
  choices : List Choice
  configPfx : Str
  modulesIdx : Nat
  menuWalk : List MNode
  defconfigList : Option Nat
deriving DecidableEq, Repr

/-- Mutable per-symbol state: `Symbol.user_value`. -/
structure SymSt where
  user_value : Option Str
deriving DecidableEq, Repr

/-- Mutable per-choice state: `Choice.user_value` and
`Choice.user_selection`. -/
structure ChoiceSt where
  user_value : Option Str
  user_selection : Option Nat
deriving DecidableEq, Repr

/-- The mutable state of a configuration: the user values of all symbols and
choices, indexed in parallel with `Config.syms`/`Config.choices`. -/
structure State where
  symSt : List SymSt
  choiceSt : List ChoiceSt
deriving DecidableEq, Repr

/-- Symbol lookup by index. -/
def getSym (cfg : Config) (i : Nat) : Option Symbol := cfg.syms[i]?

/-- Choice lookup by index. -/
def getChoice (cfg : Config) (ci : Nat) : Option Choice := cfg.choices[ci]?

/-- User value of symbol `i` in state `st`. -/
def symUser (st : State) (i : Nat) : Option Str :=
  match st.symSt[i]? with
  | some s => s.user_value
  | none => none

/-- User value (mode) of choice `ci` in state `st`. -/
def choiceUserVal (st : State) (ci : Nat) : Option Str :=
  match st.choiceSt[ci]? with
  | some c => c.user_value
  | none => none

/-- User selection of choice `ci` in state `st`. -/
def choiceUserSel (st : State) (ci : Nat) : Option Nat :=
  match st.choiceSt[ci]? with
  | some c => c.user_selection
  | none => none

/-! The value engine.

Every function below is a direct transcription of one method of the source.
The functions take an oracle `prev : Oracle` giving the result of
`Symbol.value` (value string together with the `_write_to_conf` flag set
alongside it) for calls that cross a `Symbol.value` boundary; all other
method calls are direct calls at the same level.  `valueOracle` ties the
knot with a fuel parameter. -/

/-- Result of `Symbol.value` as seen by other computations: the value string
and the `_write_to_conf` flag that the computation sets. -/
abbrev Oracle := Nat → Option (Str × Bool)

/-- Model of `_str_val` (kconfiglib.py lines 3099-3104) on an atom: a plain
string is returned as is, a Symbol contributes its current value. -/
def str_val (prev : Oracle) : Atom → Option Str
  | .const s => some s
  | .sym i => (prev i).map (fun p => p.1)

/-- Model of `_str_val` applied to a default-value expression: the source
assumes a string or Symbol and crashes on a tuple (no `.value` attribute),
which the embedding renders as `none`. -/
def strValExpr (prev : Oracle) : Expr → Option Str
  | .atom a => str_val prev a
  | _ => none

/-- Model of `_type_and_val` (kconfiglib.py lines 3143-3151). -/
def type_and_val (cfg : Config) (prev : Oracle) : Atom → Option (SymType × Str)
  | .const s => some (.STRING, s)
  | .sym i =>
      match getSym cfg i with
      | none => none
      | some sym => (prev i).map (fun p => (sym.stype, p.1))

/-- Truth of a comparison outcome for each relation operator
(kconfiglib.py lines 2891-2898). -/
def relRes (op : RelOp) (comp : Int) : Tri :=
  match op with
  | .EQUAL => if comp = 0 then .y else .n
  | .UNEQUAL => if comp ≠ 0 then .y else .n
  | .LESS => if comp < 0 then .y else .n
  | .LESS_EQUAL => if comp ≤ 0 then .y else .n
  | .GREATER => if comp > 0 then .y else .n
  | .GREATER_EQUAL => if comp ≥ 0 then .y else .n

/-- Model of the relation case of `_eval_expr_rec` (kconfiglib.py lines
2862-2898): compare lexicographically when both operands are strings,
otherwise try base-aware integer comparison, falling back to string
(in)equality and to "n" for ordered relations. -/
def evalRel (cfg : Config) (prev : Oracle) (op : RelOp) (a b : Atom) : Option Tri :=
  match type_and_val cfg prev a, type_and_val cfg prev b with
  | some (t1, s1), some (t2, s2) =>
      if t1 = .STRING ∧ t2 = .STRING then
        some (relRes op (strcmp s1 s2))
      else
        match pyInt s1 (TYPE_TO_BASE t1), pyInt s2 (TYPE_TO_BASE t2) with
        | some n1, some n2 => some (relRes op (n1 - n2))
        | _, _ =>
            if op = .EQUAL ∨ op = .UNEQUAL then some (relRes op (strcmp s1 s2))
            else some .n
  | _, _ => none

/-- Model of `_eval_expr_rec` (kconfiglib.py lines 2827-2901).  A Symbol
leaf contributes its value when its raw type is bool or tristate and "n"
otherwise; a string leaf is itself when "m"/"y" and "n" otherwise; AND and OR
short-circuit exactly as in the source. -/
def eval_expr_rec (cfg : Config) (prev : Oracle) : Expr → Option Tri
  | .atom (.sym i) =>
      match getSym cfg i with
      | none => none
      | some sym =>
          if sym.stype = .BOOL ∨ sym.stype = .TRISTATE then
            (prev i).map (fun p => triOfStr p.1)
          else some .n
  | .atom (.const s) => some (triOfStr s)
  | .AND a b =>
      match eval_expr_rec cfg prev a with
      | none => none
      | some .n => some .n
      | some ev1 =>
          match eval_expr_rec cfg prev b with
          | none => none
          | some ev2 =>
              if ev1 = .y then some ev2
              else if ev2 ≠ .n then some .m
              else some .n
  | .OR a b =>
      match eval_expr_rec cfg prev a with
      | none => none
      | some .y => some .y
      | some ev1 =>
          match eval_expr_rec cfg prev b with
          | none => none
          | some ev2 =>
              if ev1 = .n then some ev2
              else if ev2 = .y then some .y
              else some .m
  | .NOT a =>
      match eval_expr_rec cfg prev a with
      | none => none
      | some .y => some .n
      | some .n => some .y
      | some _ => some .m
  | .REL op a b => evalRel cfg prev op a b

/-- Model of `eval_expr` (kconfiglib.py lines 2820-2825): a missing
expression (`None`) evaluates to "y". -/
def eval_expr (cfg : Config) (prev : Oracle) : Option Expr → Option Tri
  | none => some .y
  | some e => eval_expr_rec cfg prev e

/-- Whether `config.modules.value == "n"` (the modules test appearing in
`Symbol.type`, `Choice.type` and `_get_visibility`).  The MODULES symbol may
be undefined, in which case its value is its own name and the test is
false. -/
def modulesValueIsN (cfg : Config) (prev : Oracle) : Option Bool :=
  (prev cfg.modulesIdx).map (fun p => decide (p.1 = str "n"))

/-- Final promotion step of `_get_visibility` (kconfiglib.py lines
3016-3021): "m" becomes "y" for non-tristate symbols/choices or when
modules are off.  The `or` of the source short-circuits, so the modules
value is only consulted for tristates. -/
def promoteVis (cfg : Config) (prev : Oracle) (t : SymType) (vis : Tri) : Option Tri :=
  if vis = .m then
    if t ≠ .TRISTATE then some .y
    else
      match modulesValueIsN cfg prev with
      | none => none
      | some b => if b then some .y else some vis
  else some vis

/-- Fold of `_eval_max` over the prompt conditions of a symbol's or choice's
menu nodes (`_get_visibility`, kconfiglib.py lines 2998-3000). -/
def visFold (cfg : Config) (prev : Oracle) (acc : Tri) : List (Option Expr) → Option Tri
  | [] => some acc
  | cond :: rest =>
      match eval_expr cfg prev cond with
      | none => none
      | some t => visFold cfg prev (triMax acc t) rest

/-- Model of `Choice.type` (kconfiglib.py lines 2431-2436): a tristate
choice becomes bool when modules are off. -/
def choiceTypeD (cfg : Config) (prev : Oracle) (c : Choice) : Option SymType :=
  if c.ctype = .TRISTATE then
    match modulesValueIsN cfg prev with
    | none => none
    | some b => if b then some .BOOL else some .TRISTATE
  else some c.ctype

/-- Model of `_get_visibility` for a Choice (kconfiglib.py lines 2989-3023;
the choice-member special cases do not apply). -/
def choiceVisD (cfg : Config) (st : State) (prev : Oracle) (ci : Nat) : Option Tri :=
  match getChoice cfg ci with
  | none => none
  | some c =>
      match visFold cfg prev .n c.promptConds with
      | none => none
      | some vis => promoteVis cfg prev c.ctype vis

/-- Model of `Choice.value` (kconfiglib.py lines 2438-2452): the mode is the
user value bounded by the visibility, lifted to "m" for non-optional
choices, with "m" promoted to "y" for bool choices. -/
def choiceValueD (cfg : Config) (st : State) (prev : Oracle) (ci : Nat) : Option Tri :=
  match getChoice cfg ci with
  | none => none
  | some c =>
      match
        (match choiceUserVal st ci with
         | some uv => (choiceVisD cfg st prev ci).map (fun v => triMin (triOfStr uv) v)
         | none => some Tri.n) with
      | none => none
      | some val0 =>
          let val := if val0 = .n ∧ ¬ c.is_optional then Tri.m else val0
          if val = .m then
            match choiceTypeD cfg prev c with
            | none => none
            | some t => if t = .BOOL then some .y else some val
          else some val

/-- Model of `Symbol.type` (kconfiglib.py lines 1778-1788): a tristate
symbol becomes bool when its choice is in "y" mode or when modules are off
(the `or` short-circuits left to right). -/
def symTypeD (cfg : Config) (st : State) (prev : Oracle) (i : Nat) : Option SymType :=
  match getSym cfg i with
  | none => none
  | some sym =>
      if sym.stype = .TRISTATE then
        match sym.choice with
        | some ci =>
            match choiceValueD cfg st prev ci with
            | none => none
            | some cv =>
                if cv = .y then some .BOOL
                else
                  match modulesValueIsN cfg prev with
                  | none => none
                  | some b => if b then some .BOOL else some .TRISTATE
        | none =>
            match modulesValueIsN cfg prev with
            | none => none
            | some b => if b then some .BOOL else some .TRISTATE
      else some sym.stype

/-- Model of `_get_visibility` for a Symbol (kconfiglib.py lines 2989-3023),
including the two choice-member special cases and the min with the choice
visibility. -/
def symVisD (cfg : Config) (st : State) (prev : Oracle) (i : Nat) : Option Tri :=
  match getSym cfg i with
  | none => none
  | some sym =>
      match visFold cfg prev .n sym.promptConds with
      | none => none
      | some vis0 =>
          match sym.choice with
          | none => promoteVis cfg prev sym.stype vis0
          | some ci =>
              match getChoice cfg ci with
              | none => none
              | some c =>
                  match
                    (if c.ctype = .TRISTATE ∧ sym.stype ≠ .TRISTATE then
                       (choiceValueD cfg st prev ci).map (fun cv => decide (cv ≠ .y))
                     else some false) with
                  | none => none
                  | some true => some .n
                  | some false =>
                      match
                        (if sym.stype = .TRISTATE ∧ vis0 = .m then
                           (choiceValueD cfg st prev ci).map (fun cv => decide (cv = .y))
                         else some false) with
                      | none => none
                      | some true => some .n
                      | some false =>
                          match choiceVisD cfg st prev ci with
                          | none => none
                          | some cvis => promoteVis cfg prev sym.stype (triMin vis0 cvis)

/-- Scan of `Choice.defaults` by `Choice.default_selection` (kconfiglib.py
lines 2504-2508): the first default whose condition is satisfied and whose
symbol is visible. -/
def scanChoiceDefaults (cfg : Config) (st : State) (prev : Oracle) :
    List (Nat × Option Expr) → Option (Option Nat)
  | [] => some none
  | (si, cond) :: rest =>
      match eval_expr cfg prev cond with
      | none => none
      | some cv =>
          if cv ≠ .n then
            match symVisD cfg st prev si with
            | none => none
            | some v => if v ≠ .n then some (some si) else scanChoiceDefaults cfg st prev rest
          else scanChoiceDefaults cfg st prev rest

/-- Fallback of `Choice.default_selection` (kconfiglib.py lines 2510-2513):
the first visible member. -/
def firstVisibleMember (cfg : Config) (st : State) (prev : Oracle) :
    List Nat → Option (Option Nat)
  | [] => some none
  | si :: rest =>
      match symVisD cfg st prev si with
      | none => none
      | some v => if v ≠ .n then some (some si) else firstVisibleMember cfg st prev rest

/-- Model of `Choice.default_selection` (kconfiglib.py lines 2499-2516). -/
def choiceDefaultSelD (cfg : Config) (st : State) (prev : Oracle) (c : Choice) :
    Option (Option Nat) :=
  match scanChoiceDefaults cfg st prev c.defaults with
  | none => none
  | some (some si) => some (some si)
  | some none => firstVisibleMember cfg st prev c.syms

/-- Model of `Choice.selection` (kconfiglib.py lines 2476-2497): `None`
unless the mode is "y"; the user selection wins when it has visibility "y",
otherwise the default selection. -/
def choiceSelectionD (cfg : Config) (st : State) (prev : Oracle) (ci : Nat) :
    Option (Option Nat) :=
  match getChoice cfg ci with
  | none => none
  | some c =>
      match choiceValueD cfg st prev ci with
      | none => none
      | some cv =>
          if cv ≠ .y then some none
          else
            match choiceUserSel st ci with
            | some us =>
                match symVisD cfg st prev us with
                | none => none
                | some v =>
                    if v = .y then some (some us)
                    else choiceDefaultSelD cfg st prev c
            | none => choiceDefaultSelD cfg st prev c

/-- Scan of the defaults of a bool/tristate symbol (kconfiglib.py lines
1824-1829): the first default whose condition is not "n" sets the value to
`min(default, cond)` and sets the write flag. -/
def scanDefaultsBT (cfg : Config) (prev : Oracle) (p : Tri × Bool) :
    List (Expr × Option Expr) → Option (Tri × Bool)
  | [] => some p
  | (dval, cond) :: rest =>
      match eval_expr cfg prev cond with
      | none => none
      | some cv =>
          if cv ≠ .n then
            (eval_expr_rec cfg prev dval).map (fun dv => (triMin dv cv, true))
          else scanDefaultsBT cfg prev p rest

/-- Bool/tristate value before reverse dependencies, for a symbol outside a
choice (kconfiglib.py lines 1812-1838): user value bounded by visibility if
visible, otherwise defaults followed by the weak reverse dependency (imply)
gated on the direct dependencies. -/
def userOrDefaultsBT (cfg : Config) (st : State) (prev : Oracle) (i : Nat)
    (sym : Symbol) (vis : Tri) : Option (Tri × Bool) :=
  match symUser st i with
  | some uv =>
      if vis ≠ .n then some (triMin (triOfStr uv) vis, decide (vis ≠ .n))
      else defaultsAndWeak cfg st prev sym vis
  | none => defaultsAndWeak cfg st prev sym vis
where
  defaultsAndWeak (cfg : Config) (st : State) (prev : Oracle) (sym : Symbol)
      (vis : Tri) : Option (Tri × Bool) :=
    match scanDefaultsBT cfg prev (.n, decide (vis ≠ .n)) sym.defaults with
    | none => none
    | some p =>
        match eval_expr_rec cfg prev sym.direct_deps with
        | none => none
        | some dd =>
            if dd ≠ .n then
              match eval_expr_rec cfg prev sym.weak_rev_dep with
              | none => none
              | some w => if w ≠ .n then some (triMax p.1 w, true) else some p
            else some p

/-- Application of the reverse dependency (select), kconfiglib.py lines
1840-1844: a non-"n" `rev_dep` lifts the value and sets the write flag. -/
def applyRevDep (cfg : Config) (prev : Oracle) (sym : Symbol) (p : Tri × Bool) :
    Option (Tri × Bool) :=
  match eval_expr_rec cfg prev sym.rev_dep with
  | none => none
  | some r => if r ≠ .n then some (triMax p.1 r, true) else some p

/-- Value of a bool/tristate symbol inside a choice (kconfiglib.py lines
1846-1864). -/
def choiceMemberVal (cfg : Config) (st : State) (prev : Oracle) (i : Nat) (ci : Nat)
    (vis : Tri) : Option (Tri × Bool) :=
  if vis ≠ .n then
    match choiceValueD cfg st prev ci with
    | none => none
    | some mode =>
        if mode ≠ .n then
          if mode = .y then
            match choiceSelectionD cfg st prev ci with
            | none => none
            | some sel => some ((if sel = some i then Tri.y else Tri.n), true)
          else
            if symUser st i = some (str "m") ∨ symUser st i = some (str "y") then
              some (.m, true)
            else some (.n, true)
        else some (.n, false)
  else some (.n, false)

/-- Final promotion of "m" to "y" (kconfiglib.py lines 1866-1871): applies
when the effective type is bool or when the weak reverse dependency
evaluates to "y" (the `or` short-circuits). -/
def promoteMY (cfg : Config) (st : State) (prev : Oracle) (i : Nat) (sym : Symbol)
    (p : Tri × Bool) : Option (Tri × Bool) :=
  if p.1 = .m then
    match symTypeD cfg st prev i with
    | none => none
    | some t =>
        if t = .BOOL then some (.y, p.2)
        else
          match eval_expr_rec cfg prev sym.weak_rev_dep with
          | none => none
          | some w => if w = .y then some (.y, p.2) else some p
  else some p

/-- Value of a bool/tristate symbol (the `BOOL, TRISTATE` branch of
`Symbol.value`, kconfiglib.py lines 1811-1871), with the `_write_to_conf`
flag it sets. -/
def symValueTD (cfg : Config) (st : State) (prev : Oracle) (i : Nat) :
    Option (Tri × Bool) :=
  match getSym cfg i with
  | none => none
  | some sym =>
      match symVisD cfg st prev i with
      | none => none
      | some vis =>
          match
            (match sym.choice with
             | none =>
                 match userOrDefaultsBT cfg st prev i sym vis with
                 | none => none
                 | some p => applyRevDep cfg prev sym p
             | some ci => choiceMemberVal cfg st prev i ci vis) with
          | none => none
          | some p => promoteMY cfg st prev i sym p

/-- Scan of the active range (kconfiglib.py lines 1876-1891): the first
range whose condition is not "n" provides the bounds; a bound whose string
is not well-formed in the base counts as 0. -/
def scanRanges (cfg : Config) (prev : Oracle) (base : Nat) :
    List (Atom × Atom × Option Expr) → Option (Option (Int × Int))
  | [] => some none
  | (lo, hi, cond) :: rest =>
      match eval_expr cfg prev cond with
      | none => none
      | some cv =>
          if cv ≠ .n then
            match str_val prev lo, str_val prev hi with
            | some ls, some hs =>
                some (some ((if is_base_n ls base then (pyInt ls base).getD 0 else 0),
                            (if is_base_n hs base then (pyInt hs base).getD 0 else 0)))
            | _, _ => none
          else scanRanges cfg prev base rest

/-- Canonical form used when an int/hex default is clamped (kconfiglib.py
lines 1929-1931): `hex()` for HEX, `str()` for INT. -/
def canonIntHex (t : SymType) (v : Int) : Str :=
  if t = .HEX then pyHexStr v else pyIntStr v

/-- Scan of the defaults of an int/hex symbol (kconfiglib.py lines
1908-1933).  Each default whose condition holds sets the write flag and the
raw value; a well-formed value is clamped to the active range and ends the
scan (the `break` sits inside the well-formedness test, so a malformed
default value leaks into `val` while the scan continues).  Returns the value
accumulator, the write flag and whether the scan ended with `break`. -/
def scanDefaultsIH (cfg : Config) (prev : Oracle) (t : SymType) (base : Nat)
    (ro : Option (Int × Int)) (acc : Str) (accW : Bool) :
    List (Expr × Option Expr) → Option (Str × Bool × Bool)
  | [] => some (acc, accW, false)
  | (dval, cond) :: rest =>
      match eval_expr cfg prev cond with
      | none => none
      | some cv =>
          if cv ≠ .n then
            match strValExpr prev dval with
            | none => none
            | some vs =>
                if is_base_n vs base then
                  match ro with
                  | some (lo, hi) =>
                      let vn := (pyInt vs base).getD 0
                      if vn < lo then some (canonIntHex t lo, true, true)
                      else if vn > hi then some (canonIntHex t hi, true, true)
                      else some (vs, true, true)
                  | none => some (vs, true, true)
                else scanDefaultsIH cfg prev t base ro vs true rest
          else scanDefaultsIH cfg prev t base ro acc accW rest

/-- Value of an INT/HEX symbol (kconfiglib.py lines 1873-1940), with the
`_write_to_conf` flag. -/
def intHexValD (cfg : Config) (st : State) (prev : Oracle) (i : Nat) (sym : Symbol) :
    Option (Str × Bool) :=
  match symVisD cfg st prev i with
  | none => none
  | some vis =>
      match scanRanges cfg prev (if sym.stype = .HEX then 16 else 10) sym.ranges with
      | none => none
      | some ro =>
          let base := if sym.stype = .HEX then 16 else 10
          let uvOk : Bool :=
            match symUser st i with
            | some uv =>
                decide (vis ≠ .n) && is_base_n uv base &&
                  (match ro with
                   | some (lo, hi) =>
                       decide (lo ≤ (pyInt uv base).getD 0) &&
                         decide ((pyInt uv base).getD 0 ≤ hi)
                   | none => true)
            | none => false
          if uvOk then
            match symUser st i with
            | some uv => some (uv, decide (vis ≠ .n))
            | none => none
          else
            match scanDefaultsIH cfg prev sym.stype base ro (DEFAULT_VALUE sym.stype)
                (decide (vis ≠ .n)) sym.defaults with
            | none => none
            | some (val, wtc, broke) =>
                if broke then some (val, wtc)
                else
                  match ro with
                  | some (lo, _) =>
                      if lo > 0 then some (canonIntHex sym.stype lo, wtc)
                      else some (val, wtc)
                  | none => some (val, wtc)

/-- Scan of the defaults of a STRING symbol (kconfiglib.py lines
1948-1952). -/
def scanDefaultsStr (cfg : Config) (prev : Oracle) :
    List (Expr × Option Expr) → Option (Option Str)
  | [] => some none
  | (dval, cond) :: rest =>
      match eval_expr cfg prev cond with
      | none => none
      | some cv =>
          if cv ≠ .n then (strValExpr prev dval).map some
          else scanDefaultsStr cfg prev rest

/-- Value of a STRING symbol (kconfiglib.py lines 1942-1952), with the
`_write_to_conf` flag. -/
def stringValD (cfg : Config) (st : State) (prev : Oracle) (i : Nat) (sym : Symbol) :
    Option (Str × Bool) :=
  match symVisD cfg st prev i with
  | none => none
  | some vis =>
      match symUser st i with
      | some uv =>
          if vis ≠ .n then some (uv, decide (vis ≠ .n))
          else stringDefaults cfg prev sym vis
      | none => stringDefaults cfg prev sym vis
where
  stringDefaults (cfg : Config) (prev : Oracle) (sym : Symbol) (vis : Tri) :
      Option (Str × Bool) :=
    match scanDefaultsStr cfg prev sym.defaults with
    | none => none
    | some (some v) => some (v, true)
    | some none => some (DEFAULT_VALUE .STRING, decide (vis ≠ .n))

/-- Model of `Symbol.value` (kconfiglib.py lines 1790-1955): dispatch on the
raw type.  An undefined (UNKNOWN) symbol evaluates to its own name, with the
write flag keeping its initial `False`. -/
def symValStrD (cfg : Config) (st : State) (prev : Oracle) (i : Nat) :
    Option (Str × Bool) :=
  match getSym cfg i with
  | none => none
  | some sym =>
      match sym.stype with
      | .UNKNOWN => some (sym.name, false)
      | .BOOL => (symValueTD cfg st prev i).map (fun p => (p.1.toStr, p.2))
      | .TRISTATE => (symValueTD cfg st prev i).map (fun p => (p.1.toStr, p.2))
      | .INT => intHexValD cfg st prev i sym
      | .HEX => intHexValD cfg st prev i sym
      | .STRING => stringValD cfg st prev i sym

/-- The fuel-indexed value oracle: level `f+1` computes `Symbol.value` with
all nested `Symbol.value` calls answered by level `f`. -/
def valueOracle (cfg : Config) (st : State) : Nat → Oracle
  | 0 => fun _ => none
  | f + 1 => fun i => symValStrD cfg st (valueOracle cfg st f) i

/-- Model of `Symbol._get_assignable` (kconfiglib.py lines 2161-2201).  The
`self.type` tests use the effective (modules-aware) type, and the `or`s
short-circuit, so `weak_rev_dep` is only evaluated for tristates. -/
def get_assignableD (cfg : Config) (st : State) (prev : Oracle) (i : Nat) :
    Option Str :=
  match getSym cfg i with
  | none => none
  | some sym =>
      if sym.stype ≠ .BOOL ∧ sym.stype ≠ .TRISTATE then some []
      else
        match symVisD cfg st prev i with
        | none => none
        | some vis =>
            if vis = .n then some []
            else
              match eval_expr_rec cfg prev sym.rev_dep with
              | none => none
              | some rd =>
                  if vis = .y then
                    if rd = .n then
                      match boolish cfg st prev i sym with
                      | none => none
                      | some true => some (str "ny")
                      | some false => some (str "nmy")
                    else if rd = .y then some (str "y")
                    else
                      match boolish cfg st prev i sym with
                      | none => none
                      | some true => some (str "y")
                      | some false => some (str "my")
                  else
                    if rd = .n then
                      match eval_expr_rec cfg prev sym.weak_rev_dep with
                      | none => none
                      | some w => if w ≠ .y then some (str "m") else some (str "y")
                    else if rd = .y then some (str "y")
                    else some (str "m")
where
  boolish (cfg : Config) (st : State) (prev : Oracle) (i : Nat) (sym : Symbol) :
      Option Bool :=
    match symTypeD cfg st prev i with
    | none => none
    | some t =>
        if t = .BOOL then some true
        else
          match eval_expr_rec cfg prev sym.weak_rev_dep with
          | none => none
          | some w => some (decide (w = .y))

/-! Fuel-level wrappers used in the theorem statements: a computation "at
fuel `f`" runs the corresponding method with all `Symbol.value` crossings
answered by `valueOracle cfg st f`. -/

/-- Value of symbol `i` at fuel `f` (the string `Symbol.value` returns). -/
def symValueAt (f : Nat) (cfg : Config) (st : State) (i : Nat) : Option Str :=
  (symValStrD cfg st (valueOracle cfg st f) i).map (fun p => p.1)

/-- The `_write_to_conf` flag of symbol `i` at fuel `f`. -/
def writeFlagAt (f : Nat) (cfg : Config) (st : State) (i : Nat) : Option Bool :=
  (symValStrD cfg st (valueOracle cfg st f) i).map (fun p => p.2)

/-- Evaluation of an optional expression at fuel `f`. -/
def evalAt (f : Nat) (cfg : Config) (st : State) (e : Option Expr) : Option Tri :=
  eval_expr cfg (valueOracle cfg st f) e

/-- Evaluation of an expression at fuel `f`. -/
def evalRecAt (f : Nat) (cfg : Config) (st : State) (e : Expr) : Option Tri :=
  eval_expr_rec cfg (valueOracle cfg st f) e

/-- Visibility of symbol `i` at fuel `f`. -/
def symVisAt (f : Nat) (cfg : Config) (st : State) (i : Nat) : Option Tri :=
  symVisD cfg st (valueOracle cfg st f) i

/-- Effective type of symbol `i` at fuel `f`. -/
def symTypeAt (f : Nat) (cfg : Config) (st : State) (i : Nat) : Option SymType :=
  symTypeD cfg st (valueOracle cfg st f) i

/-- Mode of choice `ci` at fuel `f`. -/
def choiceValueAt (f : Nat) (cfg : Config) (st : State) (ci : Nat) : Option Tri :=
  choiceValueD cfg st (valueOracle cfg st f) ci

/-- Selection of choice `ci` at fuel `f`. -/
def choiceSelectionAt (f : Nat) (cfg : Config) (st : State) (ci : Nat) :
    Option (Option Nat) :=
  choiceSelectionD cfg st (valueOracle cfg st f) ci

/-- Assignable values of symbol `i` at fuel `f`. -/
def assignableAt (f : Nat) (cfg : Config) (st : State) (i : Nat) : Option Str :=
  get_assignableD cfg st (valueOracle cfg st f) i

/-! Warnings.  The source prints warnings to stderr (`Config._warn`,
`Config._warn_undef_assign`); the embedding collects them as values.  The
printing gates (`_print_warnings`, `_print_undef_assign`) only suppress
output, so emission is modelled unconditionally. -/

/-- Warning events emitted by the modelled operations. -/
inductive Warning
  | invalidValue (name value : Str)
  | undefAssign (name value : Str)
  | promptless (name value : Str)
  | malformedString
  | choiceModeChange (name value : Str)
  | dupAssign (name old new : Str)
  | choiceInvalidValue (value : Str)
deriving DecidableEq, Repr

/-- Validity of a value for a symbol type, from the test at the top of
`Symbol._set_value_no_invalidate` (kconfiglib.py lines 2214-2218).  No
clause accepts an UNKNOWN-typed symbol, so undefined symbols reject every
assignment. -/
def validForType (t : SymType) (value : Str) : Bool :=
  match t with
  | .BOOL => decide (value = str "n") || decide (value = str "y")
  | .TRISTATE => decide (value = str "n") || decide (value = str "m") || decide (value = str "y")
  | .STRING => true
  | .INT => is_base_n value 10
  | .HEX => is_base_n value 16
  | .UNKNOWN => false

/-- Replacement of the user value of symbol `i`. -/
def setSymUser (st : State) (i : Nat) (v : Option Str) : State :=
  { st with symSt := st.symSt.set i { user_value := v } }

/-- Pointwise update of the state of choice `ci`. -/
def modChoiceSt (st : State) (ci : Nat) (g : ChoiceSt → ChoiceSt) : State :=
  match st.choiceSt[ci]? with
  | some c => { st with choiceSt := st.choiceSt.set ci (g c) }
  | none => st

/-- Model of `Symbol._set_value_no_invalidate` (kconfiglib.py lines
2203-2245): reject values invalid for the type (with a warning), warn on
assignments to undefined or promptless symbols, store the user value, and
update the containing choice's mode/selection for "y"/"m" assignments. -/
def set_value_no_invalidate (cfg : Config) (st : State) (i : Nat) (value : Str)
    (suppress_prompt_warning : Bool) : State × List Warning :=
  match getSym cfg i with
  | none => (st, [])
  | some sym =>
      if ¬ validForType sym.stype value then
        (st, [.invalidValue sym.name value])
      else
        let w1 : List Warning := if sym.nnodes = 0 then [.undefAssign sym.name value] else []
        let w2 : List Warning :=
          if ¬ suppress_prompt_warning ∧ sym.promptConds = [] then [.promptless sym.name value]
          else []
        let st1 := setSymUser st i (some value)
        let st2 :=
          match sym.choice with
          | some ci =>
              if sym.stype = .BOOL ∨ sym.stype = .TRISTATE then
                if value = str "y" then
                  modChoiceSt st1 ci
                    (fun _ => { user_value := some (str "y"), user_selection := some i })
                else if value = str "m" then
                  modChoiceSt st1 ci (fun c => { c with user_value := some (str "m") })
                else st1
              else st1
          | none => st1
        (st2, w1 ++ w2)

/-- Model of `Symbol.set_value` (kconfiglib.py lines 2015-2039).  The
invalidation step (`_rec_invalidate`/`_invalidate_all`) is a no-op in the
cache-free embedding. -/
def set_value (cfg : Config) (st : State) (i : Nat) (value : Str) : State × List Warning :=
  set_value_no_invalidate cfg st i value false

/-- Model of `Symbol.unset_value` (kconfiglib.py lines 2041-2047). -/
def unset_value (st : State) (i : Nat) : State := setSymUser st i none

/-- Model of `Config.unset_values` (kconfiglib.py lines 434-452): reset the
user values of all defined symbols and of all choices. -/
def unset_values (cfg : Config) (st : State) : State :=
  { symSt := st.symSt.mapIdx (fun i s =>
      match getSym cfg i with
      | some sym => if sym.nnodes = 0 then s else { user_value := none }
      | none => s),
    choiceSt := st.choiceSt.map (fun _ => { user_value := none, user_selection := none }) }

/-- Model of `Choice.set_value` (kconfiglib.py lines 2518-2535): an invalid
mode only warns; the user value is stored regardless. -/
def choice_set_value (cfg : Config) (st : State) (ci : Nat) (value : Str) :
    State × List Warning :=
  match getChoice cfg ci with
  | none => (st, [])
  | some c =>
      let w : List Warning :=
        if ¬ ((c.ctype = .BOOL ∧ (value = str "n" ∨ value = str "y")) ∨
              (c.ctype = .TRISTATE ∧
                (value = str "n" ∨ value = str "m" ∨ value = str "y"))) then
          [.choiceInvalidValue value]
        else []
      (modChoiceSt st ci (fun cs => { cs with user_value := some value }), w)

/-- Model of `Choice.unset_value` (kconfiglib.py lines 2537-2545). -/
def choice_unset_value (st : State) (ci : Nat) : State :=
  modChoiceSt st ci (fun _ => { user_value := none, user_selection := none })

/-! The `.config` reader (`Config.load_config`, kconfiglib.py lines
307-390).  Lines are matched against the two compiled patterns
`PREFIX(\w+)=(.*)` and `# PREFIX(\w+) is not set` (lines 245-248); the
prefix is assumed to contain no regex metacharacters, as with the default
`CONFIG_`.  `re.match` anchors at the start of the line only, and `\w+` is
greedy, so the name is the maximal word-character run after the prefix. -/

/-- Match of the `PREFIX(\w+)=(.*)` pattern against a (newline-free) line. -/
def matchSetLine (pfx : Str) (line : Str) : Option (Str × Str) :=
  if pfx.isPrefixOf line then
    let rest := line.drop pfx.length
    let name := rest.takeWhile wordChar
    if name ≠ [] ∧ (rest.drop name.length).head? = some '=' then
      some (name, (rest.drop name.length).drop 1)
    else none
  else none

/-- Match of the `# PREFIX(\w+) is not set` pattern (trailing characters
after "set" are permitted, since `re.match` does not anchor the end). -/
def matchUnsetLine (pfx : Str) (line : Str) : Option Str :=
  let p := str "# " ++ pfx
  if p.isPrefixOf line then
    let rest := line.drop p.length
    let name := rest.takeWhile wordChar
    if name ≠ [] ∧ (str " is not set").isPrefixOf (rest.drop name.length) then some name
    else none
  else none

/-- Symbol-table lookup by name (`self.syms[name]`); symbol names are
unique, see `_lookup_sym`. -/
def findSymIdx (cfg : Config) (name : Str) : Option Nat :=
  cfg.syms.findIdx? (fun sym => decide (sym.name = name))

/-- Fuel-bounded model of Python's `str.replace(pat, rep)`: leftmost,
non-overlapping.  The fuel is in characters of the input; `pyReplace`
supplies enough for the whole string. -/
def replaceAllF (pat rep : Str) : Nat → Str → Str
  | 0, s => s
  | _, [] => []
  | fuel + 1, c :: rest =>
      if pat ≠ [] ∧ pat.isPrefixOf (c :: rest) then
        rep ++ replaceAllF pat rep fuel ((c :: rest).drop pat.length)
      else c :: replaceAllF pat rep fuel rest

/-- Model of Python's `s.replace(pat, rep)` for a nonempty pattern. -/
def pyReplace (s pat rep : Str) : Str := replaceAllF pat rep (s.length + 1) s

/-- Escaping applied by `Symbol.config_string` to string values
(kconfiglib.py line 2010): `val.replace("\\", "\\\\").replace('"', '\\"')`. -/
def escapeCfg (v : Str) : Str := pyReplace (pyReplace v (str "\\") (str "\\\\")) (str "\"") (str "\\\"")

/-- Un-escaping applied by `load_config` to quoted string values
(kconfiglib.py lines 357-358): `val.replace('\\"', '"').replace("\\\\", "\\")`. -/
def unescapeCfg (v : Str) : Str :=
  pyReplace (pyReplace v (str "\\\"") (str "\"")) (str "\\\\") (str "\\")

/-- Shared tail of the `load_config` loop (kconfiglib.py lines 360-390):
the choice-mode warning (set-pattern branch only), the duplicate-assignment
warning, and the actual assignment. -/
def loadAssignTail (cfg : Config) (st : State) (i : Nat) (sym : Symbol) (name val : Str)
    (fromSet : Bool) : State × List Warning :=
  let wChoice : List Warning :=
    if fromSet then
      match sym.choice with
      | some ci =>
          match choiceUserVal st ci with
          | some mode => if mode ≠ val then [.choiceModeChange name val] else []
          | none => []
      | none => []
    else []
  let wDup : List Warning :=
    match symUser st i with
    | some old => [.dupAssign name old val]
    | none => []
  let r := set_value_no_invalidate cfg st i val true
  (r.1, wChoice ++ wDup ++ r.2)

/-- Processing of one line by `load_config` (kconfiglib.py lines 335-390). -/
def loadConfigLine (cfg : Config) (st : State) (line0 : Str) : State × List Warning :=
  let line := rstrip line0
  match matchSetLine cfg.configPfx line with
  | some (name, rhs) =>
      match findSymIdx cfg name with
      | none => (st, [.undefAssign name rhs])
      | some i =>
          match getSym cfg i with
          | none => (st, [])
          | some sym =>
              if sym.stype = .STRING ∧ rhs.head? = some '"' then
                if rhs.length < 2 ∨ rhs.getLast? ≠ some '"' then
                  (st, [.malformedString])
                else
                  loadAssignTail cfg st i sym name (unescapeCfg ((rhs.drop 1).dropLast)) true
              else loadAssignTail cfg st i sym name rhs true
  | none =>
      match matchUnsetLine cfg.configPfx line with
      | none => (st, [])
      | some name =>
          match findSymIdx cfg name with
          | none => (st, [.undefAssign name (str "n")])
          | some i =>
              match getSym cfg i with
              | some sym => loadAssignTail cfg st i sym name (str "n") false
              | none => (st, [])

/-- Fold of `loadConfigLine` over the lines of a `.config` file. -/
def loadLines (cfg : Config) : State → List Str → State × List Warning
  | st, [] => (st, [])
  | st, l :: rest =>
      let r1 := loadConfigLine cfg st l
      let r2 := loadLines cfg r1.1 rest
      (r2.1, r1.2 ++ r2.2)

/-- Model of `Config.load_config` (kconfiglib.py lines 307-390), taking the
lines of the file: in replace mode all user values are reset first. -/
def load_config (cfg : Config) (st : State) (lines : List Str) (replace : Bool) :
    State × List Warning :=
  loadLines cfg (if replace then unset_values cfg st else st) lines

/-! The `.config` writer (`Symbol.config_string` and
`Config._get_config_strings`, kconfiglib.py lines 1409-1462 and
1979-2013). -/

/-- Model of `Symbol.config_string` (kconfiglib.py lines 1979-2013).  The
outer `Option` is evaluation failure; the inner `none` means "no line"
(environment-backed symbol or `_write_to_conf` unset). -/
def config_string (cfg : Config) (st : State) (prev : Oracle) (i : Nat) :
    Option (Option Str) :=
  match getSym cfg i with
  | none => none
  | some sym =>
      if sym.env_var.isSome then some none
      else
        match symValStrD cfg st prev i with
        | none => none
        | some (val, wtc) =>
            if ¬ wtc then some none
            else
              match sym.stype with
              | .BOOL =>
                  some (some (if val ≠ str "n" then
                                cfg.configPfx ++ sym.name ++ '=' :: val ++ ['\n']
                              else
                                str "# " ++ cfg.configPfx ++ sym.name ++ str " is not set\n"))
              | .TRISTATE =>
                  some (some (if val ≠ str "n" then
                                cfg.configPfx ++ sym.name ++ '=' :: val ++ ['\n']
                              else
                                str "# " ++ cfg.configPfx ++ sym.name ++ str " is not set\n"))
              | .INT => some (some (cfg.configPfx ++ sym.name ++ '=' :: val ++ ['\n']))
              | .HEX => some (some (cfg.configPfx ++ sym.name ++ '=' :: val ++ ['\n']))
              | .STRING =>
                  some (some (cfg.configPfx ++ sym.name ++ '=' :: '"' ::
                    (escapeCfg val ++ '"' :: ['\n'])))
              | .UNKNOWN => none

/-- Banner emitted for visible menus and comments (kconfiglib.py
line 1447): the string `"\n#\n# {title}\n#\n"`. -/
def bannerStr (t : Str) : Str := str "\n#\n# " ++ t ++ str "\n#\n"

/-- The walk of `_get_config_strings` (kconfiglib.py lines 1435-1462) over
the preorder node sequence, with the `_already_written` deduplication
carried as the list of symbol indices already written. -/
def config_strings_walk (cfg : Config) (st : State) (prev : Oracle) :
    List MNode → List Nat → Option (List Str)
  | [], _ => some []
  | node :: rest, written =>
      match node.item with
      | .sym i =>
          if i ∈ written then config_strings_walk cfg st prev rest written
          else
            match config_string cfg st prev i with
            | none => none
            | some so =>
                match config_strings_walk cfg st prev rest (i :: written) with
                | none => none
                | some tail =>
                    some ((match so with
                           | some s => [s]
                           | none => []) ++ tail)
      | .choice _ => config_strings_walk cfg st prev rest written
      | .MENU =>
          match eval_expr cfg prev node.dep with
          | none => none
          | some d =>
              if d ≠ .n then
                match eval_expr cfg prev node.visibility with
                | none => none
                | some v =>
                    match config_strings_walk cfg st prev rest written with
                    | none => none
                    | some tail =>
                        some (if v ≠ .n then bannerStr node.promptText :: tail else tail)
              else config_strings_walk cfg st prev rest written
      | .COMMENT =>
          match eval_expr cfg prev node.dep with
          | none => none
          | some d =>
              match config_strings_walk cfg st prev rest written with
              | none => none
              | some tail =>
                  some (if d ≠ .n then bannerStr node.promptText :: tail else tail)

/-- Model of `Config._get_config_strings` (kconfiglib.py lines 1409-1462). -/
def config_strings (cfg : Config) (st : State) (prev : Oracle) : Option (List Str) :=
  config_strings_walk cfg st prev cfg.menuWalk []

/-- The default header of `Config.write_config` (kconfiglib.py line 393). -/
def defaultHeader : Str := str "# Generated by Kconfiglib (https://github.com/ulfalizer/Kconfiglib)\n"

/-- Concatenation of a list of strings. -/
def joinStr (l : List Str) : Str := l.flatten

/-- The text written by `Config.write_config` (kconfiglib.py lines
392-409): the header followed by the config strings. -/
def write_config_text (cfg : Config) (st : State) (prev : Oracle) (header : Str) :
    Option Str :=
  (config_strings cfg st prev).map (fun body => header ++ joinStr body)

/-- Splitting of a text into newline-separated pieces. -/
def splitNl : Str → List Str
  | [] => [[]]
  | c :: rest =>
      match splitNl rest with
      | [] => [[]]
      | l :: ls => if c = '\n' then [] :: l :: ls else (c :: l) :: ls

/-- The lines a Python file object yields for a text (without the
terminating newlines, which `load_config` strips anyway via `rstrip`). -/
def fileLines (s : Str) : List Str :=
  let ps := splitNl s
  if ps.getLast? = some [] then ps.dropLast else ps

/-- Writing a configuration and loading the produced text back with
`replace=True`. -/
def round_trip (f : Nat) (cfg : Config) (st : State) (header : Str) :
    Option (State × List Warning) :=
  (write_config_text cfg st (valueOracle cfg st f) header).map
    (fun text => load_config cfg st (fileLines text) true)

/-! Symbol-reference expansion (`Config._expand_sym_refs`, kconfiglib.py
lines 1546-1561). -/

/-- Leftmost match of the pattern `\$([A-Za-z0-9_]+)` (`_sym_ref_re_search`,
kconfiglib.py line 3644): the text before the match, the referenced name and
the text after the match. -/
def symRefSearch : Str → Option (Str × Str × Str)
  | [] => none
  | c :: rest =>
      if c = '$' ∧ rest.takeWhile wordChar ≠ [] then
        some ([], rest.takeWhile wordChar, rest.drop (rest.takeWhile wordChar).length)
      else
        (symRefSearch rest).map (fun r => (c :: r.1, r.2.1, r.2.2))

/-- Model of `Config._expand_sym_refs` (kconfiglib.py lines 1546-1561): the
loop replaces the leftmost `$NAME` by the symbol's value (empty for
undefined names) and searches the resulting string again from the start,
until no reference remains.  The loop need not terminate (a value may
contain a reference to itself), hence the fuel. -/
def expand_sym_refs (cfg : Config) (st : State) (f : Nat) : Nat → Str → Option Str
  | 0, _ => none
  | fuel + 1, s =>
      match symRefSearch s with
      | none => some s
      | some (before, name, after) =>
          let rep : Option Str :=
            match findSymIdx cfg name with
            | some i => (valueOracle cfg st f i).map (fun p => p.1)
            | none => some []
          match rep with
          | none => none
          | some r => expand_sym_refs cfg st f fuel (before ++ r ++ after)

/-- Modelled from the spec: one-pass symbol-reference expansion.  Section
4.3 of the specification states that expansion "is non-recursive (one pass
over the input string)", i.e. each `$NAME` occurrence of the input is
replaced once and substituted text is not rescanned.  This definition
renders that sentence for comparison with `expand_sym_refs`. -/
def expandOnePass (cfg : Config) (st : State) (f : Nat) : Nat → Str → Str
  | 0, s => s
  | _, [] => []
  | fuel + 1, c :: rest =>
      if c = '$' ∧ rest.takeWhile wordChar ≠ [] then
        (match findSymIdx cfg (rest.takeWhile wordChar) with
         | some i =>
             match valueOracle cfg st f i with
             | some p => p.1
             | none => []
         | none => []) ++
          expandOnePass cfg st f fuel (rest.drop (rest.takeWhile wordChar).length)
      else c :: expandOnePass cfg st f fuel rest

/-! Reachable states: the states obtainable from the freshly constructed
configuration by the public mutating operations. -/

/-- State of a freshly constructed configuration: no user values. -/
def initialState (cfg : Config) : State :=
  { symSt := cfg.syms.map (fun _ => { user_value := none }),
    choiceSt := cfg.choices.map (fun _ => { user_value := none, user_selection := none }) }

/-- States reachable by any sequence of `set_value`, `unset_value`,
`unset_values`, `Choice.set_value`, `Choice.unset_value` and `load_config`
operations. -/
inductive Reachable (cfg : Config) : State → Prop
  | init : Reachable cfg (initialState cfg)
  | step_set (st : State) (i : Nat) (v : Str) :
      Reachable cfg st → Reachable cfg (set_value cfg st i v).1
  | step_unset (st : State) (i : Nat) :
      Reachable cfg st → Reachable cfg (unset_value st i)
  | step_unset_values (st : State) :
      Reachable cfg st → Reachable cfg (unset_values cfg st)
  | step_choice_set (st : State) (ci : Nat) (v : Str) :
      Reachable cfg st → Reachable cfg (choice_set_value cfg st ci v).1
  | step_choice_unset (st : State) (ci : Nat) :
      Reachable cfg st → Reachable cfg (choice_unset_value st ci)
  | step_load (st : State) (lines : List Str) (replace : Bool) :
      Reachable cfg st → Reachable cfg (load_config cfg st lines replace).1

/-! The expression tokenizer and parser, as used by `Config.eval_string`
(kconfiglib.py lines 411-432): `_tokenize` with `for_eval=True`,
`_parse_expr` with `transform_m=True`, then `eval_expr`.  Token constants
follow the `_T_*` numbering (kconfiglib.py lines 3518-3562). -/

def T_ALLNOCONFIG_Y : Nat := 0
def T_AND : Nat := 1
def T_BOOL : Nat := 2
def T_CHOICE : Nat := 3
def T_CLOSE_PAREN : Nat := 4
def T_COMMENT : Nat := 5
def T_CONFIG : Nat := 6
def T_DEFAULT : Nat := 7
def T_DEFCONFIG_LIST : Nat := 8
def T_DEF_BOOL : Nat := 9
def T_DEF_TRISTATE : Nat := 10
def T_DEPENDS : Nat := 11
def T_ENDCHOICE : Nat := 12
def T_ENDIF : Nat := 13
def T_ENDMENU : Nat := 14
def T_ENV : Nat := 15
def T_EQUAL : Nat := 16
def T_GREATER : Nat := 17
def T_GREATER_EQUAL : Nat := 18
def T_HELP : Nat := 19
def T_HEX : Nat := 20
def T_IF : Nat := 21
def T_IMPLY : Nat := 22
def T_INT : Nat := 23
def T_LESS : Nat := 24
def T_LESS_EQUAL : Nat := 25
def T_MAINMENU : Nat := 26
def T_MENU : Nat := 27
def T_MENUCONFIG : Nat := 28
def T_MODULES : Nat := 29
def T_NOT : Nat := 30
def T_ON : Nat := 31
def T_OPEN_PAREN : Nat := 32
def T_OPTION : Nat := 33
def T_OPTIONAL : Nat := 34
def T_OR : Nat := 35
def T_PROMPT : Nat := 36
def T_RANGE : Nat := 37
def T_SELECT : Nat := 38
def T_SOURCE : Nat := 39
def T_STRING : Nat := 40
def T_TRISTATE : Nat := 41
def T_UNEQUAL : Nat := 42
def T_VISIBLE : Nat := 43

/-- Tokens produced by `_tokenize`: keyword/operator constants (ints in the
source), registered Symbol references, unregistered Symbol objects (the
`for_eval` miss of `_lookup_sym`), and string literals/constants. -/
inductive Token
  | T (n : Nat)
  | sym (i : Nat)
  | fresh (name : Str)
  | litStr (s : Str)
deriving DecidableEq, Repr

/-- The keyword table of `_get_keyword` (kconfiglib.py lines 3566-3601). -/
def keywordTable : List (Str × Nat) :=
  [(str "allnoconfig_y", T_ALLNOCONFIG_Y), (str "bool", T_BOOL), (str "boolean", T_BOOL),
   (str "choice", T_CHOICE), (str "comment", T_COMMENT), (str "config", T_CONFIG),
   (str "def_bool", T_DEF_BOOL), (str "def_tristate", T_DEF_TRISTATE),
   (str "default", T_DEFAULT), (str "defconfig_list", T_DEFCONFIG_LIST),
   (str "depends", T_DEPENDS), (str "endchoice", T_ENDCHOICE), (str "endif", T_ENDIF),
   (str "endmenu", T_ENDMENU), (str "env", T_ENV), (str "help", T_HELP),
   (str "hex", T_HEX), (str "if", T_IF), (str "imply", T_IMPLY), (str "int", T_INT),
   (str "mainmenu", T_MAINMENU), (str "menu", T_MENU), (str "menuconfig", T_MENUCONFIG),
   (str "modules", T_MODULES), (str "on", T_ON), (str "option", T_OPTION),
   (str "optional", T_OPTIONAL), (str "prompt", T_PROMPT), (str "range", T_RANGE),
   (str "select", T_SELECT), (str "source", T_SOURCE), (str "string", T_STRING),
   (str "tristate", T_TRISTATE), (str "visible", T_VISIBLE)]

/-- Model of `_get_keyword`. -/
def get_keyword (name : Str) : Option Nat :=
  (keywordTable.find? (fun p => decide (p.1 = name))).map (fun p => p.2)

/-- The `_STRING_LEX` set (kconfiglib.py lines 3605-3617): tokens after
which an identifier-like lexeme is read as a string. -/
def STRING_LEX : List Nat :=
  [T_BOOL, T_CHOICE, T_COMMENT, T_HEX, T_INT, T_MAINMENU, T_MENU, T_PROMPT,
   T_SOURCE, T_STRING, T_TRISTATE]

/-- Whether the previous token lies in `_STRING_LEX` (only the int tokens
can). -/
def inStringLex : Option Token → Bool
  | some (.T n) => STRING_LEX.contains n
  | _ => false

/-- The identifier character class of `_id_keyword_re_match` (word
characters plus dot, slash and dash; kconfiglib.py line 3641). -/
def idChar (c : Char) : Bool := wordChar c || c = '.' || c = '/' || c = '-'

/-- Model of `Config._lookup_sym` (kconfiglib.py lines 1386-1403): fetch the
symbol from the table, creating and registering it when missing -- except in
`for_eval` mode, where a fresh unregistered Symbol is returned (and a
warning printed). -/
def lookup_sym (cfg : Config) (name : Str) (for_eval : Bool) : Config × Token :=
  match findSymIdx cfg name with
  | some i => (cfg, .sym i)
  | none =>
      if for_eval then (cfg, .fresh name)
      else
        ({ cfg with
           syms := cfg.syms ++
             [{ name := name, stype := .UNKNOWN, defaults := [], ranges := [],
                rev_dep := .atom (.const (str "n")),
                weak_rev_dep := .atom (.const (str "n")),
                direct_deps := .atom (.const (str "n")), promptConds := [],
                nnodes := 0, choice := none, env_var := none }] },
         .sym cfg.syms.length)

/-- The slow-path quoted-string scanner of `_tokenize` (kconfiglib.py lines
653-670), used when the line contains a backslash: escapes are resolved one
character at a time; a dangling quote or escape is a tokenization error. -/
def slowString (quote : Char) : Nat → Str → Option (Str × Str)
  | 0, _ => none
  | _ + 1, [] => none
  | fuel + 1, ch :: rest =>
      if ch = quote then some ([], rest)
      else if ch = '\\' then
        match rest with
        | [] => none
        | e :: rest2 => (slowString quote fuel rest2).map (fun r => (e :: r.1, r.2))
      else (slowString quote fuel rest).map (fun r => (ch :: r.1, r.2))

/-- Outcome of one iteration of the `_tokenize` main loop on a nonempty
remainder: emit a token, look up an identifier as a symbol (the only action
that can touch the symbol table), skip an invalid character (keeping the
previous token), stop at a `#` comment, or fail with a tokenization
error. -/
inductive TokAct
  | emit (tok : Token) (rest : Str)
  | lookup (name : Str) (rest : Str)
  | skip (rest : Str)
  | stop
  | err
deriving DecidableEq, Repr

/-- One iteration of the `_tokenize` main loop (kconfiglib.py lines
583-728) on the remainder `c :: restAll`: identifier/keyword first, then
string literals (fast path without backslashes, slow path with), then the
operators; unrecognized characters are skipped; trailing whitespace after a
token is consumed here (the identifier regex and the explicit loop of line
723). -/
def tokStep (hasBS : Bool) (prevTok : Option Token) (c : Char) (restAll : Str) : TokAct :=
  let s := c :: restAll
  let idPart := s.takeWhile idChar
  if idPart ≠ [] then
    let rest2 := (s.drop idPart.length).dropWhile isPySpace
    match get_keyword idPart with
    | some k => .emit (.T k) rest2
    | none =>
        if ¬ inStringLex prevTok then
          if idPart = str "n" ∨ idPart = str "m" ∨ idPart = str "y" then
            .emit (.litStr idPart) rest2
          else .lookup idPart rest2
        else .emit (.litStr idPart) rest2
  else
    if c = '"' ∨ c = '\'' then
      if ¬ hasBS then
        if restAll.contains c then
          let contents := restAll.takeWhile (fun x => !(x = c : Bool))
          .emit (.litStr contents) ((restAll.drop (contents.length + 1)).dropWhile isPySpace)
        else .err
      else
        match slowString c (restAll.length + 1) restAll with
        | none => .err
        | some (contents, rest1) => .emit (.litStr contents) (rest1.dropWhile isPySpace)
    else if c = '&' then
      match restAll with
      | '&' :: rest1 => .emit (.T T_AND) (rest1.dropWhile isPySpace)
      | _ => .skip restAll
    else if c = '|' then
      match restAll with
      | '|' :: rest1 => .emit (.T T_OR) (rest1.dropWhile isPySpace)
      | _ => .skip restAll
    else if c = '!' then
      match restAll with
      | '=' :: rest1 => .emit (.T T_UNEQUAL) (rest1.dropWhile isPySpace)
      | _ => .emit (.T T_NOT) (restAll.dropWhile isPySpace)
    else if c = '=' then .emit (.T T_EQUAL) (restAll.dropWhile isPySpace)
    else if c = '(' then .emit (.T T_OPEN_PAREN) (restAll.dropWhile isPySpace)
    else if c = ')' then .emit (.T T_CLOSE_PAREN) (restAll.dropWhile isPySpace)
    else if c = '#' then .stop
    else if c = '<' then
      match restAll with
      | '=' :: rest1 => .emit (.T T_LESS_EQUAL) (rest1.dropWhile isPySpace)
      | _ => .emit (.T T_LESS) (restAll.dropWhile isPySpace)
    else if c = '>' then
      match restAll with
      | '=' :: rest1 => .emit (.T T_GREATER_EQUAL) (rest1.dropWhile isPySpace)
      | _ => .emit (.T T_GREATER) (restAll.dropWhile isPySpace)
    else .skip restAll

/-- Main loop of `_tokenize` (kconfiglib.py lines 583-728), carrying the
previous token (for `_STRING_LEX`), the reversed token accumulator and the
evolving symbol table.  Each iteration consumes at least one character; the
fuel is the character count. -/
def tokLoop (for_eval : Bool) (hasBS : Bool) :
    Nat → Config → Option Token → List Token → Str → Config × Option (List Token)
  | 0, cfg, _, _, _ => (cfg, none)
  | _ + 1, cfg, _, acc, [] => (cfg, some acc.reverse)
  | fuel + 1, cfg, prevTok, acc, c :: restAll =>
      match tokStep hasBS prevTok c restAll with
      | .emit tok rest => tokLoop for_eval hasBS fuel cfg (some tok) (tok :: acc) rest
      | .lookup name rest =>
          let r := lookup_sym cfg name for_eval
          tokLoop for_eval hasBS fuel r.1 (some r.2) (r.2 :: acc) rest
      | .skip rest => tokLoop for_eval hasBS fuel cfg prevTok acc rest
      | .stop => (cfg, some acc.reverse)
      | .err => (cfg, none)

/-- Model of `Config._tokenize` in `for_eval` mode (`token = None`, no
initial-keyword treatment; kconfiglib.py lines 555-560 and the main loop).
Returns the (unchanged, see the claim-10 theorem) symbol table and the
tokens, `none` on a tokenization error. -/
def tokenizeEval (cfg : Config) (s : Str) : Config × Option (List Token) :=
  tokLoop true (s.contains '\\') (s.length + 1) cfg none [] s

/-- Leaf of an `eval_string` expression: a registered symbol, a fresh
(unregistered) symbol, or a string constant. -/
inductive EAtom
  | sym (i : Nat)
  | fresh (name : Str)
  | const (s : Str)
deriving DecidableEq, Repr

/-- Expression built by `_parse_expr` from an `eval_string` token stream. -/
inductive EExpr
  | atom (a : EAtom)
  | AND (a b : EExpr)
  | OR (a b : EExpr)
  | NOT (a : EExpr)
  | REL (op : RelOp) (a b : EAtom)
deriving DecidableEq, Repr

/-- The `_TOKEN_TO_REL` map (kconfiglib.py lines 3724-3731). -/
def tokenToRel : Token → Option RelOp
  | .T n =>
      if n = T_EQUAL then some .EQUAL
      else if n = T_UNEQUAL then some .UNEQUAL
      else if n = T_LESS then some .LESS
      else if n = T_LESS_EQUAL then some .LESS_EQUAL
      else if n = T_GREATER then some .GREATER
      else if n = T_GREATER_EQUAL then some .GREATER_EQUAL
      else none
  | _ => none

/-- Atom view of a token (`isinstance(token, (Symbol, str))` in
`_parse_factor`). -/
def atomOfToken : Token → Option EAtom
  | .sym i => some (.sym i)
  | .fresh n => some (.fresh n)
  | .litStr s => some (.const s)
  | .T _ => none

mutual

/-- Model of `Config._parse_expr` (kconfiglib.py lines 1325-1335):
`and_expr ['||' expr]`, right-associated. -/
def parse_expr (cfg : Config) (tm : Bool) : Nat → List Token → Option (EExpr × List Token)
  | 0, _ => none
  | fuel + 1, toks =>
      match parse_and_expr cfg tm fuel toks with
      | none => none
      | some (ae, rest) =>
          match rest with
          | t :: rest2 =>
              if t = Token.T T_OR then
                match parse_expr cfg tm fuel rest2 with
                | some (e2, rest3) => some (.OR ae e2, rest3)
                | none => none
              else some (ae, rest)
          | [] => some (ae, rest)

/-- Model of `Config._parse_and_expr` (kconfiglib.py lines 1337-1346). -/
def parse_and_expr (cfg : Config) (tm : Bool) : Nat → List Token → Option (EExpr × List Token)
  | 0, _ => none
  | fuel + 1, toks =>
      match parse_factor cfg tm fuel toks with
      | none => none
      | some (fe, rest) =>
          match rest with
          | t :: rest2 =>
              if t = Token.T T_AND then
                match parse_and_expr cfg tm fuel rest2 with
                | some (e2, rest3) => some (.AND fe e2, rest3)
                | none => none
              else some (fe, rest)
          | [] => some (fe, rest)

/-- Model of `Config._parse_factor` (kconfiglib.py lines 1348-1380): an
atom, an atom-relation-atom triple, `!factor`, or a parenthesised
expression; with `transform_m` the constant "m" becomes `m && MODULES`.
A relation whose operand is missing or is not an atom makes the source build
a tuple that crashes during evaluation; the model fails already here. -/
def parse_factor (cfg : Config) (tm : Bool) : Nat → List Token → Option (EExpr × List Token)
  | 0, _ => none
  | _ + 1, [] => none
  | fuel + 1, t :: rest =>
      match atomOfToken t with
      | some a =>
          match rest with
          | r :: rest2 =>
              match tokenToRel r with
              | some op =>
                  match rest2 with
                  | o2 :: rest3 =>
                      match atomOfToken o2 with
                      | some b => some (.REL op a b, rest3)
                      | none => none
                  | [] => none
              | none =>
                  if tm ∧ a = .const (str "m") then
                    some (.AND (.atom a) (.atom (.sym cfg.modulesIdx)), rest)
                  else some (.atom a, rest)
          | [] =>
              if tm ∧ a = .const (str "m") then
                some (.AND (.atom a) (.atom (.sym cfg.modulesIdx)), rest)
              else some (.atom a, rest)
      | none =>
          if t = Token.T T_NOT then
            match parse_factor cfg tm fuel rest with
            | some (fe, rest2) => some (.NOT fe, rest2)
            | none => none
          else if t = Token.T T_OPEN_PAREN then
            match parse_expr cfg tm fuel rest with
            | some (e, rest2) =>
                match rest2 with
                | c :: rest3 => if c = Token.T T_CLOSE_PAREN then some (e, rest3) else none
                | [] => none
            | none => none
          else none

end

/-- Model of `_type_and_val` on an `eval_string` atom: a fresh (undefined)
symbol has type UNKNOWN and its name as value. -/
def eTypeAndVal (cfg : Config) (prev : Oracle) : EAtom → Option (SymType × Str)
  | .const s => some (.STRING, s)
  | .fresh n => some (.UNKNOWN, n)
  | .sym i =>
      match getSym cfg i with
      | none => none
      | some sym => (prev i).map (fun p => (sym.stype, p.1))

/-- The relation case of `_eval_expr_rec` on `eval_string` atoms. -/
def evalERel (cfg : Config) (prev : Oracle) (op : RelOp) (a b : EAtom) : Option Tri :=
  match eTypeAndVal cfg prev a, eTypeAndVal cfg prev b with
  | some (t1, s1), some (t2, s2) =>
      if t1 = .STRING ∧ t2 = .STRING then
        some (relRes op (strcmp s1 s2))
      else
        match pyInt s1 (TYPE_TO_BASE t1), pyInt s2 (TYPE_TO_BASE t2) with
        | some n1, some n2 => some (relRes op (n1 - n2))
        | _, _ =>
            if op = .EQUAL ∨ op = .UNEQUAL then some (relRes op (strcmp s1 s2))
            else some .n
  | _, _ => none

/-- Model of `_eval_expr_rec` on `eval_string` expressions: identical to
`eval_expr_rec`, with fresh symbols evaluating to "n" (their type is
UNKNOWN). -/
def eval_eexpr (cfg : Config) (prev : Oracle) : EExpr → Option Tri
  | .atom (.sym i) =>
      match getSym cfg i with
      | none => none
      | some sym =>
          if sym.stype = .BOOL ∨ sym.stype = .TRISTATE then
            (prev i).map (fun p => triOfStr p.1)
          else some .n
  | .atom (.fresh _) => some .n
  | .atom (.const s) => some (triOfStr s)
  | .AND a b =>
      match eval_eexpr cfg prev a with
      | none => none
      | some .n => some .n
      | some ev1 =>
          match eval_eexpr cfg prev b with
          | none => none
          | some ev2 =>
              if ev1 = .y then some ev2
              else if ev2 ≠ .n then some .m
              else some .n
  | .OR a b =>
      match eval_eexpr cfg prev a with
      | none => none
      | some .y => some .y
      | some ev1 =>
          match eval_eexpr cfg prev b with
          | none => none
          | some ev2 =>
              if ev1 = .n then some ev2
              else if ev2 = .y then some .y
              else some .m
  | .NOT a =>
      match eval_eexpr cfg prev a with
      | none => none
      | some .y => some .n
      | some .n => some .y
      | some _ => some .m
  | .REL op a b => evalERel cfg prev op a b

/-- Model of `Config.eval_string` (kconfiglib.py lines 411-432): tokenize in
`for_eval` mode, parse with `transform_m=True`, evaluate.  The returned
configuration is the symbol table after the call (shown unchanged by the
claim-10 theorem); `none` models a syntax error or crash. -/
def eval_string (cfg : Config) (st : State) (f : Nat) (s : Str) : Config × Option Tri :=
  match tokenizeEval cfg s with
  | (cfg2, none) => (cfg2, none)
  | (cfg2, some toks) =>
      match parse_expr cfg2 true (3 * toks.length + 3) toks with
      | none => (cfg2, none)
      | some (e, _) => (cfg2, eval_eexpr cfg2 (valueOracle cfg2 st f) e)

/-! Environment capture (claim 9).  The constructor reads `CONFIG_` and
`srctree` from the process environment once (kconfiglib.py lines 240-250);
`_open` (lines 505-532) uses the captured `srctree`; no method consults the
environment after construction. -/

/-- A process environment. -/
abbrev Env := Str → Option Str

/-- A read-only file system: path to file lines. -/
abbrev FS := Str → Option (List Str)

/-- The environment values captured by `Config.__init__` (kconfiglib.py
lines 240-250): the config prefix (default `CONFIG_`) and `srctree`. -/
structure Captured where
  configPfx : Str
  srctree : Option Str
deriving DecidableEq

/-- Model of the environment capture in `Config.__init__`. -/
def captureEnv (env : Env) : Captured :=
  { configPfx := (env (str "CONFIG_")).getD (str "CONFIG_"),
    srctree := env (str "srctree") }

/-- Model of `os.path.isabs` on POSIX. -/
def isAbsPath (p : Str) : Bool := p.head? = some '/'

/-- Model of `os.path.join(a, b)` for the cases used by `_open`. -/
def joinPath (a b : Str) : Str :=
  if a = [] then b else if a.getLast? = some '/' then a ++ b else a ++ '/' :: b

/-- Model of `Config._open` (kconfiglib.py lines 505-532): try the path,
then `$srctree/path` for relative paths, using the captured srctree.
Returns the path that opened together with the lines. -/
def openFile (cap : Captured) (fs : FS) (name : Str) : Option (Str × List Str) :=
  match fs name with
  | some ls => some (name, ls)
  | none =>
      if ¬ isAbsPath name then
        match cap.srctree with
        | some t =>
            match fs (joinPath t name) with
            | some ls => some (joinPath t name, ls)
            | none => none
        | none => none
      else none

/-- Scan of the defconfig_list defaults by `Config.defconfig_filename`
(kconfiglib.py lines 289-305): the first default whose condition holds and
whose (reference-expanded) filename opens. -/
def defconfigScan (cap : Captured) (fs : FS) (cfg : Config) (st : State) (f expFuel : Nat) :
    List (Expr × Option Expr) → Option (Option Str)
  | [] => some none
  | (fexpr, cond) :: rest =>
      match evalAt f cfg st cond with
      | none => none
      | some cv =>
          if cv ≠ .n then
            match fexpr with
            | .atom (.const fn) =>
                match expand_sym_refs cfg st f expFuel fn with
                | none => none
                | some fn2 =>
                    match openFile cap fs fn2 with
                    | some (path, _) => some (some path)
                    | none => defconfigScan cap fs cfg st f expFuel rest
            | _ => none
          else defconfigScan cap fs cfg st f expFuel rest

/-- Model of `Config.defconfig_filename` (kconfiglib.py lines 289-305). -/
def defconfig_filename (cap : Captured) (fs : FS) (cfg : Config) (st : State)
    (f expFuel : Nat) : Option (Option Str) :=
  match cfg.defconfigList with
  | none => some none
  | some di =>
      match getSym cfg di with
      | none => none
      | some sym => defconfigScan cap fs cfg st f expFuel sym.defaults

/-- A configuration whose stored prefix is the captured one. -/
def withCapture (cfg : Config) (cap : Captured) : Config :=
  { cfg with configPfx := cap.configPfx }

/-- Operations performed after construction (claim 9). -/
inductive Op
  | load (filename : Str) (replace : Bool)
  | write (header : Str) (f : Nat)
  | queryValue (i : Nat) (f : Nat)
  | defconfig (f expFuel : Nat)

/-- Observable result of one operation. -/
inductive OpResult
  | loaded (w : Option (List Warning))
  | wrote (text : Option Str)
  | value (v : Option Str)
  | defconfigFile (r : Option (Option Str))
deriving DecidableEq

/-- One post-construction operation.  The `env` parameter is the process
environment at the time of the call: the transcribed method bodies never
consult it (no `os.environ` access occurs outside `__init__` and property
parsing in the source). -/
def runOp (cap : Captured) (fs : FS) (env : Env) (cfg : Config) (st : State) :
    Op → State × OpResult
  | .load fn replace =>
      match openFile cap fs fn with
      | none => (st, .loaded none)
      | some (_, ls) =>
          let r := load_config (withCapture cfg cap) st ls replace
          (r.1, .loaded (some r.2))
  | .write header f =>
      (st, .wrote (write_config_text (withCapture cfg cap) st
        (valueOracle (withCapture cfg cap) st f) header))
  | .queryValue i f => (st, .value (symValueAt f (withCapture cfg cap) st i))
  | .defconfig f expFuel =>
      (st, .defconfigFile (defconfig_filename cap fs (withCapture cfg cap) st f expFuel))

/-- A sequence of operations, each running under the process environment
current at its call time (`envs` supplies one environment per operation,
modelling arbitrary mutation of the environment between calls). -/
def runOps (cap : Captured) (fs : FS) (cfg : Config) (st : State) :
    List Env → List Op → List OpResult
  | _, [] => []
  | envs, op :: rest =>
      let env := envs.headD (fun _ => none)
      let r := runOp cap fs env cfg st op
      r.2 :: runOps cap fs cfg r.1 envs.tail rest

/-! Well-formedness of a parsed configuration, guaranteed by the parser and
finalizer and assumed by the invariants. -/

/-- Symbol names are those `_lookup_sym` registers: nonempty words, one
table entry per name. -/
def wfNames (cfg : Config) : Prop :=
  (cfg.syms.map Symbol.name).Nodup ∧
    ∀ sym ∈ cfg.syms, sym.name ≠ [] ∧ ∀ c ∈ sym.name, wordChar c = true

/-- Choice membership as established by `_finalize_choice` (kconfiglib.py
lines 3428-3455): members point back to their choice; a choice takes the
type of its first typed member (so an UNKNOWN choice has only UNKNOWN
members) and its declared type is bool, tristate or absent. -/
def wfChoice (cfg : Config) : Prop :=
  ∀ ci c, getChoice cfg ci = some c →
    c.syms.Nodup ∧
    (c.ctype = SymType.BOOL ∨ c.ctype = SymType.TRISTATE ∨ c.ctype = SymType.UNKNOWN) ∧
    (∀ j ∈ c.syms, ∃ sym, getSym cfg j = some sym ∧ sym.choice = some ci ∧
       (c.ctype = SymType.UNKNOWN → sym.stype = SymType.UNKNOWN))

/-- The config-file prefix consists of word characters (true of the default
`CONFIG_` and required for the two load patterns to be the literal-prefix
patterns modelled here). -/
def wfPfx (cfg : Config) : Prop := ∀ c ∈ cfg.configPfx, wordChar c = true

/-! A tagged view of the writer output, used to reason about the round
trip: the same walk as `config_strings_walk`, recording for each emitted
piece whether it is a symbol line (and for which symbol) or a
menu/comment banner. -/

/-- One emitted piece of `_get_config_strings`. -/
inductive WEntry
  | symLine (i : Nat) (s : Str)
  | banner (t : Str)
deriving DecidableEq, Repr

/-- The text of an emitted piece. -/
def renderEntry : WEntry → Str
  | .symLine _ s => s
  | .banner t => bannerStr t

/-- The walk of `config_strings_walk`, with tagged output. -/
def config_entries_walk (cfg : Config) (st : State) (prev : Oracle) :
    List MNode → List Nat → Option (List WEntry)
  | [], _ => some []
  | node :: rest, written =>
      match node.item with
      | .sym i =>
          if i ∈ written then config_entries_walk cfg st prev rest written
          else
            match config_string cfg st prev i with
            | none => none
            | some so =>
                match config_entries_walk cfg st prev rest (i :: written) with
                | none => none
                | some tail =>
                    some ((match so with
                           | some s => [WEntry.symLine i s]
                           | none => []) ++ tail)
      | .choice _ => config_entries_walk cfg st prev rest written
      | .MENU =>
          match eval_expr cfg prev node.dep with
          | none => none
          | some d =>
              if d ≠ .n then
                match eval_expr cfg prev node.visibility with
                | none => none
                | some v =>
                    match config_entries_walk cfg st prev rest written with
                    | none => none
                    | some tail =>
                        some (if v ≠ .n then WEntry.banner node.promptText :: tail else tail)
              else config_entries_walk cfg st prev rest written
      | .COMMENT =>
          match eval_expr cfg prev node.dep with
          | none => none
          | some d =>
              match config_entries_walk cfg st prev rest written with
              | none => none
              | some tail =>
                  some (if d ≠ .n then WEntry.banner node.promptText :: tail else tail)

/-- Tagged writer output for the whole menu tree. -/
def config_entries (cfg : Config) (st : State) (prev : Oracle) : Option (List WEntry) :=
  config_entries_walk cfg st prev cfg.menuWalk []

/-- Modelled from the spec: the assignable-set table of section 4.7 for
bool/tristate symbols.  `boolish` renders the table's "bool-ish" column
(effective type bool, or `weak_rev_dep` evaluating to "y"); the rows are
exactly those of the specification. -/
def specAssignableTable (vis rd : Tri) (boolish : Bool) : Str :=
  match vis with
  | .n => []
  | .y =>
      match rd with
      | .n => if boolish then str "ny" else str "nmy"
      | .y => str "y"
      | .m => if boolish then str "y" else str "my"
  | .m =>
      match rd with
      | .n => if boolish then str "y" else str "m"
      | .y => str "y"
      | .m => str "m"

/-! Concrete configurations used by the witnesses and counterexamples. -/

/-- A symbol with the given name and type and otherwise the `Symbol.__init__`
defaults, one defining node and a dependency-free location (`direct_deps`
is the node dependency `None` ORed in, i.e. "y"). -/
def baseSym (n : String) (t : SymType) : Symbol :=
  { name := str n, stype := t, defaults := [], ranges := [],
    rev_dep := .atom (.const (str "n")), weak_rev_dep := .atom (.const (str "n")),
    direct_deps := .atom (.const (str "y")), promptConds := [], nnodes := 1,
    choice := none, env_var := none }

/-- The MODULES symbol as registered by the constructor when no Kconfig
defines it: in the table, no nodes, UNKNOWN type. -/
def modulesSym : Symbol := { baseSym "MODULES" .UNKNOWN with nnodes := 0 }

/-- A menu node for symbol `i` (plain `config` entry). -/
def symNode (i : Nat) : MNode :=
  { item := .sym i, promptText := [], dep := none, visibility := none }

/-- An empty configuration (only the implicit MODULES symbol). -/
def cfgEmpty : Config :=
  { syms := [modulesSym], choices := [], configPfx := str "CONFIG_",
    modulesIdx := 0, menuWalk := [], defconfigList := none }

/-- The all-`none` oracle (fuel 0). -/
def oracle0 : Oracle := fun _ => none

/-- Configuration for the expansion counterexample: two visible string
symbols A and B. -/
def cfgC8 : Config :=
  { syms := [{ baseSym "A" .STRING with promptConds := [none] },
             { baseSym "B" .STRING with promptConds := [none] },
             modulesSym],
    choices := [], configPfx := str "CONFIG_", modulesIdx := 2, menuWalk := [],
    defconfigList := none }

/-- State for the expansion counterexample: A has user value `$B`, B has
user value `hi`. -/
def stC8 : State :=
  { symSt := [{ user_value := some (str "$B") }, { user_value := some (str "hi") },
              { user_value := none }],
    choiceSt := [] }

/-- Symbol FOO: visible bool with `default y`. -/
def fooSym : Symbol :=
  { baseSym "FOO" .BOOL with
    defaults := [(.atom (.const (str "y")), none)], promptConds := [none] }

/-- Configuration with the single defined symbol FOO. -/
def cfgFoo : Config :=
  { syms := [fooSym, modulesSym], choices := [], configPfx := str "CONFIG_",
    modulesIdx := 1, menuWalk := [symNode 0], defconfigList := none }

/-- Choice member CX for the select-lower-bound counterexample: a visible
bool member of choice 0, selected unconditionally (its `rev_dep` is the
constant "y"). -/
def cxSym : Symbol :=
  { baseSym "CX" .BOOL with
    promptConds := [none], choice := some 0, rev_dep := .atom (.const (str "y")) }

/-- An optional bool choice with prompt, containing only symbol 0. -/
def optChoice : Choice :=
  { name := none, ctype := .BOOL, syms := [0], defaults := [],
    is_optional := true, promptConds := [none] }

/-- Configuration for the select-lower-bound counterexample. -/
def cfgC2 : Config :=
  { syms := [cxSym, modulesSym], choices := [optChoice], configPfx := str "CONFIG_",
    modulesIdx := 1, menuWalk := [], defconfigList := none }

/-- Choice member IX for the C3 mode-"y" counterexample: a bool member of
choice 0 with no prompt (never visible). -/
def ixSym : Symbol :=
  { baseSym "IX" .BOOL with choice := some 0 }

/-- Configuration for the C3 mode-"y" counterexample: the optional bool
choice 0 with the single promptless member IX. -/
def cfgC3a : Config :=
  { syms := [ixSym, modulesSym], choices := [optChoice], configPfx := str "CONFIG_",
    modulesIdx := 1, menuWalk := [], defconfigList := none }

/-- State for the C3 mode-"y" counterexample: the choice mode is set to
"y". -/
def stC3a : State := (choice_set_value cfgC3a (initialState cfgC3a) 0 (str "y")).1

/-- Choice member W for the C3 mode-"m" counterexample: a visible tristate
member of choice 0, implied unconditionally (its `weak_rev_dep` is the
constant "y"). -/
def wSym : Symbol :=
  { baseSym "W" .TRISTATE with
    promptConds := [none], choice := some 0, weak_rev_dep := .atom (.const (str "y")) }

/-- A non-optional tristate choice with prompt, containing only symbol 0. -/
def triChoice : Choice :=
  { name := none, ctype := .TRISTATE, syms := [0], defaults := [],
    is_optional := false, promptConds := [none] }

/-- Configuration for the C3 mode-"m" counterexample. -/
def cfgC3b : Config :=
  { syms := [wSym, modulesSym], choices := [triChoice], configPfx := str "CONFIG_",
    modulesIdx := 1, menuWalk := [], defconfigList := none }

/-- State for the C3 mode-"m" counterexample: the member W is set to "m"
(the choice mode becomes "m", and W's imply promotes its own value to
"y"). -/
def stC3b : State := (set_value cfgC3b (initialState cfgC3b) 0 (str "m")).1

/-- Choice member MX for the C3 witness: a visible bool member of
choice 0. -/
def mxSym : Symbol :=
  { baseSym "MX" .BOOL with promptConds := [none], choice := some 0 }

/-- Configuration for the C3 witness: the optional bool choice 0 with the
single visible member MX. -/
def cfgC3w : Config :=
  { syms := [mxSym, modulesSym], choices := [optChoice], configPfx := str "CONFIG_",
    modulesIdx := 1, menuWalk := [], defconfigList := none }

/-- State for the C3 witness: MX is set to "y" (which also records the
choice's user value and user selection). -/
def stC3w : State := (set_value cfgC3w (initialState cfgC3w) 0 (str "y")).1

/-- Symbol N of specification scenario 5: a visible int with range 10..20
and default 5. -/
def nSym : Symbol :=
  { baseSym "N" .INT with
    promptConds := [none],
    ranges := [(.const (str "10"), .const (str "20"), none)],
    defaults := [(.atom (.const (str "5")), none)] }

/-- Configuration for scenario 5. -/
def cfgC6 : Config :=
  { syms := [nSym, modulesSym], choices := [], configPfx := str "CONFIG_",
    modulesIdx := 1, menuWalk := [symNode 0], defconfigList := none }

/-- Scenario 5 state with user value "25" (outside the range). -/
def stC6a : State := (set_value cfgC6 (initialState cfgC6) 0 (str "25")).1

/-- Scenario 5 state with user value "15" (inside the range). -/
def stC6b : State := (set_value cfgC6 (initialState cfgC6) 0 (str "15")).1

/-- A visible string symbol S (for the `.config` string-quoting claims). -/
def sSym : Symbol := { baseSym "S" .STRING with promptConds := [none] }

/-- Configuration with the single defined string symbol S. -/
def cfgC7 : Config :=
  { syms := [sSym, modulesSym], choices := [], configPfx := str "CONFIG_",
    modulesIdx := 1, menuWalk := [symNode 0], defconfigList := none }

/-- The symbol index a `.config` line assigns to (if any): the set pattern
is tried first, then the unset pattern, mirroring `load_config`. -/
def lineTarget (cfg : Config) (l : Str) : Option Nat :=
  match matchSetLine cfg.configPfx (rstrip l) with
  | some (name, _) => findSymIdx cfg name
  | none =>
      match matchUnsetLine cfg.configPfx (rstrip l) with
      | some name => findSymIdx cfg name
      | none => none

/-- A line that matches neither `.config` pattern (comments, blank lines,
banner text): `load_config` skips it. -/
def inertLine (cfg : Config) (l : Str) : Prop :=
  matchSetLine cfg.configPfx (rstrip l) = none ∧
  matchUnsetLine cfg.configPfx (rstrip l) = none

/-- Per-character form of the writer's string escaping (backslashes and
double quotes get a backslash). -/
def escC (c : Char) : Str :=
  if c = '\\' then ['\\', '\\'] else if c = '"' then ['\\', '"'] else [c]

/-- Per-character intermediate form after the reader's first un-escaping
pass (only backslashes remain doubled). -/
def escHalf (c : Char) : Str :=
  if c = '\\' then ['\\', '\\'] else [c]

/-- The symbol index of a tagged writer entry. -/
def wIdx : WEntry → Option Nat
  | .symLine i _ => some i
  | .banner _ => none

/-- The concrete result of round-tripping `cfgFoo` from its initial state
(writer followed by `load_config` with `replace=True`). -/
def rtFoo : State × List Warning :=
  (round_trip 3 cfgFoo (initialState cfgFoo) defaultHeader).getD
    (initialState cfgFoo, [])

/-! Theorems.  Each claim of the specification audit is settled by exactly
one theorem below (with auxiliary lemmas shared between claims). -/

/-- Reflexivity of the tristate order. -/
theorem tri_le_refl : ∀ a : Tri, tri_less_eq a a = true := by
  intro a
  cases a <;> rfl

/-- Transitivity of the tristate order. -/
theorem tri_le_trans : ∀ a b c : Tri,
    tri_less_eq a b = true → tri_less_eq b c = true → tri_less_eq a c = true := by
  intro a b c
  cases a <;> cases b <;> cases c <;> decide

/-- The bottom element of the tristate order. -/
theorem tri_le_n : ∀ a : Tri, tri_less_eq Tri.n a = true := by
  intro a
  cases a <;> rfl

/-- The right operand bounds a tristate maximum from below. -/
theorem tri_le_max_right : ∀ a b : Tri, tri_less_eq b (triMax a b) = true := by
  intro a b
  cases a <;> cases b <;> rfl

/-- Conversion round trip between `Tri` and its string form. -/
theorem triOfStr_toStr : ∀ t : Tri, triOfStr t.toStr = t := by
  intro t
  cases t <;> rfl

/-- C5.  Expression evaluation is the tristate algebra over n < m < y: a
missing expression evaluates to "y"; AND is the minimum and OR the maximum
of the operand values; NOT swaps "y" and "n" and fixes "m"; a Symbol leaf
whose raw type is not bool/tristate evaluates to "n"; a string leaf
evaluates to itself when it is "m" or "y" and to "n" otherwise. -/
theorem claim5_eval_algebra (cfg : Config) (prev : Oracle) (e1 e2 : Expr) (t1 t2 : Tri)
    (h1 : eval_expr_rec cfg prev e1 = some t1)
    (h2 : eval_expr_rec cfg prev e2 = some t2) :
    eval_expr cfg prev none = some .y ∧
    eval_expr_rec cfg prev (.AND e1 e2) = some (triMin t1 t2) ∧
    eval_expr_rec cfg prev (.OR e1 e2) = some (triMax t1 t2) ∧
    eval_expr_rec cfg prev (.NOT e1) =
      some (match t1 with
            | .y => .n
            | .n => .y
            | .m => .m) ∧
    (∀ s, eval_expr_rec cfg prev (.atom (.const s)) =
       some (if s = str "m" then .m else if s = str "y" then .y else .n)) ∧
    (∀ i sym, getSym cfg i = some sym → sym.stype ≠ .BOOL → sym.stype ≠ .TRISTATE →
       eval_expr_rec cfg prev (.atom (.sym i)) = some .n) := by
  refine ⟨rfl, ?_, ?_, ?_, ?_, ?_⟩
  · rcases t1 <;> rcases t2 <;>
      simp [eval_expr_rec, h1, h2, triMin, tri_less, TRI_TO_INT]
  · rcases t1 <;> rcases t2 <;>
      simp [eval_expr_rec, h1, h2, triMax, tri_greater, TRI_TO_INT]
  · rcases t1 <;> simp [eval_expr_rec, h1]
  · intro s
    simp [eval_expr_rec, triOfStr]
  · intro i sym hs hb ht
    simp [eval_expr_rec, hs, hb, ht]

/-- Witness for C5 at a concrete configuration: the conjunction
instantiated with the constant leaves "m" and "y" in the empty
configuration. -/
theorem claim5_eval_algebra_witness :
    eval_expr cfgEmpty oracle0 none = some .y ∧
    eval_expr_rec cfgEmpty oracle0
      (.AND (.atom (.const (str "m"))) (.atom (.const (str "y")))) = some Tri.m ∧
    eval_expr_rec cfgEmpty oracle0
      (.OR (.atom (.const (str "m"))) (.atom (.const (str "y")))) = some Tri.y := by
  have h := claim5_eval_algebra cfgEmpty oracle0
    (.atom (.const (str "m"))) (.atom (.const (str "y"))) Tri.m Tri.y (by rfl) (by rfl)
  exact ⟨h.1, h.2.1, h.2.2.1⟩

/-- C8 counterexample.  Expansion is not one-pass: expanding `$A` when A's
value is `$B` and B's value is `hi` yields `hi` -- the `$B` introduced by
the substitution is expanded again -- whereas the one-pass expansion the
claim describes yields `$B`. -/
theorem claim8_counterexample :
    expand_sym_refs cfgC8 stC8 5 5 (str "$A") = some (str "hi") ∧
    expandOnePass cfgC8 stC8 5 10 (str "$A") = str "$B" ∧
    str "hi" ≠ str "$B" := by
  refine ⟨by rfl, by rfl, by decide⟩

/-- C8 amended.  Symbol-reference expansion rescans the string from the
start after each substitution until no reference remains: whenever it
terminates, the result contains no occurrence of the `$NAME` pattern at
all (in particular references introduced by substituted values are expanded
too). -/
theorem claim8_expand_exhaustive (cfg : Config) (st : State) (f fuel : Nat) (s r : Str)
    (h : expand_sym_refs cfg st f fuel s = some r) :
    symRefSearch r = none := by
  induction fuel generalizing s with
  | zero => simp [expand_sym_refs] at h
  | succ n ih =>
      rw [expand_sym_refs] at h
      rcases hs : symRefSearch s with _ | ⟨b, nm, a⟩
      · rw [hs] at h
        cases h
        exact hs
      · rw [hs] at h
        dsimp only at h
        rcases hrep : (match findSymIdx cfg nm with
            | some i => (valueOracle cfg st f i).map (fun p => p.1)
            | none => some [] : Option Str) with _ | rep
        · rw [hrep] at h
          cases h
        · rw [hrep] at h
          exact ih _ h

/-- Witness for the amended C8: expanding `$A` in the concrete
configuration terminates and the result contains no reference. -/
theorem claim8_expand_exhaustive_witness :
    symRefSearch (str "hi") = none := by
  exact claim8_expand_exhaustive cfgC8 stC8 5 5 (str "$A") (str "hi") (by rfl)

/-- C9.  Environment values are captured at construction: two runs that
construct under the same environment `e` (hence share the captured prefix
and srctree and the parsed configuration) and then perform the same
operations -- value queries, config load (with `$srctree`-based file
resolution), config write, `defconfig_filename` -- produce identical
results under arbitrarily different post-construction environments. -/
theorem claim9_env_capture (e : Env) (fs : FS) (cfg : Config) (st : State)
    (envs1 envs2 : List Env) (ops : List Op) :
    runOps (captureEnv e) fs cfg st envs1 ops =
      runOps (captureEnv e) fs cfg st envs2 ops := by
  induction ops generalizing st envs1 envs2 with
  | nil => rfl
  | cons op rest ih =>
      have hop : ∀ env1 env2 : Env, runOp (captureEnv e) fs env1 cfg st op =
          runOp (captureEnv e) fs env2 cfg st op := by
        intro env1 env2
        cases op <;> rfl
      simp only [runOps]
      rw [hop (envs1.headD (fun _ => none)) (envs2.headD (fun _ => none))]
      exact congrArg _ (ih _ _ _)

/-- Helper for C10: `_lookup_sym` in `for_eval` mode never modifies the
symbol table. -/
theorem lookup_sym_for_eval_frame (cfg : Config) (name : Str) :
    (lookup_sym cfg name true).1 = cfg := by
  unfold lookup_sym
  cases findSymIdx cfg name <;> simp

/-- Helper for C10: the tokenizer loop in `for_eval` mode never modifies the
symbol table. -/
theorem tokLoop_for_eval_frame (hasBS : Bool) :
    ∀ (fuel : Nat) (cfg : Config) (prevTok : Option Token) (acc : List Token) (s : Str),
      (tokLoop true hasBS fuel cfg prevTok acc s).1 = cfg := by
  intro fuel
  induction fuel with
  | zero => intro cfg _ _ _; rfl
  | succ n ih =>
      intro cfg prevTok acc s
      cases s with
      | nil => rfl
      | cons c rest =>
          rw [tokLoop]
          cases tokStep hasBS prevTok c rest with
          | emit tok r => exact ih _ _ _ _
          | lookup name r =>
              dsimp only
              rw [ih]
              exact lookup_sym_for_eval_frame _ _
          | skip r => exact ih _ _ _ _
          | stop => rfl
          | err => rfl

/-- C10.  `eval_string` leaves the configuration unchanged: the symbol
table gains no entry even when the evaluated string mentions names absent
from it (such names become fresh, unregistered symbols and are only warned
about), and consequently every symbol's observable value is the same before
and after the call. -/
theorem claim10_eval_string_frame (cfg : Config) (st : State) (f : Nat) (s : Str) :
    (eval_string cfg st f s).1 = cfg ∧
    (∀ g j, valueOracle (eval_string cfg st f s).1 st g j = valueOracle cfg st g j) := by
  have h : (tokenizeEval cfg s).1 = cfg := tokLoop_for_eval_frame _ _ _ _ _ _
  have h1 : (eval_string cfg st f s).1 = cfg := by
    unfold eval_string
    rcases htok : tokenizeEval cfg s with ⟨cfg2, tr⟩
    have hc : cfg2 = cfg := by
      rw [htok] at h
      exact h
    rcases tr with _ | toks
    · simpa using hc
    · dsimp only
      rcases parse_expr cfg2 true (3 * toks.length + 3) toks with _ | ⟨e, rest⟩ <;>
        simpa using hc
  exact ⟨h1, fun g j => by rw [h1]⟩

/-- Helper for C2: applying the reverse dependency bounds the value from
below by the evaluated `rev_dep`. -/
theorem applyRevDep_ge (cfg : Config) (prev : Oracle) (sym : Symbol) (p q : Tri × Bool)
    (h : applyRevDep cfg prev sym p = some q) (r : Tri)
    (hr : eval_expr_rec cfg prev sym.rev_dep = some r) :
    tri_less_eq r q.1 = true := by
  unfold applyRevDep at h
  rw [hr] at h
  dsimp only at h
  by_cases hn : r = Tri.n
  · subst hn
    exact tri_le_n _
  · rw [if_pos hn] at h
    cases h
    exact tri_le_max_right _ _

/-- Helper for C2: the final "m"-to-"y" promotion never lowers the value. -/
theorem promoteMY_ge (cfg : Config) (st : State) (prev : Oracle) (i : Nat) (sym : Symbol)
    (p q : Tri × Bool) (h : promoteMY cfg st prev i sym p = some q) :
    tri_less_eq p.1 q.1 = true := by
  unfold promoteMY at h
  by_cases hm : p.1 = Tri.m
  · rw [if_pos hm] at h
    rcases ht : symTypeD cfg st prev i with _ | t
    · rw [ht] at h
      cases h
    · rw [ht] at h
      dsimp only at h
      by_cases hb : t = SymType.BOOL
      · rw [if_pos hb] at h
        cases h
        simp [hm, tri_less_eq, TRI_TO_INT]
      · rw [if_neg hb] at h
        rcases hw : eval_expr_rec cfg prev sym.weak_rev_dep with _ | w
        · rw [hw] at h
          cases h
        · rw [hw] at h
          dsimp only at h
          by_cases hy : w = Tri.y
          · rw [if_pos hy] at h
            cases h
            simp [hm, tri_less_eq, TRI_TO_INT]
          · rw [if_neg hy] at h
            cases h
            exact tri_le_refl _
  · rw [if_neg hm] at h
    cases h
    exact tri_le_refl _

/-- Helper for C2: for a bool/tristate symbol outside any choice, the
computed tristate value is at least the evaluated reverse dependency. -/
theorem symValueT_ge_rev (cfg : Config) (st : State) (prev : Oracle) (i : Nat)
    (sym : Symbol) (hs : getSym cfg i = some sym) (hnc : sym.choice = none)
    (p : Tri × Bool) (hv : symValueTD cfg st prev i = some p) (r : Tri)
    (hr : eval_expr_rec cfg prev sym.rev_dep = some r) :
    tri_less_eq r p.1 = true := by
  unfold symValueTD at hv
  rw [hs] at hv
  dsimp only at hv
  rcases hvis : symVisD cfg st prev i with _ | vis
  · rw [hvis] at hv
    cases hv
  · rw [hvis] at hv
    rw [hnc] at hv
    dsimp only at hv
    rcases hud : userOrDefaultsBT cfg st prev i sym vis with _ | p0
    · rw [hud] at hv
      cases hv
    · rw [hud] at hv
      dsimp only at hv
      rcases har : applyRevDep cfg prev sym p0 with _ | p1
      · rw [har] at hv
        cases hv
      · rw [har] at hv
        dsimp only at hv
        exact tri_le_trans _ _ _ (applyRevDep_ge cfg prev sym p0 p1 har r hr)
          (promoteMY_ge cfg st prev i sym p1 p hv)

/-- C2 counterexample.  The select lower bound fails for choice members: in
the (reachable) initial state of `cfgC2`, the bool choice member CX has
value "n" although its `rev_dep` evaluates to "y" -- the choice branch of
`Symbol.value` never consults `rev_dep`. -/
theorem claim2_counterexample :
    Reachable cfgC2 (initialState cfgC2) ∧
    getSym cfgC2 0 = some cxSym ∧
    cxSym.stype = SymType.BOOL ∧
    cxSym.choice = some 0 ∧
    symValueAt 3 cfgC2 (initialState cfgC2) 0 = some (str "n") ∧
    evalRecAt 3 cfgC2 (initialState cfgC2) cxSym.rev_dep = some Tri.y ∧
    tri_less_eq Tri.y (triOfStr (str "n")) = false := by
  exact ⟨Reachable.init, by rfl, by rfl, by rfl, by rfl, by rfl, by rfl⟩

/-- C2 amended.  Select lower bound for symbols outside choices: for every
bool/tristate symbol S that is not a choice member, in every reachable
state, `value(S)` is at least `eval(rev_dep(S))` in the tristate order
n < m < y (for choice members the bound fails, see the counterexample). -/
theorem claim2_select_lower_bound (cfg : Config) (st : State) (f : Nat) (i : Nat)
    (sym : Symbol) (hreach : Reachable cfg st)
    (hs : getSym cfg i = some sym)
    (ht : sym.stype = SymType.BOOL ∨ sym.stype = SymType.TRISTATE)
    (hnc : sym.choice = none)
    (v : Str) (hv : symValueAt f cfg st i = some v)
    (r : Tri) (hr : evalRecAt f cfg st sym.rev_dep = some r) :
    tri_less_eq r (triOfStr v) = true := by
  unfold evalRecAt at hr
  have key : ∃ p, symValueTD cfg st (valueOracle cfg st f) i = some p ∧ p.1.toStr = v := by
    unfold symValueAt symValStrD at hv
    rw [hs] at hv
    dsimp only at hv
    rcases ht with ht | ht <;> rw [ht] at hv <;> dsimp only at hv <;>
      rcases hvt : symValueTD cfg st (valueOracle cfg st f) i with _ | p <;>
        rw [hvt] at hv <;> simp at hv <;> exact ⟨p, rfl, hv⟩
  obtain ⟨p, hvt, hveq⟩ := key
  have hge := symValueT_ge_rev cfg st (valueOracle cfg st f) i sym hs hnc p hvt r hr
  rw [← hveq, triOfStr_toStr]
  exact hge

/-- Witness for the amended C2 at the concrete configuration `cfgFoo`:
FOO's reverse dependency evaluates to "n" and its value is "y". -/
theorem claim2_select_lower_bound_witness :
    tri_less_eq Tri.n (triOfStr (str "y")) = true := by
  exact claim2_select_lower_bound cfgFoo (initialState cfgFoo) 3 0 fooSym
    Reachable.init (by rfl) (Or.inl (by rfl)) (by rfl) (str "y") (by rfl) Tri.n (by rfl)

/-- Helper: a tristate minimum with "m" is never "y". -/
theorem triMin_m_ne_y : ∀ x : Tri, triMin x Tri.m ≠ Tri.y := by
  intro x
  cases x <;> decide

/-- Helper: a tristate minimum equal to "m" has an "m" operand. -/
theorem triMin_eq_m_cases : ∀ a b : Tri, triMin a b = Tri.m → a = Tri.m ∨ b = Tri.m := by
  intro a b
  cases a <;> cases b <;> decide

/-- Helper for C4: a visibility promotion resulting in "m" pins down its
inputs: the incoming visibility was "m", the raw type tristate, and modules
are on. -/
theorem promoteVis_m (cfg : Config) (prev : Oracle) (t : SymType) (v : Tri)
    (h : promoteVis cfg prev t v = some Tri.m) :
    v = Tri.m ∧ t = SymType.TRISTATE ∧ modulesValueIsN cfg prev = some false := by
  unfold promoteVis at h
  by_cases hm : v = Tri.m
  · rw [if_pos hm] at h
    by_cases ht : t ≠ SymType.TRISTATE
    · rw [if_pos ht] at h
      simp at h
    · rw [if_neg ht] at h
      push_neg at ht
      rcases hmod : modulesValueIsN cfg prev with _ | b
      · rw [hmod] at h
        cases h
      · rw [hmod] at h
        dsimp only at h
        cases b
        · exact ⟨hm, ht, rfl⟩
        · simp at h
  · rw [if_neg hm] at h
    simp at h
    exact absurd h hm

/-- Helper for C4: when a choice's visibility is "m", its mode computes and
is not "y". -/
theorem choiceValue_ne_y_of_vis_m (cfg : Config) (st : State) (prev : Oracle) (ci : Nat)
    (hv0 : choiceVisD cfg st prev ci = some Tri.m) :
    ∃ cv, choiceValueD cfg st prev ci = some cv ∧ cv ≠ Tri.y := by
  have hv := hv0
  unfold choiceVisD at hv
  rcases hc : getChoice cfg ci with _ | c
  · rw [hc] at hv
    cases hv
  · rw [hc] at hv
    dsimp only at hv
    rcases hf : visFold cfg prev .n c.promptConds with _ | vf
    · rw [hf] at hv
      cases hv
    · rw [hf] at hv
      dsimp only at hv
      obtain ⟨hvf, hct, hmod⟩ := promoteVis_m cfg prev c.ctype vf hv
      have htype : choiceTypeD cfg prev c = some SymType.TRISTATE := by
        unfold choiceTypeD
        simp [hct, hmod]
      unfold choiceValueD
      rw [hc]
      dsimp only
      rcases hu : choiceUserVal st ci with _ | uv
      · dsimp only
        by_cases hopt : c.is_optional
        · exact ⟨Tri.n, by simp [hopt], by decide⟩
        · exact ⟨Tri.m, by simp [hopt, htype], by decide⟩
      · rw [hv0]
        dsimp only
        rcases ht0 : triOfStr uv with _ | _ | _
        · by_cases hopt : c.is_optional
          · exact ⟨Tri.n, by simp [triMin, tri_less, TRI_TO_INT, hopt], by decide⟩
          · exact ⟨Tri.m, by simp [triMin, tri_less, TRI_TO_INT, hopt, htype], by decide⟩
        · exact ⟨Tri.m, by simp [triMin, tri_less, TRI_TO_INT, htype], by decide⟩
        · exact ⟨Tri.m, by simp [triMin, tri_less, TRI_TO_INT, htype], by decide⟩

/-- Helper for C4: a symbol whose visibility is "m" has effective type
tristate (its raw type is tristate, modules are on, and its choice -- if
any -- is not in "y" mode). -/
theorem symVis_m_type (cfg : Config) (st : State) (prev : Oracle) (i : Nat) (sym : Symbol)
    (hs : getSym cfg i = some sym)
    (hv : symVisD cfg st prev i = some Tri.m) :
    symTypeD cfg st prev i = some SymType.TRISTATE := by
  unfold symVisD at hv
  rw [hs] at hv
  dsimp only at hv
  rcases hf : visFold cfg prev .n sym.promptConds with _ | vis0
  · rw [hf] at hv
    cases hv
  · rw [hf] at hv
    dsimp only at hv
    rcases hch : sym.choice with _ | ci
    · rw [hch] at hv
      dsimp only at hv
      obtain ⟨_, hst, hmod⟩ := promoteVis_m cfg prev sym.stype vis0 hv
      unfold symTypeD
      rw [hs]
      simp [hst, hch, hmod]
    · rw [hch] at hv
      dsimp only at hv
      rcases hc : getChoice cfg ci with _ | c
      · rw [hc] at hv
        cases hv
      · rw [hc] at hv
        dsimp only at hv
        rcases hg1 : (if c.ctype = SymType.TRISTATE ∧ sym.stype ≠ SymType.TRISTATE then
            (choiceValueD cfg st prev ci).map (fun cv => decide (cv ≠ Tri.y))
          else some false : Option Bool) with _ | b1
        · rw [hg1] at hv
          cases hv
        · rw [hg1] at hv
          cases b1 with
          | true => simp at hv
          | false =>
          dsimp only at hv
          rcases hg2 : (if sym.stype = SymType.TRISTATE ∧ vis0 = Tri.m then
              (choiceValueD cfg st prev ci).map (fun cv => decide (cv = Tri.y))
            else some false : Option Bool) with _ | b2
          · rw [hg2] at hv
            cases hv
          · rw [hg2] at hv
            cases b2 with
            | true => simp at hv
            | false =>
            dsimp only at hv
            rcases hcv : choiceVisD cfg st prev ci with _ | cvis
            · rw [hcv] at hv
              cases hv
            · rw [hcv] at hv
              dsimp only at hv
              obtain ⟨hminm, hst, hmod⟩ := promoteVis_m cfg prev sym.stype (triMin vis0 cvis) hv
              have hcvney : ∃ cv, choiceValueD cfg st prev ci = some cv ∧ cv ≠ Tri.y := by
                by_cases hv0m : vis0 = Tri.m
                · rw [if_pos ⟨hst, hv0m⟩] at hg2
                  rcases hmap : choiceValueD cfg st prev ci with _ | cv
                  · rw [hmap] at hg2
                    cases hg2
                  · rw [hmap] at hg2
                    simp at hg2
                    exact ⟨cv, rfl, hg2⟩
                · have hcvm : cvis = Tri.m := by
                    rcases triMin_eq_m_cases vis0 cvis hminm with h1 | h1
                    · exact absurd h1 hv0m
                    · exact h1
                  rw [hcvm] at hcv
                  exact choiceValue_ne_y_of_vis_m cfg st prev ci hcv
              obtain ⟨cv, hcveq, hcvne⟩ := hcvney
              unfold symTypeD
              rw [hs]
              simp [hst, hch, hcveq, hcvne, hmod]

/-- C4.  For every bool/tristate symbol the assignable set equals the table
of specification section 4.7, as a function of the visibility, the
evaluated `rev_dep` and the "bool-ish" column (effective type bool, or
`weak_rev_dep` evaluating to "y").  The row (visibility "m", `rev_dep` "n",
bool-ish via effective type bool) is vacuous: visibility "m" forces the
effective type to be tristate. -/
theorem claim4_assignable_table (f : Nat) (cfg : Config) (st : State) (i : Nat)
    (sym : Symbol) (hs : getSym cfg i = some sym)
    (hbt : sym.stype = SymType.BOOL ∨ sym.stype = SymType.TRISTATE)
    (vis rd w : Tri) (t : SymType)
    (hvis : symVisAt f cfg st i = some vis)
    (hrd : evalRecAt f cfg st sym.rev_dep = some rd)
    (hw : evalRecAt f cfg st sym.weak_rev_dep = some w)
    (ht : symTypeAt f cfg st i = some t)
    (a : Str) (ha : assignableAt f cfg st i = some a) :
    a = specAssignableTable vis rd (decide (t = SymType.BOOL) || decide (w = Tri.y)) := by
  unfold symVisAt at hvis
  unfold evalRecAt at hrd hw
  unfold symTypeAt at ht
  unfold assignableAt get_assignableD at ha
  rw [hs] at ha
  dsimp only at ha
  have hnot : ¬ (sym.stype ≠ SymType.BOOL ∧ sym.stype ≠ SymType.TRISTATE) := by
    rcases hbt with h | h <;> simp [h]
  rw [if_neg hnot] at ha
  rw [hvis] at ha
  dsimp only at ha
  have hboolish : get_assignableD.boolish cfg st (valueOracle cfg st f) i sym =
      some (decide (t = SymType.BOOL) || decide (w = Tri.y)) := by
    unfold get_assignableD.boolish
    rw [ht]
    dsimp only
    by_cases hb : t = SymType.BOOL
    · simp [hb]
    · simp [hb, hw]
  rcases vis with _ | _ | _
  · simp at ha
    simp [ha, specAssignableTable]
  · -- vis = m
    have httri := symVis_m_type cfg st (valueOracle cfg st f) i sym hs hvis
    rw [ht] at httri
    have ht2 : t = SymType.TRISTATE := by
      simpa using httri
    subst ht2
    rw [if_neg (by decide : ¬ (Tri.m = Tri.n))] at ha
    rw [hrd] at ha
    dsimp only at ha
    rw [if_neg (by decide : ¬ (Tri.m = Tri.y))] at ha
    rcases rd with _ | _ | _
    · rw [hw] at ha
      by_cases hwy : w = Tri.y
      · simp [hwy] at ha
        subst ha
        simp [specAssignableTable, hwy]
      · simp [hwy] at ha
        subst ha
        simp [specAssignableTable, hwy]
    · simp at ha
      subst ha
      simp [specAssignableTable]
    · simp at ha
      subst ha
      simp [specAssignableTable]
  · -- vis = y
    rw [if_neg (by decide : ¬ (Tri.y = Tri.n))] at ha
    rw [hrd] at ha
    dsimp only at ha
    rcases rd with _ | _ | _
    · rw [hboolish] at ha
      rcases hB : (decide (t = SymType.BOOL) || decide (w = Tri.y)) with _ | _
      · rw [hB] at ha
        simp at ha
        subst ha
        simp [specAssignableTable]
      · rw [hB] at ha
        simp at ha
        subst ha
        simp [specAssignableTable]
    · rw [hboolish] at ha
      rcases hB : (decide (t = SymType.BOOL) || decide (w = Tri.y)) with _ | _
      · rw [hB] at ha
        simp at ha
        subst ha
        simp [specAssignableTable]
      · rw [hB] at ha
        simp at ha
        subst ha
        simp [specAssignableTable]
    · simp at ha
      subst ha
      simp [specAssignableTable]

/-- Witness for C4 at `cfgFoo`: FOO is a visible bool with no selects, so
its assignable set is the table row (visibility "y", `rev_dep` "n",
bool-ish), i.e. "ny". -/
theorem claim4_assignable_table_witness :
    str "ny" = specAssignableTable Tri.y Tri.n
      (decide (SymType.BOOL = SymType.BOOL) || decide (Tri.n = Tri.y)) := by
  exact claim4_assignable_table 3 cfgFoo (initialState cfgFoo) 0 fooSym (by rfl)
    (Or.inl (by rfl)) Tri.y Tri.n Tri.n SymType.BOOL (by rfl) (by rfl) (by rfl) (by rfl)
    (str "ny") (by rfl)

/-- Helper for C3: a default selected by the `Choice.defaults` scan is
visible. -/
theorem scanChoiceDefaults_visible (cfg : Config) (st : State) (prev : Oracle)
    (l : List (Nat × Option Expr)) :
    ∀ j, scanChoiceDefaults cfg st prev l = some (some j) →
      ∃ v, symVisD cfg st prev j = some v ∧ v ≠ Tri.n := by
  induction l with
  | nil =>
      intro j h
      exact absurd h (by simp [scanChoiceDefaults])
  | cons hd tl ih =>
      intro j h
      obtain ⟨si, cond⟩ := hd
      rw [scanChoiceDefaults] at h
      rcases he : eval_expr cfg prev cond with _ | cv
      · rw [he] at h
        cases h
      · rw [he] at h
        dsimp only at h
        by_cases hcv : cv ≠ Tri.n
        · rw [if_pos hcv] at h
          rcases hvj : symVisD cfg st prev si with _ | v
          · rw [hvj] at h
            cases h
          · rw [hvj] at h
            dsimp only at h
            by_cases hvn : v ≠ Tri.n
            · rw [if_pos hvn] at h
              injection h with h
              injection h with h
              subst h
              exact ⟨v, hvj, hvn⟩
            · rw [if_neg hvn] at h
              exact ih j h
        · rw [if_neg hcv] at h
          exact ih j h

/-- Helper for C3: a member found by the first-visible-member fallback of
`Choice.default_selection` is visible. -/
theorem firstVisibleMember_visible (cfg : Config) (st : State) (prev : Oracle)
    (l : List Nat) :
    ∀ j, firstVisibleMember cfg st prev l = some (some j) →
      ∃ v, symVisD cfg st prev j = some v ∧ v ≠ Tri.n := by
  induction l with
  | nil =>
      intro j h
      exact absurd h (by simp [firstVisibleMember])
  | cons si tl ih =>
      intro j h
      rw [firstVisibleMember] at h
      rcases hvj : symVisD cfg st prev si with _ | v
      · rw [hvj] at h
        cases h
      · rw [hvj] at h
        dsimp only at h
        by_cases hvn : v ≠ Tri.n
        · rw [if_pos hvn] at h
          injection h with h
          injection h with h
          subst h
          exact ⟨v, hvj, hvn⟩
        · rw [if_neg hvn] at h
          exact ih j h

/-- Helper for C3: a default selection of a choice is visible. -/
theorem choiceDefaultSel_visible (cfg : Config) (st : State) (prev : Oracle)
    (c : Choice) (j : Nat) (h : choiceDefaultSelD cfg st prev c = some (some j)) :
    ∃ v, symVisD cfg st prev j = some v ∧ v ≠ Tri.n := by
  unfold choiceDefaultSelD at h
  rcases hs : scanChoiceDefaults cfg st prev c.defaults with _ | so
  · rw [hs] at h
    cases h
  · rw [hs] at h
    rcases so with _ | si
    · dsimp only at h
      exact firstVisibleMember_visible cfg st prev c.syms j h
    · dsimp only at h
      injection h with h
      injection h with h
      subst h
      exact scanChoiceDefaults_visible cfg st prev c.defaults _ hs

/-- Helper for C3: the selection of a choice (when one exists) is a visible
symbol. -/
theorem choiceSelection_visible (cfg : Config) (st : State) (prev : Oracle)
    (ci : Nat) (j : Nat) (h : choiceSelectionD cfg st prev ci = some (some j)) :
    ∃ v, symVisD cfg st prev j = some v ∧ v ≠ Tri.n := by
  unfold choiceSelectionD at h
  rcases hc : getChoice cfg ci with _ | c
  · rw [hc] at h
    cases h
  · rw [hc] at h
    dsimp only at h
    rcases hcv : choiceValueD cfg st prev ci with _ | cv
    · rw [hcv] at h
      cases h
    · rw [hcv] at h
      dsimp only at h
      by_cases hne : cv ≠ Tri.y
      · rw [if_pos hne] at h
        injection h with h
        cases h
      · rw [if_neg hne] at h
        rcases hus : choiceUserSel st ci with _ | us
        · rw [hus] at h
          dsimp only at h
          exact choiceDefaultSel_visible cfg st prev c j h
        · rw [hus] at h
          dsimp only at h
          rcases hvu : symVisD cfg st prev us with _ | v
          · rw [hvu] at h
            cases h
          · rw [hvu] at h
            dsimp only at h
            by_cases hvy : v = Tri.y
            · rw [if_pos hvy] at h
              injection h with h
              injection h with h
              subst h
              exact ⟨v, hvu, by rw [hvy]; decide⟩
            · rw [if_neg hvy] at h
              exact choiceDefaultSel_visible cfg st prev c j h

/-- Helper for C3: a choice in mode "m" has an effective type other than
bool (its declared tristate type survived the modules test). -/
theorem choiceValue_m_type (cfg : Config) (st : State) (prev : Oracle) (ci : Nat)
    (c : Choice) (hc : getChoice cfg ci = some c)
    (h : choiceValueD cfg st prev ci = some Tri.m) :
    ∃ t, choiceTypeD cfg prev c = some t ∧ t ≠ SymType.BOOL := by
  unfold choiceValueD at h
  rw [hc] at h
  dsimp only at h
  rcases hu : choiceUserVal st ci with _ | uv
  · rw [hu] at h
    dsimp only at h
    by_cases hopt : c.is_optional = true
    · rw [hopt] at h
      simp at h
    · have hval : (if Tri.n = Tri.n ∧ ¬c.is_optional = true then Tri.m else Tri.n) =
          Tri.m := if_pos ⟨rfl, hopt⟩
      rw [hval] at h
      rw [if_pos rfl] at h
      rcases htc : choiceTypeD cfg prev c with _ | t
      · rw [htc] at h
        cases h
      · rw [htc] at h
        dsimp only at h
        by_cases hb : t = SymType.BOOL
        · rw [if_pos hb] at h
          exact absurd h (by decide)
        · exact ⟨t, rfl, hb⟩
  · rw [hu] at h
    dsimp only at h
    rcases hcv2 : choiceVisD cfg st prev ci with _ | cvv
    · rw [hcv2] at h
      dsimp only [Option.map] at h
      cases h
    · rw [hcv2] at h
      dsimp only [Option.map] at h
      by_cases hVm : (if triMin (triOfStr uv) cvv = Tri.n ∧ ¬c.is_optional = true
          then Tri.m else triMin (triOfStr uv) cvv) = Tri.m
      · rw [if_pos hVm] at h
        rcases htc : choiceTypeD cfg prev c with _ | t
        · rw [htc] at h
          cases h
        · rw [htc] at h
          dsimp only at h
          by_cases hb : t = SymType.BOOL
          · rw [if_pos hb] at h
            exact absurd h (by decide)
          · exact ⟨t, rfl, hb⟩
      · rw [if_neg hVm] at h
        injection h with h
        exact absurd h hVm

/-- Helper: a tristate whose string form is "y" is "y". -/
theorem toStr_eq_y : ∀ t : Tri, t.toStr = str "y" → t = Tri.y := by
  intro t
  cases t <;> decide

/-- Helper: the string value of a bool/tristate symbol is the string form
of its tristate value. -/
theorem symValueAt_bt (cfg : Config) (st : State) (f : Nat) (i : Nat) (sym : Symbol)
    (hs : getSym cfg i = some sym)
    (hbt : sym.stype = SymType.BOOL ∨ sym.stype = SymType.TRISTATE)
    (v : Str) (hv : symValueAt f cfg st i = some v) :
    ∃ p, symValueTD cfg st (valueOracle cfg st f) i = some p ∧ p.1.toStr = v := by
  unfold symValueAt symValStrD at hv
  rw [hs] at hv
  dsimp only at hv
  rcases hbt with ht | ht <;> rw [ht] at hv <;> dsimp only at hv <;>
    rcases hvt : symValueTD cfg st (valueOracle cfg st f) i with _ | p <;>
      rw [hvt] at hv <;> simp at hv <;> exact ⟨p, rfl, hv⟩

/-- C3 counterexample.  (a) In the reachable state `stC3a` of `cfgC3a`,
choice 0 is in mode "y" yet its only member IX has value "n": no member at
all has value "y", refuting "exactly one member has value y".  (b) In the
reachable state `stC3b` of `cfgC3b`, choice 0 is in mode "m" yet its only
member W (implied by the constant "y") has value "y", refuting "in mode m
no member has value y". -/
theorem claim3_counterexample :
    (Reachable cfgC3a stC3a ∧
     choiceValueAt 3 cfgC3a stC3a 0 = some Tri.y ∧
     getChoice cfgC3a 0 = some optChoice ∧
     optChoice.syms = [0] ∧
     symValueAt 3 cfgC3a stC3a 0 = some (str "n")) ∧
    (Reachable cfgC3b stC3b ∧
     choiceValueAt 3 cfgC3b stC3b 0 = some Tri.m ∧
     getChoice cfgC3b 0 = some triChoice ∧
     triChoice.syms = [0] ∧
     symValueAt 3 cfgC3b stC3b 0 = some (str "y")) := by
  exact ⟨⟨Reachable.step_choice_set (initialState cfgC3a) 0 (str "y") Reachable.init,
          by rfl, by rfl, by rfl, by rfl⟩,
         ⟨Reachable.step_set (initialState cfgC3b) 0 (str "m") Reachable.init,
          by rfl, by rfl, by rfl, by rfl⟩⟩

/-- C3 amended.  Choice exclusivity as implemented: in a well-formed
configuration, a bool/tristate member of a choice in mode "y" has value "y"
exactly when it is the selection (so at most one member is "y", and none is
when the choice has no visible member); a member of a choice in mode "m"
only reaches value "y" through its `imply` (weak reverse dependency)
evaluating to "y". -/
theorem claim3_choice_exclusivity (f : Nat) (cfg : Config) (st : State) (ci : Nat)
    (c : Choice) (hwf : wfChoice cfg) (hc : getChoice cfg ci = some c)
    (j : Nat) (hj : j ∈ c.syms) (sym : Symbol) (hsj : getSym cfg j = some sym)
    (hbt : sym.stype = SymType.BOOL ∨ sym.stype = SymType.TRISTATE)
    (v : Str) (hv : symValueAt f cfg st j = some v) :
    (∀ sel, choiceValueAt f cfg st ci = some Tri.y →
       choiceSelectionAt f cfg st ci = some sel →
       v = (if sel = some j then str "y" else str "n")) ∧
    (choiceValueAt f cfg st ci = some Tri.m → v = str "y" →
       evalRecAt f cfg st sym.weak_rev_dep = some Tri.y) := by
  obtain ⟨hnd, hty, hmem⟩ := hwf ci c hc
  obtain ⟨sym2, hsym2, hback, hunk⟩ := hmem j hj
  rw [hsj] at hsym2
  injection hsym2 with he
  subst he
  obtain ⟨p, hvt, hveq⟩ := symValueAt_bt cfg st f j sym hsj hbt v hv
  unfold symValueTD at hvt
  rw [hsj] at hvt
  dsimp only at hvt
  rcases hvis : symVisD cfg st (valueOracle cfg st f) j with _ | vis
  · rw [hvis] at hvt
    cases hvt
  · rw [hvis] at hvt
    dsimp only at hvt
    rw [hback] at hvt
    dsimp only at hvt
    rcases hq : choiceMemberVal cfg st (valueOracle cfg st f) j ci vis with _ | q
    · rw [hq] at hvt
      cases hvt
    · rw [hq] at hvt
      dsimp only at hvt
      unfold choiceMemberVal at hq
      constructor
      · intro sel hmode hsel
        unfold choiceValueAt at hmode
        unfold choiceSelectionAt at hsel
        by_cases hvn : vis = Tri.n
        · subst hvn
          rw [if_neg (by decide : ¬ (Tri.n ≠ Tri.n))] at hq
          injection hq with hq
          unfold promoteMY at hvt
          rw [← hq] at hvt
          rw [if_neg (by decide : ¬ ((Tri.n, false).1 = Tri.m))] at hvt
          injection hvt with hvt
          have hne : sel ≠ some j := by
            intro hsj2
            subst hsj2
            obtain ⟨v2, hv2, hv2n⟩ :=
              choiceSelection_visible cfg st (valueOracle cfg st f) ci j hsel
            rw [hvis] at hv2
            injection hv2 with hv2
            exact hv2n hv2.symm
          rw [if_neg hne, ← hveq, ← hvt]
          rfl
        · rw [if_pos hvn] at hq
          rw [hmode] at hq
          dsimp only at hq
          rw [if_pos (by decide : (Tri.y ≠ Tri.n))] at hq
          rw [if_pos rfl] at hq
          rw [hsel] at hq
          dsimp only at hq
          injection hq with hq
          by_cases hselj : sel = some j
          · rw [if_pos hselj] at hq
            unfold promoteMY at hvt
            rw [← hq] at hvt
            rw [if_neg (by decide : ¬ ((Tri.y, true).1 = Tri.m))] at hvt
            injection hvt with hvt
            rw [if_pos hselj, ← hveq, ← hvt]
            rfl
          · rw [if_neg hselj] at hq
            unfold promoteMY at hvt
            rw [← hq] at hvt
            rw [if_neg (by decide : ¬ ((Tri.n, true).1 = Tri.m))] at hvt
            injection hvt with hvt
            rw [if_neg hselj, ← hveq, ← hvt]
            rfl
      · intro hmode hvy
        unfold choiceValueAt at hmode
        have hpy : p.1 = Tri.y := toStr_eq_y p.1 (by rw [hveq]; exact hvy)
        obtain ⟨t2, htc2, htb2⟩ :=
          choiceValue_m_type cfg st (valueOracle cfg st f) ci c hc hmode
        have hctype : c.ctype = SymType.TRISTATE ∧
            modulesValueIsN cfg (valueOracle cfg st f) = some false := by
          rcases hty with hcb | hct | hcu
          · exfalso
            unfold choiceTypeD at htc2
            rw [hcb] at htc2
            rw [if_neg (by decide : ¬ (SymType.BOOL = SymType.TRISTATE))] at htc2
            injection htc2 with htc2
            exact htb2 htc2.symm
          · refine ⟨hct, ?_⟩
            unfold choiceTypeD at htc2
            rw [if_pos hct] at htc2
            rcases hmm : modulesValueIsN cfg (valueOracle cfg st f) with _ | b
            · rw [hmm] at htc2
              cases htc2
            · rw [hmm] at htc2
              dsimp only at htc2
              cases b
              · rfl
              · rw [if_pos rfl] at htc2
                injection htc2 with htc2
                exact absurd htc2.symm htb2
          · exfalso
            have hsu := hunk hcu
            rcases hbt with hb | hb <;> rw [hsu] at hb <;> cases hb
        obtain ⟨hct, hmodf⟩ := hctype
        by_cases hvn : vis = Tri.n
        · exfalso
          subst hvn
          rw [if_neg (by decide : ¬ (Tri.n ≠ Tri.n))] at hq
          injection hq with hq
          unfold promoteMY at hvt
          rw [← hq] at hvt
          rw [if_neg (by decide : ¬ ((Tri.n, false).1 = Tri.m))] at hvt
          injection hvt with hvt
          rw [← hvt] at hpy
          cases hpy
        · rw [if_pos hvn] at hq
          rw [hmode] at hq
          dsimp only at hq
          rw [if_pos (by decide : (Tri.m ≠ Tri.n))] at hq
          rw [if_neg (by decide : ¬ (Tri.m = Tri.y))] at hq
          by_cases huser :
              symUser st j = some (str "m") ∨ symUser st j = some (str "y")
          · rw [if_pos huser] at hq
            injection hq with hq
            have hst : symTypeD cfg st (valueOracle cfg st f) j =
                some SymType.TRISTATE := by
              rcases hbt with hb | hb
              · exfalso
                unfold symVisD at hvis
                rw [hsj] at hvis
                dsimp only at hvis
                rcases hf2 : visFold cfg (valueOracle cfg st f) Tri.n sym.promptConds
                    with _ | vis0
                · rw [hf2] at hvis
                  cases hvis
                · rw [hf2] at hvis
                  dsimp only at hvis
                  rw [hback] at hvis
                  dsimp only at hvis
                  rw [hc] at hvis
                  dsimp only at hvis
                  rcases hg1 : (if c.ctype = SymType.TRISTATE ∧
                        sym.stype ≠ SymType.TRISTATE then
                      (choiceValueD cfg st (valueOracle cfg st f) ci).map
                        (fun cv => decide (cv ≠ Tri.y))
                    else some false : Option Bool) with _ | b1
                  · rw [hg1] at hvis
                    cases hvis
                  · rw [hg1] at hvis
                    cases b1 with
                    | true =>
                        dsimp only at hvis
                        injection hvis with hvis
                        exact hvn hvis.symm
                    | false =>
                        rw [if_pos ⟨hct, by rw [hb]; decide⟩] at hg1
                        rw [hmode] at hg1
                        exact absurd hg1 (by decide)
              · unfold symTypeD
                rw [hsj]
                dsimp only
                rw [hb]
                rw [if_pos rfl]
                rw [hback]
                dsimp only
                rw [hmode]
                dsimp only
                rw [if_neg (by decide : ¬ (Tri.m = Tri.y))]
                rw [hmodf]
                dsimp only
                rfl
            unfold promoteMY at hvt
            rw [← hq] at hvt
            rw [if_pos (rfl : (Tri.m, true).1 = Tri.m)] at hvt
            rw [hst] at hvt
            dsimp only at hvt
            rw [if_neg (by decide : ¬ (SymType.TRISTATE = SymType.BOOL))] at hvt
            rcases hwv : eval_expr_rec cfg (valueOracle cfg st f) sym.weak_rev_dep
                with _ | wv
            · rw [hwv] at hvt
              cases hvt
            · rw [hwv] at hvt
              dsimp only at hvt
              by_cases hwy : wv = Tri.y
              · unfold evalRecAt
                rw [hwv, hwy]
              · exfalso
                rw [if_neg hwy] at hvt
                injection hvt with hvt
                rw [← hvt] at hpy
                cases hpy
          · exfalso
            rw [if_neg huser] at hq
            injection hq with hq
            unfold promoteMY at hvt
            rw [← hq] at hvt
            rw [if_neg (by decide : ¬ ((Tri.n, true).1 = Tri.m))] at hvt
            injection hvt with hvt
            rw [← hvt] at hpy
            cases hpy

/-- Helper for the C3 witness: the witness configuration is well-formed. -/
theorem wfChoice_cfgC3w : wfChoice cfgC3w := by
  intro ci c hc
  rcases ci with _ | ci
  · have h2 : (some optChoice : Option Choice) = some c := by
      rw [← hc]
      rfl
    injection h2 with h2
    subst h2
    refine ⟨by decide, Or.inl rfl, ?_⟩
    intro j hj
    have hj0 : j = 0 := by simpa [optChoice] using hj
    subst hj0
    exact ⟨mxSym, rfl, rfl, fun h => absurd h (by decide)⟩
  · cases hc

/-- Witness for the amended C3 at the concrete configuration `cfgC3w`: the
choice is in mode "y", MX is the selection, and MX's value is "y". -/
theorem claim3_choice_exclusivity_witness :
    str "y" = (if (some 0 : Option Nat) = some 0 then str "y" else str "n") := by
  exact (claim3_choice_exclusivity 3 cfgC3w stC3w 0 optChoice wfChoice_cfgC3w rfl
      0 (by decide) mxSym rfl (Or.inl rfl) (str "y") rfl).1
    (some 0) rfl rfl

/-- Helper for C6: defaults whose conditions all evaluate to "n" are
skipped by the int/hex defaults scan. -/
theorem scanDefaultsIH_append_n (cfg : Config) (prev : Oracle) (t : SymType)
    (base : Nat) (ro : Option (Int × Int)) :
    ∀ pre : List (Expr × Option Expr),
      (∀ d c, (d, c) ∈ pre → eval_expr cfg prev c = some Tri.n) →
      ∀ acc accW l, scanDefaultsIH cfg prev t base ro acc accW (pre ++ l) =
        scanDefaultsIH cfg prev t base ro acc accW l := by
  intro pre
  induction pre with
  | nil =>
      intro _ acc accW l
      rfl
  | cons hd tl ih =>
      intro hpre acc accW l
      obtain ⟨dval, cond⟩ := hd
      have hcn := hpre dval cond (List.mem_cons_self _ _)
      rw [List.cons_append, scanDefaultsIH, hcn]
      dsimp only
      rw [if_neg (by simp)]
      exact ih (fun d c hm => hpre d c (List.mem_cons_of_mem _ hm)) acc accW l

/-- Helper for C6: the int/hex defaults scan stops at the first default
whose condition is satisfied and whose value is well-formed in the base,
clamping the value into the active range. -/
theorem scanDefaultsIH_head (cfg : Config) (prev : Oracle) (t : SymType) (base : Nat)
    (ro : Option (Int × Int)) (pre : List (Expr × Option Expr))
    (hpre : ∀ d c, (d, c) ∈ pre → eval_expr cfg prev c = some Tri.n)
    (dval : Expr) (cond : Option Expr) (rest : List (Expr × Option Expr))
    (cv : Tri) (hcnd : eval_expr cfg prev cond = some cv) (hcv : cv ≠ Tri.n)
    (vs : Str) (hvs : strValExpr prev dval = some vs)
    (hwfv : is_base_n vs base = true) (acc : Str) (accW : Bool) :
    scanDefaultsIH cfg prev t base ro acc accW (pre ++ (dval, cond) :: rest) =
      some ((match ro with
             | some (lo, hi) =>
                 if (pyInt vs base).getD 0 < lo then canonIntHex t lo
                 else if hi < (pyInt vs base).getD 0 then canonIntHex t hi
                 else vs
             | none => vs), true, true) := by
  rw [scanDefaultsIH_append_n cfg prev t base ro pre hpre]
  rw [scanDefaultsIH, hcnd]
  dsimp only
  rw [if_pos hcv, hvs]
  dsimp only
  rw [hwfv, if_pos rfl]
  rcases ro with _ | ⟨lo, hi⟩
  · rfl
  · dsimp only
    by_cases h1 : (pyInt vs base).getD 0 < lo
    · rw [if_pos h1, if_pos h1]
    · rw [if_neg h1, if_neg h1]
      by_cases h2 : hi < (pyInt vs base).getD 0
      · rw [if_pos h2, if_pos h2]
      · rw [if_neg h2, if_neg h2]

/-- Helper for C6: the value of an int/hex symbol is computed by
`intHexValD`. -/
theorem symValueAt_ih (cfg : Config) (st : State) (f : Nat) (i : Nat) (sym : Symbol)
    (hs : getSym cfg i = some sym)
    (hih : sym.stype = SymType.INT ∨ sym.stype = SymType.HEX) :
    symValueAt f cfg st i =
      (intHexValD cfg st (valueOracle cfg st f) i sym).map (fun p => p.1) := by
  unfold symValueAt symValStrD
  rw [hs]
  dsimp only
  rcases hih with ht | ht <;> rw [ht]

/-- C6.  Int/hex value: a visible user value that is well-formed in the
symbol's base and lies within the active range (if any) is returned
verbatim; otherwise the first default whose condition is not "n" (and whose
value is well-formed in the base) is used, clamped into the active range. -/
theorem claim6_int_hex_value (f : Nat) (cfg : Config) (st : State) (i : Nat)
    (sym : Symbol) (hs : getSym cfg i = some sym)
    (hih : sym.stype = SymType.INT ∨ sym.stype = SymType.HEX)
    (base : Nat) (hbase : base = (if sym.stype = SymType.HEX then 16 else 10))
    (vis : Tri) (hvis : symVisAt f cfg st i = some vis)
    (ro : Option (Int × Int))
    (hro : scanRanges cfg (valueOracle cfg st f) base sym.ranges = some ro) :
    (∀ uv, symUser st i = some uv → vis ≠ Tri.n → is_base_n uv base = true →
       (∀ lo hi, ro = some (lo, hi) →
          lo ≤ (pyInt uv base).getD 0 ∧ (pyInt uv base).getD 0 ≤ hi) →
       symValueAt f cfg st i = some uv) ∧
    (∀ pre dval cond rest, sym.defaults = pre ++ (dval, cond) :: rest →
       (∀ d c, (d, c) ∈ pre → evalAt f cfg st c = some Tri.n) →
       ∀ cv, evalAt f cfg st cond = some cv → cv ≠ Tri.n →
       ∀ vs, strValExpr (valueOracle cfg st f) dval = some vs →
       is_base_n vs base = true →
       (symUser st i = none ∨
        ∃ uv, symUser st i = some uv ∧
          (vis = Tri.n ∨ is_base_n uv base = false ∨
           ∃ lo hi, ro = some (lo, hi) ∧
             ((pyInt uv base).getD 0 < lo ∨ hi < (pyInt uv base).getD 0))) →
       symValueAt f cfg st i = some
         (match ro with
          | some (lo, hi) =>
              if (pyInt vs base).getD 0 < lo then canonIntHex sym.stype lo
              else if hi < (pyInt vs base).getD 0 then canonIntHex sym.stype hi
              else vs
          | none => vs)) := by
  unfold symVisAt at hvis
  constructor
  · intro uv huv hvn hwf hrange
    rw [symValueAt_ih cfg st f i sym hs hih]
    unfold intHexValD
    rw [hvis]
    dsimp only
    rw [← hbase]
    rw [hro]
    dsimp only
    rw [huv]
    dsimp only
    rcases ro with _ | ⟨lo, hi⟩
    · split
      next => rfl
      next hfalse => exact absurd (by simp [hvn, hwf]) hfalse
    · obtain ⟨h1, h2⟩ := hrange lo hi rfl
      split
      next => rfl
      next hfalse => exact absurd (by simp [hvn, hwf, h1, h2]) hfalse
  · intro pre dval cond rest hsplit hpre cv hcnd hcv vs hvs hwfv huser
    unfold evalAt at hcnd hpre
    rw [symValueAt_ih cfg st f i sym hs hih]
    unfold intHexValD
    rw [hvis]
    dsimp only
    rw [← hbase]
    rw [hro]
    dsimp only
    rcases huser with hnone | ⟨uv, huv, hbad⟩
    · rw [hnone]
      dsimp only
      rw [if_neg (by decide : ¬ (false = true))]
      rw [hsplit]
      rw [scanDefaultsIH_head cfg (valueOracle cfg st f) sym.stype _ ro pre hpre
        dval cond rest cv hcnd hcv vs hvs hwfv]
      dsimp only
      rw [if_pos rfl]
      rfl
    · rw [huv]
      dsimp only
      split
      next htrue =>
        exfalso
        rcases hbad with hb | hb | ⟨lo, hi, hroe, hor⟩
        · rw [hb] at htrue
          simp at htrue
        · rw [hb] at htrue
          simp at htrue
        · subst hroe
          simp only [Bool.and_eq_true, decide_eq_true_eq] at htrue
          rcases hor with h | h
          · exact absurd htrue.2.1 (by omega)
          · exact absurd htrue.2.2 (by omega)
      next hfalse =>
        rw [hsplit]
        rw [scanDefaultsIH_head cfg (valueOracle cfg st f) sym.stype _ ro pre hpre
          dval cond rest cv hcnd hcv vs hvs hwfv]
        dsimp only
        rw [if_pos rfl]
        rfl

/-- Witness for C6: specification scenario 5 at `cfgC6`.  With no user
value the default 5 is clamped to "10" (by direct computation); with user
value "25" (out of range) the value stays "10" (by direct computation);
with user value "15" the theorem yields "15" verbatim. -/
theorem claim6_int_hex_value_witness :
    symValueAt 3 cfgC6 (initialState cfgC6) 0 = some (str "10") ∧
    symValueAt 3 cfgC6 stC6a 0 = some (str "10") ∧
    symValueAt 3 cfgC6 stC6b 0 = some (str "15") := by
  refine ⟨by rfl, by rfl, ?_⟩
  exact (claim6_int_hex_value 3 cfgC6 stC6b 0 nSym (by rfl) (Or.inl (by rfl)) 10
      (by rfl) Tri.y (by rfl) (some (10, 20)) (by rfl)).1
    (str "15") (by rfl) (by decide) (by rfl)
    (by
      intro lo hi h
      cases h
      decide)

/-- Helper: replacing a user value updates the slot that `symUser` reads. -/
theorem symUser_set (st : State) (i : Nat) (v : Option Str)
    (hi : i < st.symSt.length) :
    symUser (setSymUser st i v) i = v := by
  unfold symUser setSymUser
  dsimp only
  rw [List.getElem?_set_self hi]

/-- Helper: updating choice state leaves all symbol user values unchanged. -/
theorem symUser_modChoiceSt (st : State) (ci : Nat) (g : ChoiceSt → ChoiceSt)
    (i : Nat) :
    symUser (modChoiceSt st ci g) i = symUser st i := by
  unfold modChoiceSt
  rcases st.choiceSt[ci]? with _ | c
  · rfl
  · rfl

/-- Helper for C7: the assignment tail of the `load_config` loop stores a
type-valid value as the symbol's user value. -/
theorem loadAssignTail_user (cfg : Config) (st : State) (i : Nat) (sym : Symbol)
    (name val : Str) (fromSet : Bool)
    (hs : getSym cfg i = some sym)
    (hvalid : validForType sym.stype val = true)
    (hi : i < st.symSt.length) :
    symUser (loadAssignTail cfg st i sym name val fromSet).1 i = some val := by
  unfold loadAssignTail set_value_no_invalidate
  rw [hs]
  dsimp only
  rw [if_neg (by simp [hvalid])]
  dsimp only
  rcases hch : sym.choice with _ | ci
  · dsimp only
    exact symUser_set st i (some val) hi
  · dsimp only
    by_cases hbt : sym.stype = SymType.BOOL ∨ sym.stype = SymType.TRISTATE
    · rw [if_pos hbt]
      by_cases hy : val = str "y"
      · rw [if_pos hy]
        rw [symUser_modChoiceSt]
        exact symUser_set st i (some val) hi
      · rw [if_neg hy]
        by_cases hmv : val = str "m"
        · rw [if_pos hmv]
          rw [symUser_modChoiceSt]
          exact symUser_set st i (some val) hi
        · rw [if_neg hmv]
          exact symUser_set st i (some val) hi
    · rw [if_neg hbt]
      exact symUser_set st i (some val) hi

/-- C7 counterexample.  Loading the line `CONFIG_S=x` for the string symbol
S -- a right-hand side that neither starts nor ends with a double quote, so
its quoting is malformed in the sense of the specification -- emits no
warning and stores `x` verbatim instead of skipping the line: the quote
check of `load_config` only fires when the right-hand side starts with a
double quote. -/
theorem claim7_counterexample :
    (str "x").head? ≠ some '"' ∧
    (load_config cfgC7 (initialState cfgC7) [str "CONFIG_S=x"] true).2 = [] ∧
    symUser (load_config cfgC7 (initialState cfgC7) [str "CONFIG_S=x"] true).1 0 =
      some (str "x") := by
  exact ⟨by decide, by rfl, by rfl⟩

/-- C7 amended.  String assignments in `load_config`: when the right-hand
side starts with a double quote, a missing closing quote yields the
malformed-string warning and the line is skipped (state unchanged); a
well-quoted right-hand side is un-escaped and stored; a right-hand side
that does not start with a double quote is stored verbatim (no quoting
requirement is enforced). -/
theorem claim7_string_quoting (cfg : Config) (st : State) (line0 : Str)
    (name rhs : Str) (i : Nat) (sym : Symbol)
    (hm : matchSetLine cfg.configPfx (rstrip line0) = some (name, rhs))
    (hf : findSymIdx cfg name = some i)
    (hs : getSym cfg i = some sym)
    (hstr : sym.stype = SymType.STRING)
    (hlen : st.symSt.length = cfg.syms.length) :
    (rhs.head? = some '"' → (rhs.length < 2 ∨ rhs.getLast? ≠ some '"') →
       loadConfigLine cfg st line0 = (st, [Warning.malformedString])) ∧
    (rhs.head? = some '"' → ¬ (rhs.length < 2 ∨ rhs.getLast? ≠ some '"') →
       symUser (loadConfigLine cfg st line0).1 i =
         some (unescapeCfg ((rhs.drop 1).dropLast))) ∧
    (rhs.head? ≠ some '"' →
       symUser (loadConfigLine cfg st line0).1 i = some rhs) := by
  have hi : i < st.symSt.length := by
    rw [hlen]
    unfold getSym at hs
    have hb := List.getElem?_eq_some.mp hs
    exact hb.1
  have hLC : loadConfigLine cfg st line0 =
      (if sym.stype = SymType.STRING ∧ rhs.head? = some '"' then
         (if rhs.length < 2 ∨ rhs.getLast? ≠ some '"' then
            (st, [Warning.malformedString])
          else loadAssignTail cfg st i sym name (unescapeCfg ((rhs.drop 1).dropLast)) true)
       else loadAssignTail cfg st i sym name rhs true) := by
    unfold loadConfigLine
    dsimp only
    rw [hm]
    dsimp only
    rw [hf]
    dsimp only
    rw [hs]
  refine ⟨?_, ?_, ?_⟩
  · intro hq hbad
    rw [hLC, if_pos ⟨hstr, hq⟩, if_pos hbad]
  · intro hq hgood
    rw [hLC, if_pos ⟨hstr, hq⟩, if_neg hgood]
    exact loadAssignTail_user cfg st i sym name _ true hs (by rw [hstr]; rfl) hi
  · intro hq
    rw [hLC, if_neg (fun hh => hq hh.2)]
    exact loadAssignTail_user cfg st i sym name rhs true hs (by rw [hstr]; rfl) hi

/-- Witness for the amended C7 at `cfgC7`: the line `CONFIG_S="a` starts
with a quote but has no closing quote, so loading it warns and leaves the
state unchanged. -/
theorem claim7_string_quoting_witness :
    loadConfigLine cfgC7 (initialState cfgC7) (str "CONFIG_S=\"a") =
      (initialState cfgC7, [Warning.malformedString]) := by
  exact (claim7_string_quoting cfgC7 (initialState cfgC7) (str "CONFIG_S=\"a")
      (str "S") (str "\"a") 0 sSym (by rfl) (by rfl) (by rfl) (by rfl) (by rfl)).1
    (by rfl) (Or.inr (by decide))

/-- Helper: `splitNl` never returns the empty list. -/
theorem splitNl_ne_nil : ∀ s : Str, splitNl s ≠ [] := by
  intro s
  cases s with
  | nil => simp [splitNl]
  | cons c rest =>
      rw [splitNl]
      rcases h : splitNl rest with _ | ⟨l, ls⟩
      · simp
      · by_cases hc : c = '\n' <;> simp [hc]

/-- Helper: a newline-free text is a single line. -/
theorem splitNl_no_nl : ∀ s : Str, '\n' ∉ s → splitNl s = [s] := by
  intro s
  induction s with
  | nil =>
      intro _
      rfl
  | cons c rest ih =>
      intro h
      rw [splitNl, ih (fun hm => h (List.mem_cons_of_mem _ hm))]
      dsimp only
      rw [if_neg (by
        intro hc
        exact h (by
          rw [← hc]
          exact List.mem_cons_self c rest))]

/-- Helper: splitting a text that starts with a newline-free piece. -/
theorem splitNl_append_no_nl : ∀ a : Str, '\n' ∉ a → ∀ b l ls, splitNl b = l :: ls →
    splitNl (a ++ b) = (a ++ l) :: ls := by
  intro a
  induction a with
  | nil =>
      intro _ b l ls hb
      simpa using hb
  | cons c a' ih =>
      intro h b l ls hb
      rw [List.cons_append, splitNl]
      rw [ih (fun hm => h (List.mem_cons_of_mem _ hm)) b l ls hb]
      dsimp only
      rw [if_neg (by
        intro hc
        exact h (by
          rw [← hc]
          exact List.mem_cons_self c a'))]
      rw [List.cons_append]

/-- Helper: a newline-terminated text contributes its own lines to any text
it prefixes. -/
theorem splitNl_nl_block : ∀ a : Str, a.getLast? = some '\n' →
    ∃ L, L ≠ [] ∧ splitNl a = L ++ [[]] ∧ ∀ b, splitNl (a ++ b) = L ++ splitNl b := by
  intro a
  induction a with
  | nil =>
      intro h
      cases h
  | cons c a' ih =>
      intro h
      rcases ha' : a' with _ | ⟨c2, a''⟩
      · subst ha'
        have hc : c = '\n' := by simpa using h
        subst hc
        refine ⟨[[]], by simp, by rfl, ?_⟩
        intro b
        rw [List.singleton_append, splitNl]
        rcases hb : splitNl b with _ | ⟨l, ls⟩
        · exact absurd hb (splitNl_ne_nil b)
        · dsimp only
          rw [if_pos rfl]
          rfl
      · subst ha'
        rw [List.getLast?_cons_cons] at h
        obtain ⟨L, hL, h1, h2⟩ := ih h
        rcases L with _ | ⟨l₀, L'⟩
        · exact absurd rfl hL
        · by_cases hc : c = '\n'
          · refine ⟨[] :: l₀ :: L', by simp, ?_, ?_⟩
            · rw [splitNl, h1]
              simp [hc]
            · intro b
              rw [List.cons_append, splitNl, h2 b]
              simp [hc]
          · refine ⟨(c :: l₀) :: L', by simp, ?_, ?_⟩
            · rw [splitNl, h1]
              simp [hc]
            · intro b
              rw [List.cons_append, splitNl, h2 b]
              simp [hc]

/-- Helper: the empty text yields no lines. -/
theorem fileLines_nil : fileLines [] = [] := by rfl

/-- Helper: the lines of a newline-terminated text followed by more text. -/
theorem fileLines_append_nl (a b : Str) (h : a = [] ∨ a.getLast? = some '\n') :
    fileLines (a ++ b) = fileLines a ++ fileLines b := by
  rcases h with h | h
  · subst h
    rfl
  · obtain ⟨L, hL, h1, h2⟩ := splitNl_nl_block a h
    unfold fileLines
    dsimp only
    rw [h2 b, h1]
    rw [List.getLast?_append_of_ne_nil L (splitNl_ne_nil b)]
    rw [List.getLast?_concat]
    rw [if_pos rfl]
    rw [List.dropLast_concat]
    by_cases hb : (splitNl b).getLast? = some ([] : Str)
    · rw [if_pos hb, if_pos hb]
      exact List.dropLast_append_of_ne_nil L (splitNl_ne_nil b)
    · rw [if_neg hb, if_neg hb]

/-- Helper: the lines of a single newline-terminated newline-free line. -/
theorem fileLines_single (body : Str) (h : '\n' ∉ body) :
    fileLines (body ++ ['\n']) = [body] := by
  have h1 : splitNl (body ++ ['\n']) = [body, []] := by
    have h2 := splitNl_append_no_nl body h ['\n'] [] [[]] (by rfl)
    simpa using h2
  unfold fileLines
  dsimp only
  rw [h1]
  rfl

/-- Helper: updating one symbol slot leaves the others unchanged. -/
theorem symUser_set_ne (st : State) (j : Nat) (v : Option Str) (i : Nat)
    (h : i ≠ j) :
    symUser (setSymUser st j v) i = symUser st i := by
  unfold symUser setSymUser
  dsimp only
  rw [List.getElem?_set_ne (Ne.symm h)]

/-- Helper: choice-state updates keep the symbol table. -/
theorem modChoiceSt_symSt (st : State) (ci : Nat) (g : ChoiceSt → ChoiceSt) :
    (modChoiceSt st ci g).symSt = st.symSt := by
  unfold modChoiceSt
  rcases st.choiceSt[ci]? with _ | c
  · rfl
  · rfl

/-- Helper: the assignment tail only touches its own symbol slot. -/
theorem loadAssignTail_symUser_ne (cfg : Config) (st : State) (j : Nat) (sym : Symbol)
    (name val : Str) (fromSet : Bool) (i : Nat) (h : i ≠ j) :
    symUser (loadAssignTail cfg st j sym name val fromSet).1 i = symUser st i := by
  unfold loadAssignTail set_value_no_invalidate
  rcases getSym cfg j with _ | sym2
  · rfl
  · dsimp only
    by_cases hv : ¬ validForType sym2.stype val = true
    · rw [if_pos hv]
    · rw [if_neg hv]
      dsimp only
      rcases sym2.choice with _ | ci
      · dsimp only
        exact symUser_set_ne st j (some val) i h
      · dsimp only
        by_cases hbt : sym2.stype = SymType.BOOL ∨ sym2.stype = SymType.TRISTATE
        · rw [if_pos hbt]
          by_cases hy : val = str "y"
          · rw [if_pos hy]
            rw [symUser_modChoiceSt]
            exact symUser_set_ne st j (some val) i h
          · rw [if_neg hy]
            by_cases hmv : val = str "m"
            · rw [if_pos hmv]
              rw [symUser_modChoiceSt]
              exact symUser_set_ne st j (some val) i h
            · rw [if_neg hmv]
              exact symUser_set_ne st j (some val) i h
        · rw [if_neg hbt]
          exact symUser_set_ne st j (some val) i h

/-- Helper: the assignment tail keeps the symbol-table length. -/
theorem loadAssignTail_len (cfg : Config) (st : State) (j : Nat) (sym : Symbol)
    (name val : Str) (fromSet : Bool) :
    (loadAssignTail cfg st j sym name val fromSet).1.symSt.length =
      st.symSt.length := by
  unfold loadAssignTail set_value_no_invalidate
  rcases getSym cfg j with _ | sym2
  · rfl
  · dsimp only
    by_cases hv : ¬ validForType sym2.stype val = true
    · rw [if_pos hv]
    · rw [if_neg hv]
      dsimp only
      have hset : (setSymUser st j (some val)).symSt.length = st.symSt.length := by
        unfold setSymUser
        dsimp only
        exact List.length_set st.symSt j _
      rcases sym2.choice with _ | ci
      · exact hset
      · dsimp only
        by_cases hbt : sym2.stype = SymType.BOOL ∨ sym2.stype = SymType.TRISTATE
        · rw [if_pos hbt]
          by_cases hy : val = str "y"
          · rw [if_pos hy]
            rw [modChoiceSt_symSt]
            exact hset
          · rw [if_neg hy]
            by_cases hmv : val = str "m"
            · rw [if_pos hmv]
              rw [modChoiceSt_symSt]
              exact hset
            · rw [if_neg hmv]
              exact hset
        · rw [if_neg hbt]
          exact hset

/-- Helper: a line whose target is not symbol `i` leaves `i`'s user value
unchanged. -/
theorem loadConfigLine_symUser (cfg : Config) (st : State) (l : Str) (i : Nat)
    (h : lineTarget cfg l ≠ some i) :
    symUser (loadConfigLine cfg st l).1 i = symUser st i := by
  unfold loadConfigLine
  dsimp only
  rcases hm : matchSetLine cfg.configPfx (rstrip l) with _ | ⟨name, rhs⟩
  · dsimp only
    rcases hu : matchUnsetLine cfg.configPfx (rstrip l) with _ | name
    · rfl
    · dsimp only
      rcases hf : findSymIdx cfg name with _ | j
      · rfl
      · dsimp only
        have hne : i ≠ j := by
          intro he
          apply h
          unfold lineTarget
          rw [hm]
          dsimp only
          rw [hu]
          dsimp only
          rw [hf, he]
        rcases getSym cfg j with _ | sym
        · rfl
        · exact loadAssignTail_symUser_ne cfg st j sym name (str "n") false i hne
  · dsimp only
    rcases hf : findSymIdx cfg name with _ | j
    · rfl
    · dsimp only
      have hne : i ≠ j := by
        intro he
        apply h
        unfold lineTarget
        rw [hm]
        dsimp only
        rw [hf, he]
      rcases getSym cfg j with _ | sym
      · rfl
      · dsimp only
        by_cases hq : sym.stype = SymType.STRING ∧ rhs.head? = some '"'
        · rw [if_pos hq]
          by_cases hbad : rhs.length < 2 ∨ rhs.getLast? ≠ some '"'
          · rw [if_pos hbad]
          · rw [if_neg hbad]
            exact loadAssignTail_symUser_ne cfg st j sym name _ true i hne
        · rw [if_neg hq]
          exact loadAssignTail_symUser_ne cfg st j sym name rhs true i hne

/-- Helper: loading one line keeps the symbol-table length. -/
theorem loadConfigLine_len (cfg : Config) (st : State) (l : Str) :
    (loadConfigLine cfg st l).1.symSt.length = st.symSt.length := by
  unfold loadConfigLine
  dsimp only
  rcases hm : matchSetLine cfg.configPfx (rstrip l) with _ | ⟨name, rhs⟩
  · dsimp only
    rcases hu : matchUnsetLine cfg.configPfx (rstrip l) with _ | name
    · rfl
    · dsimp only
      rcases hf : findSymIdx cfg name with _ | j
      · rfl
      · dsimp only
        rcases getSym cfg j with _ | sym
        · rfl
        · exact loadAssignTail_len cfg st j sym name (str "n") false
  · dsimp only
    rcases hf : findSymIdx cfg name with _ | j
    · rfl
    · dsimp only
      rcases getSym cfg j with _ | sym
      · rfl
      · dsimp only
        by_cases hq : sym.stype = SymType.STRING ∧ rhs.head? = some '"'
        · rw [if_pos hq]
          by_cases hbad : rhs.length < 2 ∨ rhs.getLast? ≠ some '"'
          · rw [if_pos hbad]
          · rw [if_neg hbad]
            exact loadAssignTail_len cfg st j sym name _ true
        · rw [if_neg hq]
          exact loadAssignTail_len cfg st j sym name rhs true

/-- Helper: loading a list of lines folds from the left. -/
theorem loadLines_fst_append (cfg : Config) : ∀ (l1 : List Str) (st : State) (l2 : List Str),
    (loadLines cfg st (l1 ++ l2)).1 = (loadLines cfg (loadLines cfg st l1).1 l2).1 := by
  intro l1
  induction l1 with
  | nil =>
      intro st l2
      rfl
  | cons l rest ih =>
      intro st l2
      rw [List.cons_append, loadLines]
      dsimp only
      rw [ih]
      rw [loadLines]

/-- Helper: loading lines keeps the symbol-table length. -/
theorem loadLines_len (cfg : Config) : ∀ (ls : List Str) (st : State),
    (loadLines cfg st ls).1.symSt.length = st.symSt.length := by
  intro ls
  induction ls with
  | nil =>
      intro st
      rfl
  | cons l rest ih =>
      intro st
      rw [loadLines]
      dsimp only
      rw [ih]
      exact loadConfigLine_len cfg st l

/-- Helper: lines that never target symbol `i` leave its user value
unchanged. -/
theorem loadLines_symUser (cfg : Config) (i : Nat) :
    ∀ (ls : List Str) (st : State), (∀ l ∈ ls, lineTarget cfg l ≠ some i) →
      symUser (loadLines cfg st ls).1 i = symUser st i := by
  intro ls
  induction ls with
  | nil =>
      intro st _
      rfl
  | cons l rest ih =>
      intro st h
      rw [loadLines]
      dsimp only
      rw [ih _ (fun l2 hm => h l2 (List.mem_cons_of_mem _ hm))]
      exact loadConfigLine_symUser cfg st l i (h l (List.mem_cons_self _ _))

/-- Helper: `takeWhile` consumes exactly a satisfying block up to a failing
character. -/
theorem takeWhile_all_append (p : Char → Bool) :
    ∀ (a : Str), (∀ c ∈ a, p c = true) → ∀ (c : Char), p c = false → ∀ (b : Str),
      (a ++ c :: b).takeWhile p = a := by
  intro a
  induction a with
  | nil =>
      intro _ c hc b
      rw [List.nil_append, List.takeWhile_cons, hc]
      rw [if_neg (by decide : ¬ (false = true))]
  | cons x a' ih =>
      intro h c hc b
      rw [List.cons_append, List.takeWhile_cons, h x (List.mem_cons_self _ _)]
      rw [if_pos rfl]
      rw [ih (fun d hd => h d (List.mem_cons_of_mem _ hd)) c hc b]

/-- Helper: a list is a `isPrefixOf`-prefix of itself followed by anything. -/
theorem isPrefixOf_append_self : ∀ (a b : Str), a.isPrefixOf (a ++ b) = true := by
  intro a
  induction a with
  | nil =>
      intro b
      rw [List.nil_append]
      cases b <;> rfl
  | cons c a' ih =>
      intro b
      rw [List.cons_append]
      show (c == c && a'.isPrefixOf (a' ++ b)) = true
      rw [ih b]
      simp

/-- Helper: `rstrip` is the identity on text ending in non-whitespace. -/
theorem rstrip_eq_self (s : Str) (c : Char) (hl : s.getLast? = some c)
    (hc : isPySpace c = false) : rstrip s = s := by
  unfold rstrip
  have h1 : s.reverse.head? = some c := by rw [List.head?_reverse, hl]
  rcases hr : s.reverse with _ | ⟨c0, t⟩
  · rw [hr] at h1
    cases h1
  · rw [hr] at h1
    injection h1 with h1
    subst h1
    rw [List.dropWhile_cons, hc]
    rw [if_neg (by decide : ¬ (false = true))]
    rw [← hr, List.reverse_reverse]

/-- Helper: `rstrip` of an appended text never reaches past a trailing
non-whitespace character of the first part. -/
theorem rstrip_append_right (a b : Str) (c : Char) (hl : a.getLast? = some c)
    (hc : isPySpace c = false) : rstrip (a ++ b) = a ++ rstrip b := by
  unfold rstrip
  rw [List.reverse_append]
  rw [List.dropWhile_append]
  by_cases he : (b.reverse.dropWhile isPySpace).isEmpty = true
  · rw [if_pos he]
    have hb : b.reverse.dropWhile isPySpace = [] := by
      simpa [List.isEmpty_iff] using he
    have h1 : a.reverse.dropWhile isPySpace = a.reverse := by
      have hh : a.reverse.head? = some c := by rw [List.head?_reverse, hl]
      rcases hr : a.reverse with _ | ⟨c0, t⟩
      · rfl
      · rw [hr] at hh
        injection hh with hh
        subst hh
        rw [List.dropWhile_cons, hc]
        rw [if_neg (by decide : ¬ (false = true))]
    rw [h1, List.reverse_reverse, hb]
    simp
  · rw [if_neg he]
    rw [List.reverse_append, List.reverse_reverse]

/-- Helper: `findIdx?` finds a symbol by its name when names are unique. -/
theorem findIdx_name_aux : ∀ (l : List Symbol) (i : Nat) (sym : Symbol),
    (l.map Symbol.name).Nodup → l[i]? = some sym →
    l.findIdx? (fun s2 => decide (s2.name = sym.name)) = some i := by
  intro l
  induction l with
  | nil =>
      intro i sym _ hs
      simp at hs
  | cons a l' ih =>
      intro i sym hnd hs
      rcases i with _ | i
      · have ha : a = sym := by simpa using hs
        subst ha
        simp only [List.findIdx?_cons]
        rw [if_pos (by simp)]
      · have hs' : l'[i]? = some sym := by simpa using hs
        rw [List.map_cons, List.nodup_cons] at hnd
        have hne : a.name ≠ sym.name := by
          intro he
          apply hnd.1
          rw [he]
          exact List.mem_map_of_mem _ (List.getElem?_mem hs')
        simp only [List.findIdx?_cons]
        rw [if_neg (by simp [hne])]
        rw [List.findIdx?_succ]
        rw [ih i sym hnd.2 hs']
        rfl

/-- Helper: the name of a registered symbol looks itself up. -/
theorem findSymIdx_name (cfg : Config) (hwfn : wfNames cfg) (i : Nat) (sym : Symbol)
    (hs : getSym cfg i = some sym) : findSymIdx cfg sym.name = some i :=
  findIdx_name_aux cfg.syms i sym hwfn.1 hs

/-- Helper: the set pattern parses an assignment line exactly. -/
theorem matchSetLine_exact (pfx name tail : Str)
    (hn : name ≠ []) (hnw : ∀ c ∈ name, wordChar c = true) :
    matchSetLine pfx (pfx ++ name ++ '=' :: tail) = some (name, tail) := by
  unfold matchSetLine
  rw [List.append_assoc]
  rw [isPrefixOf_append_self, if_pos rfl]
  dsimp only
  rw [List.drop_left]
  rw [takeWhile_all_append wordChar name hnw '=' (by decide) tail]
  rw [List.drop_left]
  rw [if_pos ⟨hn, rfl⟩]
  rfl

/-- Helper: the set pattern rejects lines that start with a comment
character (the prefix consists of word characters). -/
theorem matchSetLine_hash_none (pfx : Str) (hp : ∀ c ∈ pfx, wordChar c = true)
    (rest : Str) : matchSetLine pfx ('#' :: rest) = none := by
  unfold matchSetLine
  rcases pfx with _ | ⟨c0, p'⟩
  · rw [if_pos (show List.isPrefixOf ([] : Str) ('#' :: rest) = true from rfl)]
    dsimp only
    have hw : wordChar '#' = false := by decide
    rw [show ('#' :: rest).drop (List.length ([] : Str)) = '#' :: rest from rfl]
    rw [List.takeWhile_cons, hw]
    rw [if_neg (by decide : ¬ (false = true))]
    rw [if_neg (by simp)]
  · have hne : c0 ≠ '#' := by
      intro he
      have h2 := hp c0 (List.mem_cons_self _ _)
      rw [he] at h2
      exact absurd h2 (by decide)
    rw [if_neg (by
      intro hcontra
      obtain ⟨t, ht⟩ := List.isPrefixOf_iff_prefix.mp hcontra
      rw [List.cons_append] at ht
      injection ht with h1 _
      exact hne h1)]

/-- Helper: the unset pattern parses an is-not-set line exactly. -/
theorem matchUnsetLine_exact (pfx name : Str)
    (hn : name ≠ []) (hnw : ∀ c ∈ name, wordChar c = true) :
    matchUnsetLine pfx (str "# " ++ pfx ++ name ++ str " is not set") = some name := by
  unfold matchUnsetLine
  dsimp only
  rw [show str "# " ++ pfx ++ name ++ str " is not set" =
        (str "# " ++ pfx) ++ (name ++ str " is not set") from by
      simp [List.append_assoc]]
  rw [isPrefixOf_append_self, if_pos rfl]
  rw [List.drop_left]
  rw [show str " is not set" = ' ' :: str "is not set" from rfl]
  rw [takeWhile_all_append wordChar name hnw ' ' (by decide) (str "is not set")]
  rw [List.drop_left]
  rw [if_pos ⟨hn, by
    have h2 := isPrefixOf_append_self (' ' :: str "is not set") []
    rw [List.append_nil] at h2
    exact h2⟩]

/-- Helper: one non-matching step of `str.replace`. -/
theorem replaceAllF_no_match (pat rep : Str) (c : Char) (s : Str) (fuel : Nat)
    (h : pat.isPrefixOf (c :: s) = false) :
    replaceAllF pat rep (fuel + 1) (c :: s) = c :: replaceAllF pat rep fuel s := by
  rw [replaceAllF]
  rw [if_neg (by simp [h])]

/-- Helper: one matching step of `str.replace`. -/
theorem replaceAllF_match (pat rep t : Str) (fuel : Nat) (hne : pat ≠ []) :
    replaceAllF pat rep (fuel + 1) (pat ++ t) = rep ++ replaceAllF pat rep fuel t := by
  rcases pat with _ | ⟨c, p'⟩
  · exact absurd rfl hne
  · rw [List.cons_append, replaceAllF]
    rw [if_pos ⟨by simp, by
      rw [← List.cons_append]
      exact isPrefixOf_append_self (c :: p') t⟩]
    rw [← List.cons_append, List.drop_left]

/-- Helper: replacing a single-character pattern is per-character. -/
theorem replaceAllF_single (p : Char) (rep : Str) :
    ∀ (s : Str) (fuel : Nat), s.length ≤ fuel →
      replaceAllF [p] rep fuel s =
        s.flatMap (fun c => if c = p then rep else [c]) := by
  intro s
  induction s with
  | nil =>
      intro fuel _
      cases fuel
      · rfl
      · rfl
  | cons c s' ih =>
      intro fuel hf
      rcases fuel with _ | fuel
      · simp at hf
      · have hf' : s'.length ≤ fuel := by
          simp at hf
          omega
        by_cases hc : c = p
        · rw [hc]
          have hm := replaceAllF_match [p] rep s' fuel (by simp)
          rw [List.singleton_append] at hm
          rw [hm, ih fuel hf']
          simp
        · rw [replaceAllF_no_match [p] rep c s' fuel (by
            show (p == c && List.isPrefixOf [] s') = false
            rw [beq_false_of_ne (Ne.symm hc)]
            rfl)]
          rw [ih fuel hf']
          rw [show ((c :: s').flatMap (fun c => if c = p then rep else [c])) =
            (if c = p then rep else [c]) ++
              s'.flatMap (fun c => if c = p then rep else [c]) from rfl]
          rw [if_neg hc]
          rfl

/-- Helper: an escaped text never starts with a bare double quote. -/
theorem quote_not_isPrefixOf_escC (v : Str) :
    List.isPrefixOf ['"'] (v.flatMap escC) = false := by
  rcases v with _ | ⟨d, v''⟩
  · rfl
  · rw [show ((d :: v'').flatMap escC) = escC d ++ v''.flatMap escC from rfl]
    unfold escC
    by_cases h1 : d = '\\'
    · rw [if_pos h1]
      rfl
    · rw [if_neg h1]
      by_cases h2 : d = '"'
      · rw [if_pos h2]
        rfl
      · rw [if_neg h2]
        show ('"' == d && List.isPrefixOf [] (v''.flatMap escC)) = false
        rw [beq_false_of_ne (Ne.symm h2)]
        rfl

/-- Helper: the writer's escaping is per-character. -/
theorem escapeCfg_eq (v : Str) : escapeCfg v = v.flatMap escC := by
  unfold escapeCfg pyReplace
  rw [show (str "\\" : Str) = ['\\'] from rfl]
  rw [show (str "\\\\" : Str) = ['\\', '\\'] from rfl]
  rw [show (str "\"" : Str) = ['"'] from rfl]
  rw [show (str "\\\"" : Str) = ['\\', '"'] from rfl]
  rw [replaceAllF_single '\\' ['\\', '\\'] v (v.length + 1) (Nat.le_succ _)]
  rw [replaceAllF_single '"' ['\\', '"'] _ _ (Nat.le_succ _)]
  rw [List.flatMap_assoc]
  apply List.flatMap_congr
  intro c _
  unfold escC
  by_cases h1 : c = '\\' <;> by_cases h2 : c = '"' <;> simp [h1, h2]

/-- Helper: the reader's first un-escaping pass on escaped text restores
the quotes. -/
theorem unescape_pass1 : ∀ (v : Str) (fuel : Nat), (v.flatMap escC).length ≤ fuel →
    replaceAllF ['\\', '"'] ['"'] fuel (v.flatMap escC) = v.flatMap escHalf := by
  intro v
  induction v with
  | nil =>
      intro fuel _
      cases fuel
      · rfl
      · rfl
  | cons c v' ih =>
      intro fuel hf
      rw [show ((c :: v').flatMap escC) = escC c ++ v'.flatMap escC from rfl] at hf ⊢
      by_cases h1 : c = '\\'
      · rw [h1] at hf ⊢
        rw [show escC '\\' = ['\\', '\\'] from rfl] at hf ⊢
        rw [show (['\\', '\\'] ++ v'.flatMap escC : Str) =
          '\\' :: ('\\' :: v'.flatMap escC) from rfl] at hf ⊢
        rcases fuel with _ | fuel
        · simp at hf
        · rw [replaceAllF_no_match ['\\', '"'] ['"'] '\\' ('\\' :: v'.flatMap escC)
            fuel (by rfl)]
          rcases fuel with _ | fuel
          · simp at hf
          · rw [replaceAllF_no_match ['\\', '"'] ['"'] '\\' (v'.flatMap escC)
              fuel (quote_not_isPrefixOf_escC v')]
            rw [ih fuel (by simp only [List.length_cons, List.length_append, List.length_nil] at hf; omega)]
            rw [show ((('\\' : Char) :: v').flatMap escHalf) =
              '\\' :: ('\\' :: v'.flatMap escHalf) from rfl]
      · by_cases h2 : c = '"'
        · rw [h2] at hf ⊢
          rw [show escC '"' = ['\\', '"'] from rfl] at hf ⊢
          rcases fuel with _ | fuel
          · simp at hf
          · rw [replaceAllF_match ['\\', '"'] ['"'] (v'.flatMap escC) fuel (by simp)]
            rw [ih fuel (by simp only [List.length_cons, List.length_append, List.length_nil] at hf; omega)]
            rw [show ((('"' : Char) :: v').flatMap escHalf) =
              '"' :: v'.flatMap escHalf from rfl]
            rfl
        · rw [show escC c = [c] from by
            unfold escC
            rw [if_neg h1, if_neg h2]] at hf ⊢
          rw [show ([c] ++ v'.flatMap escC : Str) = c :: v'.flatMap escC from rfl]
            at hf ⊢
          rcases fuel with _ | fuel
          · simp at hf
          · rw [replaceAllF_no_match ['\\', '"'] ['"'] c (v'.flatMap escC) fuel (by
              show ('\\' == c && List.isPrefixOf ['"'] (v'.flatMap escC)) = false
              rw [beq_false_of_ne (Ne.symm h1)]
              rfl)]
            rw [ih fuel (by simp only [List.length_cons, List.length_append, List.length_nil] at hf; omega)]
            rw [show ((c :: v').flatMap escHalf) = escHalf c ++ v'.flatMap escHalf
              from rfl]
            rw [show escHalf c = [c] from by
              unfold escHalf
              rw [if_neg h1]]
            rfl

/-- Helper: the reader's second un-escaping pass restores the backslashes. -/
theorem unescape_pass2 : ∀ (v : Str) (fuel : Nat), (v.flatMap escHalf).length ≤ fuel →
    replaceAllF ['\\', '\\'] ['\\'] fuel (v.flatMap escHalf) = v := by
  intro v
  induction v with
  | nil =>
      intro fuel _
      cases fuel
      · rfl
      · rfl
  | cons c v' ih =>
      intro fuel hf
      rw [show ((c :: v').flatMap escHalf) = escHalf c ++ v'.flatMap escHalf from rfl]
        at hf ⊢
      by_cases h1 : c = '\\'
      · rw [h1] at hf ⊢
        rw [show escHalf '\\' = ['\\', '\\'] from rfl] at hf ⊢
        rcases fuel with _ | fuel
        · simp at hf
        · rw [replaceAllF_match ['\\', '\\'] ['\\'] (v'.flatMap escHalf) fuel (by simp)]
          rw [ih fuel (by simp only [List.length_cons, List.length_append, List.length_nil] at hf; omega)]
          rfl
      · rw [show escHalf c = [c] from by
          unfold escHalf
          rw [if_neg h1]] at hf ⊢
        rw [show ([c] ++ v'.flatMap escHalf : Str) = c :: v'.flatMap escHalf from rfl]
          at hf ⊢
        rcases fuel with _ | fuel
        · simp at hf
        · rw [replaceAllF_no_match ['\\', '\\'] ['\\'] c (v'.flatMap escHalf) fuel (by
            show ('\\' == c && List.isPrefixOf ['\\'] (v'.flatMap escHalf)) = false
            rw [beq_false_of_ne (Ne.symm h1)]
            rfl)]
          rw [ih fuel (by simp only [List.length_cons, List.length_append, List.length_nil] at hf; omega)]

/-- Helper: the reader's un-escaping inverts the writer's escaping. -/
theorem unescapeCfg_escapeCfg (v : Str) : unescapeCfg (escapeCfg v) = v := by
  rw [escapeCfg_eq v]
  unfold unescapeCfg pyReplace
  rw [show (str "\\\"" : Str) = ['\\', '"'] from rfl]
  rw [show (str "\"" : Str) = ['"'] from rfl]
  rw [show (str "\\\\" : Str) = ['\\', '\\'] from rfl]
  rw [show (str "\\" : Str) = ['\\'] from rfl]
  rw [unescape_pass1 v ((v.flatMap escC).length + 1) (Nat.le_succ _)]
  rw [unescape_pass2 v ((v.flatMap escHalf).length + 1) (Nat.le_succ _)]

/-- Helper: the untagged writer walk renders the tagged one. -/
theorem config_strings_walk_entries (cfg : Config) (st : State) (prev : Oracle) :
    ∀ (nodes : List MNode) (written : List Nat) (es : List WEntry),
      config_entries_walk cfg st prev nodes written = some es →
      config_strings_walk cfg st prev nodes written = some (es.map renderEntry) := by
  intro nodes
  induction nodes with
  | nil =>
      intro written es h
      injection h with h
      subst h
      rfl
  | cons node rest ih =>
      intro written es h
      rw [config_entries_walk] at h
      rw [config_strings_walk]
      rcases hit : node.item with i0 | ci | _ | _ <;> rw [hit] at h <;> dsimp only at h ⊢
      · by_cases hw : i0 ∈ written
        · rw [if_pos hw] at h ⊢
          exact ih written es h
        · rw [if_neg hw] at h ⊢
          rcases hcs : config_string cfg st prev i0 with _ | so
          · rw [hcs] at h
            cases h
          · rw [hcs] at h
            dsimp only at h ⊢
            rcases hw2 : config_entries_walk cfg st prev rest (i0 :: written) with _ | tail
            · rw [hw2] at h
              cases h
            · rw [hw2] at h
              dsimp only at h
              rw [ih (i0 :: written) tail hw2]
              dsimp only
              injection h with h
              subst h
              rcases so with _ | s0
              · simp [renderEntry]
              · simp [renderEntry]
      · exact ih written es h
      · rcases hd : eval_expr cfg prev node.dep with _ | d
        · rw [hd] at h
          cases h
        · rw [hd] at h
          dsimp only at h ⊢
          by_cases hdn : d ≠ Tri.n
          · rw [if_pos hdn] at h ⊢
            rcases hv : eval_expr cfg prev node.visibility with _ | v
            · rw [hv] at h
              cases h
            · rw [hv] at h
              dsimp only at h ⊢
              rcases hw2 : config_entries_walk cfg st prev rest written with _ | tail
              · rw [hw2] at h
                cases h
              · rw [hw2] at h
                dsimp only at h
                rw [ih written tail hw2]
                dsimp only
                injection h with h
                subst h
                by_cases hvn : v ≠ Tri.n
                · rw [if_pos hvn, if_pos hvn]
                  simp [renderEntry]
                · rw [if_neg hvn, if_neg hvn]
          · rw [if_neg hdn] at h ⊢
            exact ih written es h
      · rcases hd : eval_expr cfg prev node.dep with _ | d
        · rw [hd] at h
          cases h
        · rw [hd] at h
          dsimp only at h ⊢
          rcases hw2 : config_entries_walk cfg st prev rest written with _ | tail
          · rw [hw2] at h
            cases h
          · rw [hw2] at h
            dsimp only at h
            rw [ih written tail hw2]
            dsimp only
            injection h with h
            subst h
            by_cases hdn : d ≠ Tri.n
            · rw [if_pos hdn, if_pos hdn]
              simp [renderEntry]
            · rw [if_neg hdn, if_neg hdn]

/-- Helper: every symbol line of the tagged walk comes from `config_string`,
for a symbol not yet written, and the walk never writes a symbol twice. -/
theorem config_entries_walk_syms (cfg : Config) (st : State) (prev : Oracle) :
    ∀ (nodes : List MNode) (written : List Nat) (es : List WEntry),
      config_entries_walk cfg st prev nodes written = some es →
      (∀ i s, WEntry.symLine i s ∈ es →
         config_string cfg st prev i = some (some s) ∧ i ∉ written) ∧
      (es.filterMap wIdx).Nodup := by
  intro nodes
  induction nodes with
  | nil =>
      intro written es h
      injection h with h
      subst h
      exact ⟨fun i s hm => absurd hm (by simp), by simp⟩
  | cons node rest ih =>
      intro written es h
      rw [config_entries_walk] at h
      rcases hit : node.item with i0 | ci | _ | _ <;> rw [hit] at h <;> dsimp only at h
      · by_cases hw : i0 ∈ written
        · rw [if_pos hw] at h
          exact ih written es h
        · rw [if_neg hw] at h
          rcases hcs : config_string cfg st prev i0 with _ | so
          · rw [hcs] at h
            cases h
          · rw [hcs] at h
            dsimp only at h
            rcases hw2 : config_entries_walk cfg st prev rest (i0 :: written) with _ | tail
            · rw [hw2] at h
              cases h
            · rw [hw2] at h
              dsimp only at h
              injection h with h
              subst h
              obtain ⟨hmem, hnd⟩ := ih (i0 :: written) tail hw2
              constructor
              · intro i s hm
                rcases so with _ | s0
                · dsimp only at hm
                  rw [List.nil_append] at hm
                  obtain ⟨hc2, hnin⟩ := hmem i s hm
                  exact ⟨hc2, fun hin => hnin (List.mem_cons_of_mem _ hin)⟩
                · dsimp only at hm
                  rw [List.singleton_append] at hm
                  rcases List.mem_cons.mp hm with he | hm2
                  · injection he with he1 he2
                    subst he1
                    subst he2
                    exact ⟨hcs, hw⟩
                  · obtain ⟨hc2, hnin⟩ := hmem i s hm2
                    exact ⟨hc2, fun hin => hnin (List.mem_cons_of_mem _ hin)⟩
              · rcases so with _ | s0
                · dsimp only
                  rw [List.nil_append]
                  exact hnd
                · dsimp only
                  rw [List.singleton_append]
                  simp only [List.filterMap_cons, wIdx]
                  rw [List.nodup_cons]
                  refine ⟨?_, hnd⟩
                  intro hin
                  obtain ⟨e, hetail, hei⟩ := List.mem_filterMap.mp hin
                  rcases e with ⟨j, s2⟩ | t
                  · unfold wIdx at hei
                    injection hei with hei
                    subst hei
                    exact (hmem _ s2 hetail).2 (List.mem_cons_self _ _)
                  · unfold wIdx at hei
                    cases hei
      · exact ih written es h
      · rcases hd : eval_expr cfg prev node.dep with _ | d
        · rw [hd] at h
          cases h
        · rw [hd] at h
          dsimp only at h
          by_cases hdn : d ≠ Tri.n
          · rw [if_pos hdn] at h
            rcases hv : eval_expr cfg prev node.visibility with _ | v
            · rw [hv] at h
              cases h
            · rw [hv] at h
              dsimp only at h
              rcases hw2 : config_entries_walk cfg st prev rest written with _ | tail
              · rw [hw2] at h
                cases h
              · rw [hw2] at h
                dsimp only at h
                injection h with h
                subst h
                obtain ⟨hmem, hnd⟩ := ih written tail hw2
                by_cases hvn : v ≠ Tri.n
                · rw [if_pos hvn]
                  constructor
                  · intro i s hm
                    rcases List.mem_cons.mp hm with he | hm2
                    · cases he
                    · exact hmem i s hm2
                  · simp only [List.filterMap_cons, wIdx]
                    exact hnd
                · rw [if_neg hvn]
                  exact ⟨hmem, hnd⟩
          · rw [if_neg hdn] at h
            exact ih written es h
      · rcases hd : eval_expr cfg prev node.dep with _ | d
        · rw [hd] at h
          cases h
        · rw [hd] at h
          dsimp only at h
          rcases hw2 : config_entries_walk cfg st prev rest written with _ | tail
          · rw [hw2] at h
            cases h
          · rw [hw2] at h
            dsimp only at h
            injection h with h
            subst h
            obtain ⟨hmem, hnd⟩ := ih written tail hw2
            by_cases hdn : d ≠ Tri.n
            · rw [if_pos hdn]
              constructor
              · intro i s hm
                rcases List.mem_cons.mp hm with he | hm2
                · cases he
                · exact hmem i s hm2
              · simp only [List.filterMap_cons, wIdx]
                exact hnd
            · rw [if_neg hdn]
              exact ⟨hmem, hnd⟩

/-- Helper: banners end with a newline. -/
theorem bannerStr_last (t : Str) : (bannerStr t).getLast? = some '\n' := by
  unfold bannerStr
  rw [List.getLast?_append_of_ne_nil _ (by decide : (str "\n#\n" : Str) ≠ [])]
  rfl

/-- Helper: an inert line targets no symbol. -/
theorem inert_target (cfg : Config) (l : Str) (h : inertLine cfg l) :
    lineTarget cfg l = none := by
  unfold lineTarget
  rw [h.1]
  dsimp only
  rw [h.2]

/-- Helper: a text ending in a character is its front plus that character. -/
theorem eq_dropLast_concat (s : Str) (c : Char) (h : s.getLast? = some c) :
    s = s.dropLast ++ [c] := by
  have h2 : s ≠ [] := by
    intro he
    rw [he] at h
    cases h
  have h3 := List.getLast?_eq_getLast s h2
  rw [h3] at h
  injection h with h
  rw [← h]
  exact (List.dropLast_append_getLast h2).symm

/-- Helper: resetting user values keeps the symbol-table length. -/
theorem unset_values_len (cfg : Config) (st : State) :
    (unset_values cfg st).symSt.length = st.symSt.length := by
  unfold unset_values
  dsimp only
  simp

/-- Helper: the lines of a concatenation of newline-terminated pieces. -/
theorem fileLines_join : ∀ (pieces : List Str), (∀ p ∈ pieces, p.getLast? = some '\n') →
    fileLines (joinStr pieces) = pieces.flatMap fileLines := by
  intro pieces
  induction pieces with
  | nil =>
      intro _
      rfl
  | cons p rest ih =>
      intro h
      rw [show joinStr (p :: rest) = p ++ joinStr rest from rfl]
      rw [fileLines_append_nl p _ (Or.inr (h p (List.mem_cons_self _ _)))]
      rw [ih (fun q hq => h q (List.mem_cons_of_mem _ hq))]
      rfl

/-- Helper for C1: the shapes of the lines `config_string` emits. -/
theorem config_string_shape (cfg : Config) (st : State) (prev : Oracle) (j : Nat)
    (s : Str) (h : config_string cfg st prev j = some (some s)) :
    ∃ sym, getSym cfg j = some sym ∧
      ∃ val, symValStrD cfg st prev j = some (val, true) ∧
        (((sym.stype = SymType.BOOL ∨ sym.stype = SymType.TRISTATE) ∧ val ≠ str "n" ∧
            s = cfg.configPfx ++ sym.name ++ '=' :: val ++ ['\n']) ∨
         ((sym.stype = SymType.BOOL ∨ sym.stype = SymType.TRISTATE) ∧ val = str "n" ∧
            s = str "# " ++ cfg.configPfx ++ sym.name ++ str " is not set\n") ∨
         ((sym.stype = SymType.INT ∨ sym.stype = SymType.HEX) ∧
            s = cfg.configPfx ++ sym.name ++ '=' :: val ++ ['\n']) ∨
         (sym.stype = SymType.STRING ∧
            s = cfg.configPfx ++ sym.name ++ '=' :: '"' ::
                  (escapeCfg val ++ '"' :: ['\n']))) := by
  unfold config_string at h
  rcases hg : getSym cfg j with _ | sym
  · rw [hg] at h
    cases h
  · rw [hg] at h
    dsimp only at h
    by_cases he : sym.env_var.isSome = true
    · rw [if_pos he] at h
      injection h with h
      cases h
    · rw [if_neg he] at h
      rcases hv : symValStrD cfg st prev j with _ | p
      · rw [hv] at h
        cases h
      · rw [hv] at h
        dsimp only at h
        obtain ⟨val, wtc⟩ := p
        by_cases hw : ¬ wtc = true
        · rw [if_pos hw] at h
          injection h with h
          cases h
        · rw [if_neg hw] at h
          have hwt : wtc = true := not_not.mp hw
          subst hwt
          refine ⟨sym, rfl, val, rfl, ?_⟩
          rcases hst : sym.stype with _ | _ | _ | _ | _ | _ <;> rw [hst] at h <;>
            dsimp only at h
          · by_cases hn : val ≠ str "n"
            · rw [if_pos hn] at h
              injection h with h
              injection h with h
              exact Or.inl ⟨Or.inl rfl, hn, h.symm⟩
            · rw [if_neg hn] at h
              injection h with h
              injection h with h
              exact Or.inr (Or.inl ⟨Or.inl rfl, not_not.mp hn, h.symm⟩)
          · injection h with h
            injection h with h
            exact Or.inr (Or.inr (Or.inl ⟨Or.inr rfl, h.symm⟩))
          · injection h with h
            injection h with h
            exact Or.inr (Or.inr (Or.inl ⟨Or.inl rfl, h.symm⟩))
          · injection h with h
            injection h with h
            exact Or.inr (Or.inr (Or.inr ⟨rfl, h.symm⟩))
          · by_cases hn : val ≠ str "n"
            · rw [if_pos hn] at h
              injection h with h
              injection h with h
              exact Or.inl ⟨Or.inr rfl, hn, h.symm⟩
            · rw [if_neg hn] at h
              injection h with h
              injection h with h
              exact Or.inr (Or.inl ⟨Or.inr rfl, not_not.mp hn, h.symm⟩)
          · cases h

/-- Helper for C1: a bool symbol's tristate value is never "m". -/
theorem symValueT_bool_ne_m (cfg : Config) (st : State) (prev : Oracle) (i : Nat)
    (sym : Symbol) (hs : getSym cfg i = some sym) (hb : sym.stype = SymType.BOOL)
    (p : Tri × Bool) (hp : symValueTD cfg st prev i = some p) : p.1 ≠ Tri.m := by
  have ht : symTypeD cfg st prev i = some SymType.BOOL := by
    unfold symTypeD
    rw [hs]
    dsimp only
    rw [hb]
    rw [if_neg (by decide : ¬ (SymType.BOOL = SymType.TRISTATE))]
  unfold symValueTD at hp
  rw [hs] at hp
  dsimp only at hp
  rcases hvis : symVisD cfg st prev i with _ | vis
  · rw [hvis] at hp
    cases hp
  · rw [hvis] at hp
    dsimp only at hp
    rcases hq : (match sym.choice with
        | none =>
            match userOrDefaultsBT cfg st prev i sym vis with
            | none => none
            | some p => applyRevDep cfg prev sym p
        | some ci => choiceMemberVal cfg st prev i ci vis : Option (Tri × Bool))
      with _ | q
    · rw [hq] at hp
      cases hp
    · rw [hq] at hp
      dsimp only at hp
      unfold promoteMY at hp
      by_cases hm : q.1 = Tri.m
      · rw [if_pos hm] at hp
        rw [ht] at hp
        dsimp only at hp
        rw [if_pos rfl] at hp
        injection hp with hp
        rw [← hp]
        intro hh
        cases hh
      · rw [if_neg hm] at hp
        injection hp with hp
        rw [← hp]
        exact hm

/-- Helper for C1: parsing a written assignment line. -/
theorem eq_line_parse (cfg : Config) (name val : Str)
    (hn : name ≠ []) (hnw : ∀ c ∈ name, wordChar c = true) :
    matchSetLine cfg.configPfx
      (rstrip ((cfg.configPfx ++ name ++ '=' :: val ++ ['\n']).dropLast)) =
      some (name, rstrip val) := by
  have hdl : (cfg.configPfx ++ name ++ '=' :: val ++ ['\n']).dropLast =
      ((cfg.configPfx ++ name) ++ ['=']) ++ val := by
    rw [show cfg.configPfx ++ name ++ '=' :: val ++ ['\n'] =
        (((cfg.configPfx ++ name) ++ ['=']) ++ val) ++ ['\n'] from by
      simp [List.append_assoc]]
    rw [List.dropLast_concat]
  rw [hdl]
  rw [rstrip_append_right _ val '=' (List.getLast?_concat _) (by decide)]
  rw [show ((cfg.configPfx ++ name) ++ ['=']) ++ rstrip val =
      cfg.configPfx ++ name ++ '=' :: rstrip val from by
    simp [List.append_assoc]]
  exact matchSetLine_exact cfg.configPfx name (rstrip val) hn hnw

/-- Helper for C1: parsing a written is-not-set line. -/
theorem unset_line_parse (cfg : Config) (name : Str) (hwfp : wfPfx cfg)
    (hn : name ≠ []) (hnw : ∀ c ∈ name, wordChar c = true) :
    matchSetLine cfg.configPfx
        (rstrip ((str "# " ++ cfg.configPfx ++ name ++ str " is not set\n").dropLast)) =
      none ∧
    matchUnsetLine cfg.configPfx
        (rstrip ((str "# " ++ cfg.configPfx ++ name ++ str " is not set\n").dropLast)) =
      some name := by
  have hdl : (str "# " ++ cfg.configPfx ++ name ++ str " is not set\n").dropLast =
      str "# " ++ cfg.configPfx ++ name ++ str " is not set" := by
    rw [show str "# " ++ cfg.configPfx ++ name ++ str " is not set\n" =
        (str "# " ++ cfg.configPfx ++ name ++ str " is not set") ++ ['\n'] from by
      rw [show (str " is not set\n" : Str) = str " is not set" ++ ['\n'] from rfl]
      simp [List.append_assoc]]
    rw [List.dropLast_concat]
  have hrs : rstrip (str "# " ++ cfg.configPfx ++ name ++ str " is not set") =
      str "# " ++ cfg.configPfx ++ name ++ str " is not set" := by
    refine rstrip_eq_self _ 't' ?_ (by decide)
    rw [List.getLast?_append_of_ne_nil _ (by decide : (str " is not set" : Str) ≠ [])]
    rfl
  rw [hdl, hrs]
  constructor
  · rw [show str "# " ++ cfg.configPfx ++ name ++ str " is not set" =
        '#' :: (' ' :: (cfg.configPfx ++ (name ++ str " is not set"))) from by
      rw [show (str "# " : Str) = ['#', ' '] from rfl]
      simp [List.append_assoc]]
    exact matchSetLine_hash_none cfg.configPfx hwfp _
  · exact matchUnsetLine_exact cfg.configPfx name hn hnw

/-- Helper for C1: parsing a written string line. -/
theorem str_line_parse (cfg : Config) (name v : Str)
    (hn : name ≠ []) (hnw : ∀ c ∈ name, wordChar c = true) :
    matchSetLine cfg.configPfx
      (rstrip ((cfg.configPfx ++ name ++ '=' :: '"' ::
         (escapeCfg v ++ '"' :: ['\n'])).dropLast)) =
      some (name, '"' :: (escapeCfg v ++ ['"'])) := by
  have hdl : (cfg.configPfx ++ name ++ '=' :: '"' ::
      (escapeCfg v ++ '"' :: ['\n'])).dropLast =
      cfg.configPfx ++ name ++ '=' :: '"' :: (escapeCfg v ++ ['"']) := by
    rw [show cfg.configPfx ++ name ++ '=' :: '"' :: (escapeCfg v ++ '"' :: ['\n']) =
        (cfg.configPfx ++ name ++ '=' :: '"' :: (escapeCfg v ++ ['"'])) ++ ['\n'] from by
      simp [List.append_assoc]]
    rw [List.dropLast_concat]
  rw [hdl]
  have hlast : (cfg.configPfx ++ name ++ '=' :: '"' ::
      (escapeCfg v ++ ['"'])).getLast? = some '"' := by
    rw [show cfg.configPfx ++ name ++ '=' :: '"' :: (escapeCfg v ++ ['"']) =
        ((cfg.configPfx ++ name) ++ ('=' :: '"' :: escapeCfg v)) ++ ['"'] from by
      simp [List.append_assoc]]
    exact List.getLast?_concat _
  rw [rstrip_eq_self _ '"' hlast (by decide)]
  exact matchSetLine_exact cfg.configPfx name ('"' :: (escapeCfg v ++ ['"'])) hn hnw

/-- Helper for C1: the string value of a bool/tristate symbol renders its
tristate value. -/
theorem symValStr_bt (cfg : Config) (st : State) (prev : Oracle) (i : Nat)
    (sym : Symbol) (hs : getSym cfg i = some sym)
    (hbt : sym.stype = SymType.BOOL ∨ sym.stype = SymType.TRISTATE)
    (val : Str) (wtc : Bool) (hv : symValStrD cfg st prev i = some (val, wtc)) :
    ∃ p : Tri × Bool, symValueTD cfg st prev i = some p ∧ p.1.toStr = val := by
  unfold symValStrD at hv
  rw [hs] at hv
  dsimp only at hv
  rcases hbt with ht | ht <;> rw [ht] at hv <;> dsimp only at hv <;>
    rcases hvt : symValueTD cfg st prev i with _ | p <;>
      rw [hvt] at hv <;> simp at hv <;> exact ⟨p, rfl, hv.1⟩

/-- Helper for C1: a written symbol line (with its trailing newline
removed) targets exactly its own symbol. -/
theorem entry_target (cfg : Config) (st : State) (prev : Oracle) (j : Nat) (s : Str)
    (hwfn : wfNames cfg) (hwfp : wfPfx cfg)
    (hcs : config_string cfg st prev j = some (some s)) :
    lineTarget cfg s.dropLast = some j := by
  obtain ⟨sym, hg, val, hv, hshape⟩ := config_string_shape cfg st prev j s hcs
  have hsmem : sym ∈ cfg.syms := List.getElem?_mem hg
  obtain ⟨hnne, hnw⟩ := hwfn.2 sym hsmem
  have hfind := findSymIdx_name cfg hwfn j sym hg
  rcases hshape with ⟨_, _, hs⟩ | ⟨_, _, hs⟩ | ⟨_, hs⟩ | ⟨_, hs⟩
  · rw [hs]
    unfold lineTarget
    rw [eq_line_parse cfg sym.name val hnne hnw]
    dsimp only
    exact hfind
  · rw [hs]
    obtain ⟨hset, hunset⟩ := unset_line_parse cfg sym.name hwfp hnne hnw
    unfold lineTarget
    rw [hset]
    dsimp only
    rw [hunset]
    dsimp only
    exact hfind
  · rw [hs]
    unfold lineTarget
    rw [eq_line_parse cfg sym.name val hnne hnw]
    dsimp only
    exact hfind
  · rw [hs]
    unfold lineTarget
    rw [str_line_parse cfg sym.name val hnne hnw]
    dsimp only
    exact hfind

/-- Helper for C1: loading a written bool/tristate/string line back sets
the symbol's user value to the written (semantic) value. -/
theorem entry_assign (cfg : Config) (st : State) (prev : Oracle) (i : Nat) (s : Str)
    (hwfn : wfNames cfg) (hwfp : wfPfx cfg)
    (hcs : config_string cfg st prev i = some (some s))
    (sym : Symbol) (hsym : getSym cfg i = some sym)
    (hbts : sym.stype = SymType.BOOL ∨ sym.stype = SymType.TRISTATE ∨
            sym.stype = SymType.STRING)
    (val : Str) (hval : (symValStrD cfg st prev i).map (fun p => p.1) = some val)
    (st2 : State) (hlen2 : i < st2.symSt.length) :
    symUser (loadConfigLine cfg st2 s.dropLast).1 i = some val := by
  obtain ⟨sym2, hg2, val2, hv2, hshape⟩ := config_string_shape cfg st prev i s hcs
  rw [hsym] at hg2
  injection hg2 with hg2
  subst hg2
  rw [hv2] at hval
  simp at hval
  subst hval
  have hsmem : sym ∈ cfg.syms := List.getElem?_mem hsym
  obtain ⟨hnne, hnw⟩ := hwfn.2 sym hsmem
  have hfind : findSymIdx cfg sym.name = some i := findSymIdx_name cfg hwfn i sym hsym
  rcases hshape with ⟨hbt, hn, hs⟩ | ⟨hbt, hn, hs⟩ | ⟨hih, hs⟩ | ⟨hstr, hs⟩
  · obtain ⟨p, hpt, hpv⟩ := symValStr_bt cfg st prev i sym hsym hbt _ _ hv2
    have hvaltri : val2 = str "m" ∨ val2 = str "y" := by
      rcases hp1 : p.1 with _ | _ | _ <;> rw [hp1] at hpv
      · exact absurd hpv.symm hn
      · exact Or.inl hpv.symm
      · exact Or.inr hpv.symm
    have hvalok : validForType sym.stype val2 = true := by
      rcases hbt with hb | ht2
      · have hnm := symValueT_bool_ne_m cfg st prev i sym hsym hb p hpt
        rcases hvaltri with hm | hy
        · exfalso
          apply hnm
          have hh : p.1.toStr = str "m" := by rw [hpv, hm]
          rcases hp1 : p.1 with _ | _ | _ <;> rw [hp1] at hh <;>
            first
            | rfl
            | exact absurd hh (by decide)
        · rw [hb, hy]
          decide
      · rw [ht2]
        rcases hvaltri with hm | hy
        · rw [hm]
          decide
        · rw [hy]
          decide
    have hrs : rstrip val2 = val2 := by
      rcases hvaltri with hm | hy
      · rw [hm]
        rfl
      · rw [hy]
        rfl
    rw [hs]
    unfold loadConfigLine
    dsimp only
    rw [eq_line_parse cfg sym.name val2 hnne hnw]
    rw [hrs]
    dsimp only
    rw [hfind]
    dsimp only
    rw [hsym]
    dsimp only
    rw [if_neg (by
      intro hh
      rcases hbt with hb | hb <;> rw [hb] at hh <;> exact absurd hh.1 (by decide))]
    exact loadAssignTail_user cfg st2 i sym sym.name val2 true hsym hvalok hlen2
  · obtain ⟨hset, hunset⟩ := unset_line_parse cfg sym.name hwfp hnne hnw
    rw [hs]
    unfold loadConfigLine
    dsimp only
    rw [hset]
    dsimp only
    rw [hunset]
    dsimp only
    rw [hfind]
    dsimp only
    rw [hsym]
    dsimp only
    rw [hn]
    exact loadAssignTail_user cfg st2 i sym sym.name (str "n") false hsym
      (by rcases hbt with hb | hb <;> rw [hb] <;> decide) hlen2
  · exfalso
    rcases hbts with hb | hb | hb <;> rcases hih with hi | hi <;> rw [hb] at hi <;>
      cases hi
  · rw [hs]
    unfold loadConfigLine
    dsimp only
    rw [str_line_parse cfg sym.name val2 hnne hnw]
    dsimp only
    rw [hfind]
    dsimp only
    rw [hsym]
    dsimp only
    rw [if_pos ⟨hstr, rfl⟩]
    rw [if_neg (by
      intro hh
      rcases hh with hh | hh
      · simp only [List.length_cons, List.length_append] at hh
        omega
      · apply hh
        rw [show ('"' :: (escapeCfg val2 ++ ['"']) : Str) =
            ('"' :: escapeCfg val2) ++ ['"'] from by simp]
        exact List.getLast?_concat _)]
    rw [show (('"' :: (escapeCfg val2 ++ ['"']) : Str).drop 1).dropLast =
        escapeCfg val2 from by
      rw [show (('"' :: (escapeCfg val2 ++ ['"']) : Str).drop 1) =
          escapeCfg val2 ++ ['"'] from rfl]
      rw [List.dropLast_concat]]
    rw [unescapeCfg_escapeCfg val2]
    exact loadAssignTail_user cfg st2 i sym sym.name val2 true hsym
      (by rw [hstr]; rfl) hlen2

/-- C1 counterexample.  The visible int symbol N with range 10..20 and
default 5 has user value "25".  The writer clamps the out-of-range user
value and emits `CONFIG_N=10`; reloading that file with `replace=True`
succeeds with no warnings, yet N's `user_value` has changed from "25" to
"10".  So `write_config` followed by `load_config(replace=True)` does not
restore `user_value` for every defined visible int symbol, even when every
warning is treated as a failure. -/
theorem claim1_counterexample :
    symUser stC6a 0 = some (str "25") ∧
    symVisAt 3 cfgC6 stC6a 0 = some Tri.y ∧
    ∃ res, round_trip 3 cfgC6 stC6a defaultHeader = some res ∧
      res.2 = [] ∧ symUser res.1 0 = some (str "10") := by
  refine ⟨by rfl, by rfl, ⟨_, rfl, by rfl, by rfl⟩⟩

/-- C1 (amended).  Round trip as implemented: suppose the writer's entries
are defined (`config_entries = some entries`), the header and every banner
block consist only of lines matching neither `.config` pattern, every
emitted symbol line is a single newline-terminated line, and the round trip
returns `res`.  Then every symbol written as a bool, tristate or string line
gets, after the reload, `user_value` equal to its pre-write VALUE
(`symValueAt`) — which equals the old `user_value` only when that value was
not adjusted by the value computation (the int-range clamp of the
counterexample adjusts it). -/
theorem claim1_round_trip (f : Nat) (cfg : Config) (st : State) (header : Str)
    (hwfn : wfNames cfg) (hwfp : wfPfx cfg)
    (hlen : st.symSt.length = cfg.syms.length)
    (entries : List WEntry)
    (hent : config_entries cfg st (valueOracle cfg st f) = some entries)
    (hhead : header = [] ∨ header.getLast? = some '\n')
    (hheadin : ∀ l ∈ fileLines header, inertLine cfg l)
    (hbanin : ∀ t, WEntry.banner t ∈ entries →
       ∀ l ∈ fileLines (bannerStr t), inertLine cfg l)
    (hclean : ∀ j s2, WEntry.symLine j s2 ∈ entries →
       s2.getLast? = some '\n' ∧ '\n' ∉ s2.dropLast)
    (res : State × List Warning)
    (hrt : round_trip f cfg st header = some res)
    (i : Nat) (s : Str) (hmem : WEntry.symLine i s ∈ entries)
    (sym : Symbol) (hsym : getSym cfg i = some sym)
    (hbts : sym.stype = SymType.BOOL ∨ sym.stype = SymType.TRISTATE ∨
            sym.stype = SymType.STRING)
    (val : Str) (hval : symValueAt f cfg st i = some val) :
    symUser res.1 i = some val := by
  have hstrs : config_strings cfg st (valueOracle cfg st f) =
      some (entries.map renderEntry) :=
    config_strings_walk_entries cfg st (valueOracle cfg st f) cfg.menuWalk [] entries hent
  obtain ⟨hmemf, hnd⟩ := config_entries_walk_syms cfg st (valueOracle cfg st f)
    cfg.menuWalk [] entries hent
  unfold round_trip write_config_text at hrt
  rw [hstrs] at hrt
  simp only [Option.map_some'] at hrt
  injection hrt with hrt
  have hends : ∀ p ∈ entries.map renderEntry, p.getLast? = some '\n' := by
    intro p hp
    obtain ⟨e, he, hpe⟩ := List.mem_map.mp hp
    rcases e with ⟨j, s2⟩ | t
    · rw [← hpe]
      exact (hclean j s2 he).1
    · rw [← hpe]
      exact bannerStr_last t
  have hlines : fileLines (header ++ joinStr (entries.map renderEntry)) =
      fileLines header ++ (entries.map renderEntry).flatMap fileLines := by
    rw [fileLines_append_nl header _ hhead]
    rw [fileLines_join _ hends]
  obtain ⟨pre, post, hsplit⟩ := List.mem_iff_append.mp hmem
  have hone : fileLines (renderEntry (WEntry.symLine i s)) = [s.dropLast] := by
    have hc1 := hclean i s hmem
    have hse : s = s.dropLast ++ ['\n'] := eq_dropLast_concat s '\n' hc1.1
    show fileLines s = [s.dropLast]
    conv_lhs => rw [hse]
    exact fileLines_single s.dropLast hc1.2
  have hflat : (entries.map renderEntry).flatMap fileLines =
      (pre.map renderEntry).flatMap fileLines ++
        ([s.dropLast] ++ (post.map renderEntry).flatMap fileLines) := by
    rw [hsplit]
    rw [List.map_append, List.map_cons, List.flatMap_append, List.flatMap_cons]
    rw [hone]
  have hres : symUser res.1 i =
      symUser (loadLines cfg
        (loadConfigLine cfg
          (loadLines cfg (unset_values cfg st)
            (fileLines header ++ (pre.map renderEntry).flatMap fileLines)).1
          s.dropLast).1
        ((post.map renderEntry).flatMap fileLines)).1 i := by
    rw [← hrt]
    unfold load_config
    rw [if_pos rfl]
    rw [hlines, hflat]
    rw [show fileLines header ++
        ((pre.map renderEntry).flatMap fileLines ++
          ([s.dropLast] ++ (post.map renderEntry).flatMap fileLines)) =
        (fileLines header ++ (pre.map renderEntry).flatMap fileLines) ++
          (s.dropLast :: (post.map renderEntry).flatMap fileLines) from by
      simp [List.append_assoc]]
    rw [loadLines_fst_append]
    rw [loadLines]
  rw [hres]
  have hpost : ∀ l ∈ (post.map renderEntry).flatMap fileLines,
      lineTarget cfg l ≠ some i := by
    intro l hl
    obtain ⟨p0, hp0, hlp⟩ := List.mem_flatMap.mp hl
    obtain ⟨e, hepost, hpe⟩ := List.mem_map.mp hp0
    rcases e with ⟨j, s2⟩ | t
    · have hmem2 : WEntry.symLine j s2 ∈ entries := by
        rw [hsplit]
        exact List.mem_append_right _ (List.mem_cons_of_mem _ hepost)
      have hc2 := hclean j s2 hmem2
      have hone2 : l = s2.dropLast := by
        have hse2 : s2 = s2.dropLast ++ ['\n'] := eq_dropLast_concat s2 '\n' hc2.1
        rw [← hpe] at hlp
        have hfl2 : fileLines s2 = [s2.dropLast] := by
          conv_lhs => rw [hse2]
          exact fileLines_single s2.dropLast hc2.2
        rw [show renderEntry (WEntry.symLine j s2) = s2 from rfl, hfl2] at hlp
        simpa using hlp
      subst hone2
      rw [entry_target cfg st (valueOracle cfg st f) j s2 hwfn hwfp
        (hmemf j s2 hmem2).1]
      intro hji
      injection hji with hji
      have hnin : i ∉ post.filterMap wIdx := by
        have h3 : (entries.filterMap wIdx).Nodup := hnd
        rw [hsplit, List.filterMap_append] at h3
        have h2 := h3.of_append_right
        rw [List.filterMap_cons] at h2
        simp only [wIdx] at h2
        exact (List.nodup_cons.mp h2).1
      apply hnin
      rw [← hji]
      exact List.mem_filterMap.mpr ⟨WEntry.symLine j s2, hepost, rfl⟩
    · rw [← hpe] at hlp
      have hinert := hbanin t (by
        rw [hsplit]
        exact List.mem_append_right _ (List.mem_cons_of_mem _ hepost)) l hlp
      rw [inert_target cfg l hinert]
      intro hcon
      cases hcon
  rw [loadLines_symUser cfg i _ _ hpost]
  refine entry_assign cfg st (valueOracle cfg st f) i s hwfn hwfp
    (hmemf i s hmem).1 sym hsym hbts val hval _ ?_
  rw [loadLines_len, unset_values_len, hlen]
  have hsym2 : cfg.syms[i]? = some sym := hsym
  exact (List.getElem?_eq_some.mp hsym2).1

/-- Witness for C1 at the one-symbol bool configuration `cfgFoo`: the round
trip from the initial state writes `CONFIG_FOO=y` and reloads FOO's user
value as "y", the symbol's pre-write value. -/
theorem claim1_round_trip_witness : symUser rtFoo.1 0 = some (str "y") := by
  refine claim1_round_trip 3 cfgFoo (initialState cfgFoo) defaultHeader
    (by unfold wfNames; decide) (by unfold wfPfx; decide) (by rfl)
    [WEntry.symLine 0 (str "CONFIG_FOO=y\n")] (by rfl)
    (Or.inr (by rfl))
    ?_ ?_ ?_ rtFoo (by rfl)
    0 (str "CONFIG_FOO=y\n") (by rw [List.mem_singleton])
    fooSym (by rfl) (Or.inl (by rfl)) (str "y") (by rfl)
  · intro l hl
    rw [show fileLines defaultHeader = [defaultHeader.dropLast] from rfl] at hl
    rw [List.mem_singleton] at hl
    subst hl
    exact ⟨by rfl, by rfl⟩
  · intro t ht
    rw [List.mem_singleton] at ht
    cases ht
  · intro j s2 hm
    rw [List.mem_singleton] at hm
    injection hm with h1 h2
    subst h2
    exact ⟨by rfl, by decide⟩

end KC

